import Mathlib

/-!
Verification of the vcprojm project-file manipulation tool.

The tool edits two line-oriented text documents: a compile-unit document
(`.vcxproj`, handled by `VcxprojFile`) and a filter/hierarchy document
(`.vcxproj.filters`, handled by `FilterFile`), and renders a hierarchical
view (`ProjectStructure`).  The Rust source operates on `String` contents,
mostly after splitting them into a `Vec<String>` of lines.  This development
embeds those operations shallowly:

* a document in line form is a `List String` (the result of Rust `lines()`),
  and a raw content is a `String`;
* Rust's string primitives (`contains`, `find`, `rfind`, `starts_with`,
  `ends_with`, `trim`, `trim_start`, `replace`, slicing) are re-implemented
  on `List Char` by structural recursion, so that every definition is
  executable by the kernel.  Rust byte indices are modelled as character
  indices; the two agree on the ASCII documents the tool manipulates;
* loops that mutate a `Vec<String>` in place while the index moves are
  modelled as recursive functions over the remaining lines.  Where the
  Rust loop is not structurally recursive (it may skip over a removed
  block, or insert lines that are scanned later) the model takes a fuel
  argument; fuel exhaustion leaves the remaining lines untouched, and the
  wrappers supply fuel that is sufficient for every input, so the fuelled
  model agrees with the source on all inputs;
* sources of nondeterminism in the Rust code (`HashSet`/`HashMap` iteration
  order, `uuid` generation) are modelled deterministically: sets and maps
  are association lists in first-insertion order, and fresh unique
  identifiers are an explicit list parameter.  No claim below depends on
  those orders or values.
-/

namespace Vcprojm

/-- Characters of a line, model of Rust `str` operations: `trim_start`. -/
def trimStartS (s : String) : String :=
  ⟨s.data.dropWhile Char.isWhitespace⟩

/-- Model of Rust `trim_end`. -/
def trimEndS (s : String) : String :=
  ⟨(s.data.reverse.dropWhile Char.isWhitespace).reverse⟩

/-- Model of Rust `trim` (both ends). -/
def trimS (s : String) : String :=
  trimEndS (trimStartS s)

/-- Model of Rust `starts_with`. -/
def startsWithS (s pat : String) : Bool :=
  pat.data.isPrefixOf s.data

/-- Model of Rust `ends_with`. -/
def endsWithS (s pat : String) : Bool :=
  pat.data.reverse.isPrefixOf s.data.reverse

/-- Model of Rust substring `contains` on `List Char`. -/
def containsC (pat : List Char) : List Char → Bool
  | [] => pat.isPrefixOf []
  | c :: t => pat.isPrefixOf (c :: t) || containsC pat t

/-- Model of Rust substring `contains`. -/
def containsS (s pat : String) : Bool :=
  containsC pat.data s.data

/-- Model of Rust `find`: index (in characters) of the first occurrence. -/
def findSubC (pat : List Char) : List Char → Option Nat
  | [] => if pat.isPrefixOf [] then some 0 else none
  | c :: t =>
    if pat.isPrefixOf (c :: t) then some 0
    else (findSubC pat t).map (· + 1)

/-- Model of Rust `find` on `String`. -/
def findSubS (s pat : String) : Option Nat :=
  findSubC pat.data s.data

/-- Model of Rust `rfind`: index of the last occurrence. -/
def rfindSubC (pat : List Char) : List Char → Option Nat
  | [] => if pat.isPrefixOf [] then some 0 else none
  | c :: t =>
    match rfindSubC pat t with
    | some i => some (i + 1)
    | none => if pat.isPrefixOf (c :: t) then some 0 else none

/-- Model of Rust `rfind` on `String`. -/
def rfindSubS (s pat : String) : Option Nat :=
  rfindSubC pat.data s.data

/-- Slice `s[a..b]` of Rust, at character granularity. -/
def sliceS (s : String) (a b : Nat) : String :=
  ⟨(s.data.drop a).take (b - a)⟩

/-- Suffix `s[a..]` of Rust. -/
def dropS (s : String) (a : Nat) : String :=
  ⟨s.data.drop a⟩

/-- Fuelled worker for Rust `replace` (replace every occurrence of `pat`).
The wrapper supplies `fuel = length of the string`, which suffices whenever
`pat` is nonempty because every step consumes at least one character; the
tool never replaces an empty pattern. -/
def replaceFuel (pat rep : List Char) : Nat → List Char → List Char
  | 0, s => s
  | _ + 1, [] => []
  | fuel + 1, c :: t =>
    if pat ≠ [] ∧ pat.isPrefixOf (c :: t) then
      rep ++ replaceFuel pat rep fuel ((c :: t).drop pat.length)
    else
      c :: replaceFuel pat rep fuel t

/-- Model of Rust `str::replace`. -/
def replaceS (s pat rep : String) : String :=
  ⟨replaceFuel pat.data rep.data s.data.length s.data⟩

/-- Split a character list at every occurrence of `sep` (the separator is
dropped). Model of Rust `split` for a one-character pattern. -/
def splitSepC (sep : Char) : List Char → List (List Char)
  | [] => [[]]
  | c :: t =>
    match splitSepC sep t with
    | [] => [[c]]
    | h :: r => if c = sep then [] :: h :: r else (c :: h) :: r

/-- Split a string on a separator character. -/
def splitSep (sep : Char) (s : String) : List String :=
  (splitSepC sep s.data).map String.mk

/-- Model of Rust `lines()`: split on `'\n'`, drop a final empty piece
produced by a trailing newline, and strip one trailing `'\r'` per line. -/
def rustLines (s : String) : List String :=
  let ps := splitSepC '\n' s.data
  let ps := if ps.getLast? = some [] then ps.dropLast else ps
  ps.map fun l => ⟨if l.getLast? = some '\r' then l.dropLast else l⟩

/-- Model of `Vec<String>::join("\n")`. -/
def joinNL : List String → String
  | [] => ""
  | [l] => l
  | l :: t => l ++ "\n" ++ joinNL t

/-- Insert a string at character position `i` (model of `String::insert_str`). -/
def insertAtS (s : String) (i : Nat) (ins : String) : String :=
  ⟨s.data.take i ++ ins.data ++ s.data.drop i⟩

/-- Lexicographic order on strings by character, the order Rust `sort()`
uses on `String` (byte order and codepoint order agree in UTF-8). -/
def lexLeC : List Char → List Char → Bool
  | [], _ => true
  | _ :: _, [] => false
  | a :: as, b :: bs => if a < b then true else if b < a then false else lexLeC as bs

/-- String comparison used to model Rust `sort()`. -/
def lexLe (a b : String) : Bool :=
  lexLeC a.data b.data

/-- Stable insertion used by `insertionSort`. -/
def insertSorted (le : α → α → Bool) (x : α) : List α → List α
  | [] => [x]
  | y :: ys => if le x y then x :: y :: ys else y :: insertSorted le x ys

/-- Stable sort, model of Rust's stable `sort`/`sort_by_key`.  The lists the
tool sorts have pairwise distinct keys, so any correct stable sort yields
the Rust result. -/
def insertionSort (le : α → α → Bool) : List α → List α
  | [] => []
  | x :: xs => insertSorted le x (insertionSort le xs)

/-! ## VcxprojFile: the compile-unit document

Model of `src/vcxproj.rs`, `impl VcxprojFile`.  A loaded document is its
raw `content : String`; the mutators work on `content.lines()` and write
back `lines.join("\n")`, exactly as the source does. -/

/-- Extraction of the `Include="..."` attribute value, the
`line.find("Include=\"")` / `line[start + 9..].find('"')` pattern used
throughout `vcxproj.rs` (the literal `Include="` has 9 characters). -/
def extractInclude (line : String) : Option String :=
  match findSubS line "Include=\x22" with
  | none => none
  | some start =>
    match findSubS (dropS line (start + 9)) "\x22" with
    | none => none
    | some e => some (sliceS line (start + 9) (start + 9 + e))

/-- Test `line.trim_start().starts_with("<ClCompile Include=\"")`. -/
def isEntryStart (line : String) : Bool :=
  startsWithS (trimStartS line) "<ClCompile Include=\x22"

/-- Test `line.trim_start().starts_with("<Filter Include=\"")`. -/
def isDeclStart (line : String) : Bool :=
  startsWithS (trimStartS line) "<Filter Include=\x22"

/-- The matching rule of `VcxprojFile::delete_files` (and, identically, of
the first pass of `FilterFile::delete_files_and_filters`): extension match
is textual containment of `.<ext>`; a target ending in a separator is a
folder match in either separator style; any other target is a plain
substring match on the line. -/
def shouldDeleteLine (target : String) (ext : Option String) (line : String) : Bool :=
  match ext with
  | some e => containsS line ("." ++ e)
  | none =>
    if endsWithS target "/" || endsWithS target "\\" then
      containsS line (replaceS target "/" "\\") || containsS line (replaceS target "\\" "/")
    else
      containsS line target

/-- Removal of the tail of a multi-line `<ClCompile>` entry: lines are
dropped up to and including the first line whose `trim()` ends with
`</ClCompile>` (the `while ... lines.remove(i)` loop of the source). -/
def dropEntryTail : List String → List String
  | [] => []
  | l :: rest =>
    if endsWithS (trimS l) "</ClCompile>" then rest else dropEntryTail rest

/-- Loop of `VcxprojFile::delete_files`, returning the reported include
paths and the surviving lines.  Fuel = number of lines suffices: every
step consumes at least the head line. -/
def vcxDeleteLoop (target : String) (ext : Option String) : Nat → List String → List String × List String
  | 0, ls => ([], ls)
  | _ + 1, [] => ([], [])
  | fuel + 1, l :: rest =>
    if isEntryStart l then
      if shouldDeleteLine target ext l then
        let rest2 := if endsWithS (trimS l) "/>" then rest else dropEntryTail rest
        let r := vcxDeleteLoop target ext fuel rest2
        ((extractInclude l).toList ++ r.1, r.2)
      else
        let r := vcxDeleteLoop target ext fuel rest
        (r.1, l :: r.2)
    else
      let r := vcxDeleteLoop target ext fuel rest
      (r.1, l :: r.2)

/-- `VcxprojFile::delete_files` at line granularity. -/
def deleteFilesLines (target : String) (ext : Option String) (ls : List String) : List String × List String :=
  vcxDeleteLoop target ext ls.length ls

/-- `VcxprojFile::delete_files`: returns the reported deleted paths and the
new `content` (`lines.join("\n")`). -/
def deleteFilesContent (target : String) (ext : Option String) (content : String) : List String × String :=
  let r := deleteFilesLines target ext (rustLines content)
  (r.1, joinNL r.2)

/-! ### Per-configuration property injection

`add_include_directory`, `add_library_directory` and
`add_library_dependency` are three copies of one algorithm that differ
only in the section tag (`ClCompile` vs `Link`) and the property tag; the
model factors the common loop over those two names.  The inheritance token
of a property `P` is the literal `%(P)`. -/

/-- Extraction of the `Condition="..."` attribute (the literal
`Condition="` has 11 characters). -/
def extractCondition (line : String) : Option String :=
  match findSubS line "Condition=\x22" with
  | none => none
  | some start =>
    match findSubS (dropS line (start + 11)) "\x22" with
    | none => none
    | some e => some (sliceS line (start + 11) (start + 11 + e))

/-- The fresh property line the source inserts, e.g.
`      <P>value;%(P)</P>`. -/
def newPropLine (propTag val : String) : String :=
  "      <" ++ propTag ++ ">" ++ val ++ ";%(" ++ propTag ++ ")</" ++ propTag ++ ">"

/-- Mutation of an existing property line: if the inheritance token is
present the value is spliced in directly before it, otherwise the value is
appended directly before the closing tag. -/
def replacePropLine (propTag val line : String) : String :=
  if containsS line ("%(" ++ propTag ++ ")") then
    replaceS line ("%(" ++ propTag ++ ")") (val ++ ";%(" ++ propTag ++ ")")
  else
    replaceS line ("</" ++ propTag ++ ">") (";" ++ val ++ "</" ++ propTag ++ ">")

/-- Scan for the first `<sec>` line strictly before the closing
`</ItemDefinitionGroup>` (the `j` loop of the source). -/
def splitAtSection (secName : String) : List String → Option (List String × String × List String)
  | [] => none
  | l :: rest =>
    if startsWithS (trimS l) "</ItemDefinitionGroup>" then none
    else if startsWithS (trimStartS l) ("<" ++ secName ++ ">") then some ([], l, rest)
    else
      match splitAtSection secName rest with
      | none => none
      | some (pre, x, post) => some (l :: pre, x, post)

/-- Scan for the first `<prop>` line strictly before the closing
`</sec>` (the `k` loop of the source). -/
def splitAtProp (propTag secName : String) : List String → Option (List String × String × List String)
  | [] => none
  | l :: rest =>
    if startsWithS (trimS l) ("</" ++ secName ++ ">") then none
    else if startsWithS (trimStartS l) ("<" ++ propTag ++ ">") then some ([], l, rest)
    else
      match splitAtProp propTag secName rest with
      | none => none
      | some (pre, x, post) => some (l :: pre, x, post)

/-- Processing of one `<ItemDefinitionGroup' block: `rest` is everything
after the `ItemDefinitionGroup` start line; the function performs the
section lookup/creation, property lookup/creation and value splice of the
source on it. -/
def processIDG (secName propTag val : String) (rest : List String) : List String :=
  match splitAtSection secName rest with
  | none =>
    ("    <" ++ secName ++ ">") :: newPropLine propTag val ::
      ("    </" ++ secName ++ ">") :: rest
  | some (pre, secLine, post) =>
    match splitAtProp propTag secName post with
    | none => pre ++ secLine :: newPropLine propTag val :: post
    | some (pre2, propLine, post2) =>
      pre ++ secLine :: (pre2 ++ replacePropLine propTag val propLine :: post2)

/-- Outer loop of the three property-injection functions.  The Rust loop
walks a vector that grows by at most 3 lines per configuration block, so
fuel `4 * length + 4` supplied by the wrappers is sufficient for every
input. -/
def addPropLoop (secName propTag val : String) : Nat → List String → List String × List String
  | 0, ls => ([], ls)
  | _ + 1, [] => ([], [])
  | fuel + 1, l :: rest =>
    if startsWithS (trimStartS l) "<ItemDefinitionGroup Condition=" then
      let r := addPropLoop secName propTag val fuel (processIDG secName propTag val rest)
      ((extractCondition l).toList ++ r.1, l :: r.2)
    else
      let r := addPropLoop secName propTag val fuel rest
      (r.1, l :: r.2)

/-- `VcxprojFile::add_include_directory`: returns the touched configuration
identifiers and the new content. -/
def addIncludeDirectory (includePath content : String) : List String × String :=
  let ls := rustLines content
  let r := addPropLoop "ClCompile" "AdditionalIncludeDirectories" includePath (4 * ls.length + 4) ls
  (r.1, joinNL r.2)

/-- `VcxprojFile::add_library_directory`. -/
def addLibraryDirectory (libPath content : String) : List String × String :=
  let ls := rustLines content
  let r := addPropLoop "Link" "AdditionalLibraryDirectories" libPath (4 * ls.length + 4) ls
  (r.1, joinNL r.2)

/-- `VcxprojFile::add_library_dependency`. -/
def addLibraryDependency (libName content : String) : List String × String :=
  let ls := rustLines content
  let r := addPropLoop "Link" "AdditionalDependencies" libName (4 * ls.length + 4) ls
  (r.1, joinNL r.2)

/-! ## FilterFile: the filter/hierarchy document

Model of `src/vcxproj.rs`, `impl FilterFile`. -/

/-- Extraction of the inner text of a `<Filter>...</Filter>` element from a
line (`find("<Filter>")`, `find("</Filter>")`, slice between; the literal
`<Filter>` has 8 characters). -/
def extractBodyFilter (line : String) : Option String :=
  match findSubS line "<Filter>", findSubS line "</Filter>" with
  | some a, some b => some (sliceS line (a + 8) b)
  | _, _ => none

/-- Collection of every `<Filter>` value inside one entry body, the scan of
the first pass of `delete_files_and_filters` that fills
`filters_to_delete`.  Stops at the first line whose `trim()` starts with
`</ClCompile>`. -/
def scanEntryFilters : List String → List String
  | [] => []
  | l :: rest =>
    if startsWithS (trimS l) "</ClCompile>" then []
    else if startsWithS (trimStartS l) "<Filter>" then
      (extractBodyFilter l).toList ++ scanEntryFilters rest
    else scanEntryFilters rest

/-- First pass of `FilterFile::delete_files_and_filters`: removes matching
entries (this pass has no special case for self-closing tags), reports
their include paths and collects the `<Filter>` names seen in their
bodies.  Fuel = number of lines suffices. -/
def fltrPassOne (target : String) (ext : Option String) : Nat → List String → List String × List String × List String
  | 0, ls => ([], [], ls)
  | _ + 1, [] => ([], [], [])
  | fuel + 1, l :: rest =>
    if isEntryStart l then
      if shouldDeleteLine target ext l then
        let r := fltrPassOne target ext fuel (dropEntryTail rest)
        ((extractInclude l).toList ++ r.1, scanEntryFilters rest ++ r.2.1, r.2.2)
      else
        let r := fltrPassOne target ext fuel rest
        (r.1, r.2.1, l :: r.2.2)
    else
      let r := fltrPassOne target ext fuel rest
      (r.1, r.2.1, l :: r.2.2)

/-- The bare node-name mode test of `delete_files_and_filters`: the target
contains no dot and no separator and no extension was supplied. -/
def isFilterDeletion (target : String) (ext : Option String) : Bool :=
  !containsS target "." && !containsS target "/" && !containsS target "\\" && ext.isNone

/-- Body scan shared by the second pass of `delete_files_and_filters` and
by `filter_has_files`: walks an entry body up to the line whose `trim()`
starts with `</ClCompile>`, looking for a line that starts (after leading
whitespace) with `<Filter>` and contains `>name<`. -/
def bodyHasFilter (name : String) : List String → Bool
  | [] => false
  | l :: rest =>
    if startsWithS (trimS l) "</ClCompile>" then false
    else if startsWithS (trimStartS l) "<Filter>" && containsS l (">" ++ name ++ "<") then true
    else bodyHasFilter name rest

/-- Second pass of `delete_files_and_filters` (bare node-name mode only):
removes every entry whose body assigns it to `target`. -/
def fltrPassTwo (target : String) : Nat → List String → List String × List String
  | 0, ls => ([], ls)
  | _ + 1, [] => ([], [])
  | fuel + 1, l :: rest =>
    if isEntryStart l then
      if bodyHasFilter target rest then
        let r := fltrPassTwo target fuel (dropEntryTail rest)
        ((extractInclude l).toList ++ r.1, r.2)
      else
        let r := fltrPassTwo target fuel rest
        (r.1, l :: r.2)
    else
      let r := fltrPassTwo target fuel rest
      (r.1, l :: r.2)

/-- `FilterFile::filter_has_files`: true when some entry of the document
assigns a file to `name`.  The source looks the entry line up by first
occurrence (`iter().position(...)`) before scanning its body. -/
def filterHasFiles (lines : List String) (name : String) : Bool :=
  lines.any fun l =>
    isEntryStart l &&
      bodyHasFilter name (lines.drop (((lines.findIdx? (· == l)).getD 0) + 1))

/-- Removal of the tail of a multi-line `<Filter>` declaration block. -/
def dropFilterTail : List String → List String
  | [] => []
  | l :: rest =>
    if endsWithS (trimS l) "</Filter>" then rest else dropFilterTail rest

/-- Third pass of `delete_files_and_filters`: removes a `<Filter Include=...>`
declaration when its name was collected in `filters_to_delete`, equals a
bare-mode target, or — in every delete call — when `filter_has_files` does
not find a file assigned to it in the current document.  `done` carries the
lines already kept, because `filter_has_files` scans the whole current
vector. -/
def fltrPassThree (ftd : List String) (isFD : Bool) (target : String) : Nat → List String → List String → List String × List String
  | 0, _, ls => ([], ls)
  | _ + 1, _, [] => ([], [])
  | fuel + 1, done, l :: rest =>
    if isDeclStart l then
      match extractInclude l with
      | none =>
        let r := fltrPassThree ftd isFD target fuel (done ++ [l]) rest
        (r.1, l :: r.2)
      | some name =>
        if ftd.contains name || (isFD && name == target) ||
            !filterHasFiles (done ++ l :: rest) name then
          let rest2 := if endsWithS (trimS l) "/>" then rest else dropFilterTail rest
          let r := fltrPassThree ftd isFD target fuel done rest2
          (name :: r.1, r.2)
        else
          let r := fltrPassThree ftd isFD target fuel (done ++ [l]) rest
          (r.1, l :: r.2)
    else
      let r := fltrPassThree ftd isFD target fuel (done ++ [l]) rest
      (r.1, l :: r.2)

/-- `FilterFile::delete_files_and_filters` at line granularity: returns the
deleted file paths, the deleted filter names and the surviving lines. -/
def deleteFiltersLines (target : String) (ext : Option String) (ls : List String) : List String × List String × List String :=
  let r1 := fltrPassOne target ext ls.length ls
  let isFD := isFilterDeletion target ext
  let r2 := if isFD then fltrPassTwo target r1.2.2.length r1.2.2 else ([], r1.2.2)
  let ftd := if isFD then r1.2.1 ++ [target] else r1.2.1
  let r3 := fltrPassThree ftd isFD target r2.2.length [] r2.2
  (r1.1 ++ r2.1, r3.1, r3.2)

/-- `FilterFile::delete_files_and_filters` on raw content. -/
def deleteFiltersContent (target : String) (ext : Option String) (content : String) : (List String × List String) × String :=
  let r := deleteFiltersLines target ext (rustLines content)
  ((r.1, r.2.1), joinNL r.2.2)

/-- Scan of one entry body for its first well-formed `<Filter>` element,
used by `get_file_filters`. -/
def bodyFirstFilter : List String → Option String
  | [] => none
  | l :: rest =>
    if startsWithS (trimS l) "</ClCompile>" then none
    else if startsWithS (trimStartS l) "<Filter>" then
      match extractBodyFilter l with
      | some f => some f
      | none => bodyFirstFilter rest
    else bodyFirstFilter rest

/-- `FilterFile::get_file_filters`: the file → filter assignment pairs in
document order (self-closing entries carry no assignment). -/
def getFileFilters : List String → List (String × String)
  | [] => []
  | l :: rest =>
    if isEntryStart l then
      match extractInclude l with
      | some p =>
        if endsWithS (trimS l) "/>" then getFileFilters rest
        else
          match bodyFirstFilter rest with
          | some f => (p, f) :: getFileFilters rest
          | none => getFileFilters rest
      | none => getFileFilters rest
    else getFileFilters rest

/-- Deduplication keeping the last binding of each key, the observable
content of the `HashMap` that `get_file_filters` fills by `insert`. -/
def dedupKeepLast : List (String × String) → List (String × String)
  | [] => []
  | p :: rest =>
    if rest.any (·.1 == p.1) then dedupKeepLast rest else p :: dedupKeepLast rest

/-- Deduplication keeping first occurrences (key set of a `HashMap` in
first-insertion order). -/
def dedupFirstAux (seen : List String) : List String → List String
  | [] => []
  | x :: xs => if seen.contains x then dedupFirstAux seen xs else x :: dedupFirstAux (x :: seen) xs

/-- Append a file to the entry of filter `k`, if that filter is declared
(`if let Some(files) = filters.get_mut(&filter)`). -/
def alAppend (m : List (String × List String)) (k v : String) : List (String × List String) :=
  m.map fun p => if p.1 == k then (p.1, p.2 ++ [v]) else p

/-- `FilterFile::get_all_filters`: every declared filter name mapped to the
files assigned to it; files assigned to undeclared filters are dropped.
Association lists stand in for the source's `HashMap`s;
no claim depends on their iteration order. -/
def getAllFilters (ls : List String) : List (String × List String) :=
  let declNames := ls.filterMap fun l => if isDeclStart l then extractInclude l else none
  let base := (dedupFirstAux [] declNames).map fun n => (n, ([] : List String))
  (dedupKeepLast (getFileFilters ls)).foldl (fun m pf => alAppend m pf.2 pf.1) base

/-- Presence test of a declared filter, the first pass of
`FilterFile::rename_filter`. -/
def declaredFilter (ls : List String) (name : String) : Bool :=
  ls.any fun l => isDeclStart l && (extractInclude l == some name)

/-- Rewrite of one line by the second pass of `rename_filter`: a
declaration of `fromN` has its `Include` attribute replaced; an assignment
line `<Filter>fromN</Filter>` has `>fromN<` replaced.  The source applies
the two `if`s in sequence, the second overwriting from the original line. -/
def renameLine (fromN toN : String) (l : String) : String :=
  let a :=
    if isDeclStart l && (extractInclude l == some fromN) then
      replaceS l ("Include=\x22" ++ fromN ++ "\x22") ("Include=\x22" ++ toN ++ "\x22")
    else l
  if startsWithS (trimStartS l) "<Filter>" && endsWithS (trimStartS l) "</Filter>" &&
      (extractBodyFilter l == some fromN) then
    replaceS l (">" ++ fromN ++ "<") (">" ++ toN ++ "<")
  else a

/-- Body scan of the collection pass of `rename_filter`: any body line
containing `>toN<` counts. -/
def bodyContainsTo (toN : String) : List String → Bool
  | [] => false
  | l :: rest =>
    if startsWithS (trimS l) "</ClCompile>" then false
    else if containsS l (">" ++ toN ++ "<") then true
    else bodyContainsTo toN rest

/-- Collection pass of `rename_filter`: the entries whose body now points
at `toN` (this also picks up files that were under `toN` already). -/
def collectRenamed (toN : String) : List String → List String
  | [] => []
  | l :: rest =>
    if isEntryStart l then
      match extractInclude l with
      | some p =>
        if bodyContainsTo toN rest then p :: collectRenamed toN rest
        else collectRenamed toN rest
      | none => collectRenamed toN rest
    else collectRenamed toN rest

/-- `FilterFile::rename_filter`: fails when `fromN` is not declared;
otherwise rewrites declaration and assignments and returns whether `toN`
was already declared, the collected file list and the new lines. -/
def renameFilter (fromN toN : String) (ls : List String) : Except String (Bool × List String × List String) :=
  let fExists := declaredFilter ls fromN
  let tExists := declaredFilter ls toN
  if !fExists then Except.error ("Filter " ++ fromN ++ " not found in project")
  else
    let ls2 := ls.map (renameLine fromN toN)
    Except.ok (tExists, collectRenamed toN ls2, ls2)

/-- Body rewrite of `merge_filters`: the first body line containing
`>fromN<` (before the closing tag) is rewritten to point at `toN`. -/
def mergeBodyReplace (fromN toN : String) : List String → Bool × List String
  | [] => (false, [])
  | l :: rest =>
    if startsWithS (trimS l) "</ClCompile>" then (false, l :: rest)
    else if containsS l (">" ++ fromN ++ "<") then
      (true, replaceS l (">" ++ fromN ++ "<") (">" ++ toN ++ "<") :: rest)
    else
      let r := mergeBodyReplace fromN toN rest
      (r.1, l :: r.2)

/-- First pass of `merge_filters`: moves every assignment from `fromN` to
`toN`, collecting the moved include paths.  Fuel = number of lines
suffices (the body rewrite preserves the length of the tail). -/
def mergePassOne (fromN toN : String) : Nat → List String → List String × List String
  | 0, ls => ([], ls)
  | _ + 1, [] => ([], [])
  | fuel + 1, l :: rest =>
    if isEntryStart l then
      match extractInclude l with
      | some p =>
        let rb := mergeBodyReplace fromN toN rest
        let r := mergePassOne fromN toN fuel rb.2
        ((if rb.1 then [p] else []) ++ r.1, l :: r.2)
      | none =>
        let r := mergePassOne fromN toN fuel rest
        (r.1, l :: r.2)
    else
      let r := mergePassOne fromN toN fuel rest
      (r.1, l :: r.2)

/-- Second pass of `merge_filters`: removes the first declaration of
`fromN` (and stops). -/
def removeFirstDecl (fromN : String) : List String → List String
  | [] => []
  | l :: rest =>
    if isDeclStart l && (extractInclude l == some fromN) then
      if endsWithS (trimS l) "/>" then rest else dropFilterTail rest
    else l :: removeFirstDecl fromN rest

/-- `FilterFile::merge_filters`: returns the moved files and the new lines. -/
def mergeFilters (fromN toN : String) (ls : List String) : List String × List String :=
  let r := mergePassOne fromN toN ls.length ls
  (r.1, removeFirstDecl fromN r.2)

/-! ## FilterFile::add_source_files_with_hierarchy

This mutator works on the raw content string with `find`/`rfind`/
`insert_str`, so it is modelled at character granularity.  `PathBuf`
values are modelled as `/`-separated strings, the form the Unix scanner
produces; `parent()` and `extension()` are modelled for relative paths
made of plain components, the only paths the tool feeds them. -/

/-- Join with a separator (Rust `join`). -/
def joinSep (sep : String) : List String → String
  | [] => ""
  | [x] => x
  | x :: t => x ++ sep ++ joinSep sep t

/-- Model of `Path::parent` for relative paths. -/
def parentPath (p : String) : Option String :=
  if p = "" then none
  else some (joinSep "/" ((splitSep '/' p).dropLast))

/-- Model of `Path::extension`. -/
def extOf (p : String) : Option String :=
  let seg := ((splitSep '/' p).getLast?).getD ""
  match splitSep '.' seg with
  | [] => none
  | [_] => none
  | h :: t => if h = "" ∧ t.length = 1 then none else (h :: t).getLast?

/-- The recognized source-file extensions. -/
def isSourceExt (e : String) : Bool :=
  e == "c" || e == "cpp" || e == "cc" || e == "cxx"

/-- One `<Filter>` declaration block as formatted by the source; the fresh
unique identifier is an explicit parameter (the source draws a random
uppercase UUID). -/
def filterDeclBlock (dir uuid : String) : String :=
  "    <Filter Include=\x22" ++ dir ++ "\x22>\n      <UniqueIdentifier>\x7b" ++ uuid ++
    "\x7d</UniqueIdentifier>\n    </Filter>\n"

/-- The parent-directory filter names collected from the hierarchy-relative
paths (a `HashSet`, modelled in first-insertion order). -/
def hierDirs (scanFiles : List String) : List String :=
  dedupFirstAux [] (scanFiles.filterMap fun f =>
    match parentPath f with
    | some par =>
      let fn := replaceS par "/" "\\"
      if fn = "" then none else some fn
    | none => none)

/-- The filter-declaration text inserted for the new directories. -/
def newFiltersText (dirs uuids : List String) : String :=
  String.join ((dirs.zip uuids).map fun du => filterDeclBlock du.1 du.2)

/-- One `<ClCompile>` block: include path from the project-relative
projection, `<Filter>` assignment from the hierarchy-relative one
(`Source Files` when the parent is empty). -/
def clcompileBlock (proj scan : String) : String :=
  match extOf proj with
  | some e =>
    if isSourceExt e then
      let ip := replaceS proj "/" "\\"
      let fl :=
        match parentPath scan with
        | some par =>
          let fn := replaceS par "/" "\\"
          if fn = "" then "      <Filter>Source Files</Filter>\n"
          else "      <Filter>" ++ fn ++ "</Filter>\n"
        | none => "      <Filter>Source Files</Filter>\n"
      "    <ClCompile Include=\x22" ++ ip ++ "\x22>\n" ++ fl ++ "    </ClCompile>\n"
    else ""
  | none => ""

/-- The compile-entry text for all new files. -/
def newClcompileText (projFiles scanFiles : List String) : String :=
  String.join ((projFiles.zip scanFiles).map fun ps => clcompileBlock ps.1 ps.2)

/-- Insertion of the new filter declarations: at the end of the item group
holding the first existing declaration, or wrapped in a fresh item group
before the first `  </ItemGroup>` line; every failed anchor lookup leaves
the content unchanged. -/
def insertFilters (content nf : String) : String :=
  if nf = "" then content
  else
    match findSubS content "<Filter Include=" with
    | some pos =>
      match rfindSubS (sliceS content 0 pos) "<ItemGroup>" with
      | some ig =>
        match findSubS (dropS content ig) "</ItemGroup>" with
        | some e => insertAtS content (ig + e) nf
        | none => content
      | none => content
    | none =>
      match findSubS content "  </ItemGroup>" with
      | some pos =>
        insertAtS content pos ("  <ItemGroup>\n" ++ trimEndS nf ++ "\n  </ItemGroup>\n")
      | none => content

/-- Insertion of the new compile entries: at the end of the item group
holding the first existing entry, or in a fresh item group before the
closing `</Project>` tag. -/
def insertClcompile (content nc : String) : String :=
  if nc = "" then content
  else
    match findSubS content "<ClCompile Include=" with
    | some pos =>
      match rfindSubS (sliceS content 0 pos) "<ItemGroup>" with
      | some ig =>
        match findSubS (dropS content ig) "</ItemGroup>" with
        | some e => insertAtS content (ig + e) nc
        | none => content
      | none => content
    | none =>
      match rfindSubS content "</Project>" with
      | some pos =>
        insertAtS content pos ("  <ItemGroup>\n" ++ trimEndS nc ++ "\n  </ItemGroup>\n")
      | none => content

/-- `FilterFile::add_source_files_with_hierarchy`. -/
def addSourceFilesWithHierarchy (projFiles scanFiles uuids : List String) (content : String) : String :=
  let nf := newFiltersText (hierDirs scanFiles) uuids
  let nc := newClcompileText projFiles scanFiles
  insertClcompile (insertFilters content nf) nc

/-! ## ProjectStructure: hierarchy reconstruction and rendering

`display_tree` builds one output string by pushing newline-terminated
pieces; the model returns the list of pushed lines. -/

/-- One project file as carried by `ProjectStructure` (`path` plus the
assigned filter, if any). -/
structure PFile where
  path : String
  fltr : Option String
deriving DecidableEq, Repr

/-- `ProjectStructure`: project name, files, and declared filters with
their files (only the key set of `filters` is consulted by rendering). -/
structure PStructure where
  name : String
  files : List PFile
  filters : List (String × List String)
deriving DecidableEq, Repr

/-- Append `v` to the group of key `k`, creating the group at the end if
missing (the grouping `HashMap` of `display_tree`, in first-insertion
order). -/
def alPushP (m : List (String × List PFile)) (k : String) (v : PFile) : List (String × List PFile) :=
  if m.any (·.1 == k) then m.map fun p => if p.1 == k then (p.1, p.2 ++ [v]) else p
  else m ++ [(k, [v])]

/-- Grouping of the files by their assigned filter. -/
def groupFilterFiles (files : List PFile) : List (String × List PFile) :=
  files.foldl (fun m f => match f.fltr with | some k => alPushP m k f | none => m) []

/-- Parent of a qualified filter name: all segments but the last, or the
empty string for a single segment. -/
def parentName (f : String) : String :=
  let parts := splitSep '\\' f
  if parts.length = 1 then "" else joinSep "\\" parts.dropLast

/-- The sorted list of all filter names known to the renderer: filters with
files plus declared filters. -/
def allFiltersOf (ps : PStructure) : List String :=
  let ks := (groupFilterFiles ps.files).map (·.1)
  let ks2 := ps.filters.foldl (fun acc p => if acc.contains p.1 then acc else acc ++ [p.1]) ks
  insertionSort lexLe ks2

/-- Display name of a filter: its last segment. -/
def lastSeg (n : String) : String :=
  if containsS n "\\" then ((splitSep '\\' n).getLast?).getD n else n

/-- Model of `Path::new(p).file_name().unwrap_or_default()` on Unix, for
paths whose components are plain names. -/
def fileNameOf (p : String) : String :=
  match ((splitSep '/' p).filter (· ≠ "")).getLast? with
  | some s => if s = ".." then "" else s
  | none => ""

/-- Whether a rendered line contains the file marker character `📄` (used
to state which output lines are file lines). -/
def hasMark (l : String) : Bool :=
  l.data.any (· == '📄')

/-- `ProjectStructure::display_filter_recursive`.  `tree` and `fmap` are
the child map and files map built by `display_hierarchical_tree`.  The
Rust recursion over child names terminates because each child has one more
segment than its parent; the model uses fuel, and the wrapper supplies
`number of filters + 1`, which bounds every parent chain. -/
def displayFilterRec (tree : String → List String) (fmap : String → List PFile) (filesOnly : Bool) (maxLevel : Option Nat) : Nat → String → String → Bool → Nat → List String
  | 0, _, _, _, _ => []
  | fuel + 1, name, pfx, isLast, depth =>
    let cut :=
      match maxLevel with
      | some m => if m = 0 then false else decide (depth > m)
      | none => false
    if cut then []
    else
      let files := fmap name
      let children := tree name
      if filesOnly && files.isEmpty && children.isEmpty then []
      else
        let sym := if isLast then "└── " else "├── "
        let thisLine := pfx ++ sym ++ "📁 " ++ lastSeg name
        let childPfx := pfx ++ (if isLast then "    " else "│   ")
        let total := children.length + files.length
        let childLines := (children.enum.map fun ic =>
          displayFilterRec tree fmap filesOnly maxLevel fuel ic.2 childPfx (ic.1 == total - 1) (depth + 1)).flatten
        let showFiles :=
          match maxLevel with
          | none => true
          | some m => decide (0 < m) && decide (depth + 1 ≤ m)
        let fileLines :=
          if showFiles then
            (insertionSort (fun a b => lexLe a.path b.path) files).enum.map fun jf =>
              childPfx ++ (if children.length + jf.1 == total - 1 then "└── " else "├── ") ++
                "📄 " ++ fileNameOf jf.2.path
          else []
        thisLine :: (childLines ++ fileLines)

/-- `ProjectStructure::display_hierarchical_tree`: unassigned files first
(unless `level = some 0`), then the root-level filters. -/
def displayHierarchicalTree (ps : PStructure) (filesOnly : Bool) (level : Option Nat) : List String :=
  let ff := groupFilterFiles ps.files
  let unfiltered := ps.files.filter (·.fltr.isNone)
  let allF := allFiltersOf ps
  let tree := fun p => allF.filter fun f => parentName f == p
  let fmap := fun n => (((ff.find? (·.1 == n)).map (·.2)).getD [])
  let showRootFiles := match level with | none => true | some l => decide (0 < l)
  let rootFilters := tree ""
  let unfCount := if showRootFiles then unfiltered.length else 0
  let total := unfCount + rootFilters.length
  let fileLines :=
    if showRootFiles then
      unfiltered.enum.map fun jf =>
        (if jf.1 == total - 1 then "└── " else "├── ") ++ "📄 " ++ fileNameOf jf.2.path
    else []
  let fltrLines := (rootFilters.enum.map fun ic =>
    displayFilterRec tree fmap filesOnly level (allF.length + 1) ic.2 "" (unfCount + ic.1 == total - 1) 1).flatten
  fileLines ++ fltrLines

/-- `ProjectStructure::display_tree` (the ignored `_show_extensions`
argument is dropped): the pushed output lines. -/
def displayTree (ps : PStructure) (filesOnly : Bool) (level : Option Nat) : List String :=
  let hdr := "📁 " ++ ps.name ++ ".vcxproj"
  if ps.files.isEmpty && ps.filters.isEmpty then [hdr, "   (empty project)"]
  else hdr :: displayHierarchicalTree ps filesOnly level

/-! ## main.rs: the delete preview/commit path

`delete_from_project` previews by running `delete_files` on the loaded
content, restoring the content, filtering the reported list through the
optional regex (as a predicate `String → Bool`, with optional negation),
and — except when the filtered report is empty, where nothing is written —
committing by running `delete_files` again on the restored content. -/

/-- Model of `delete_from_project` (vcxproj document path): `none` when the
preview reports nothing (no write happens); otherwise the reported list,
the list the commit pass actually removed, and the committed content. -/
def deleteFromProject (content target : String) (ext : Option String) (rx : Option (String → Bool)) (negate : Bool) : Option (List String × List String × String) :=
  let previewAll := (deleteFilesContent target ext content).1
  let reported :=
    match rx with
    | some r => previewAll.filter fun f => if negate then !(r f) else r f
    | none => previewAll
  if reported.isEmpty then none
  else
    let r := deleteFilesContent target ext content
    some (reported, r.1, r.2)

/-! ## Concrete documents used by the claims -/

/-- A filter document with three declared nodes — `Source Files` and
`Header Files` each holding one file, `Empty` holding none. -/
def headerFilesDoc : List String := [
  "<?xml version=\x221.0\x22 encoding=\x22utf-8\x22?>",
  "<Project ToolsVersion=\x224.0\x22>",
  "  <ItemGroup>",
  "    <Filter Include=\x22Source Files\x22>",
  "      <UniqueIdentifier>AAA</UniqueIdentifier>",
  "    </Filter>",
  "    <Filter Include=\x22Header Files\x22>",
  "      <UniqueIdentifier>BBB</UniqueIdentifier>",
  "    </Filter>",
  "    <Filter Include=\x22Empty\x22>",
  "      <UniqueIdentifier>CCC</UniqueIdentifier>",
  "    </Filter>",
  "  </ItemGroup>",
  "  <ItemGroup>",
  "    <ClCompile Include=\x22src\\main.cpp\x22>",
  "      <Filter>Source Files</Filter>",
  "    </ClCompile>",
  "    <ClCompile Include=\x22inc\\util.cpp\x22>",
  "      <Filter>Header Files</Filter>",
  "    </ClCompile>",
  "  </ItemGroup>",
  "</Project>"]

/-- A filter document declaring both `Old` (one file) and `New` (one
file). -/
def renameDoc : List String := [
  "<Project>",
  "  <ItemGroup>",
  "    <Filter Include=\x22Old\x22>",
  "      <UniqueIdentifier>AAA</UniqueIdentifier>",
  "    </Filter>",
  "    <Filter Include=\x22New\x22>",
  "      <UniqueIdentifier>BBB</UniqueIdentifier>",
  "    </Filter>",
  "  </ItemGroup>",
  "  <ItemGroup>",
  "    <ClCompile Include=\x22a.cpp\x22>",
  "      <Filter>Old</Filter>",
  "    </ClCompile>",
  "    <ClCompile Include=\x22b.cpp\x22>",
  "      <Filter>New</Filter>",
  "    </ClCompile>",
  "  </ItemGroup>",
  "</Project>"]

/-- Count of declarations of filter `n` in a line list. -/
def declCount (ls : List String) (n : String) : Nat :=
  ls.countP fun l => isDeclStart l && (extractInclude l == some n)

/-- The hierarchy `a\b\c` holding one file, for the depth-rendering
claims. -/
def abcStructure : PStructure :=
  { name := "p"
  , files := [{ path := "a\\b\\c\\f.cpp", fltr := some "a\\b\\c" }]
  , filters := [("a", []), ("a\\b", []), ("a\\b\\c", [])] }

/-- A structure declaring the node `a\b` without its parent `a`. -/
def orphanStructure : PStructure :=
  { name := "p", files := [], filters := [("a\\b", [])] }

/-- A structure declaring `a` and `a\b`, neither holding any file. -/
def emptyPairStructure : PStructure :=
  { name := "p", files := [], filters := [("a", []), ("a\\b", [])] }

/-- A project document with two configuration blocks; the Debug block has
an include-directory property holding the value `old` and the inheritance
token, the Release block has a `ClCompile` section without that property
and no `Link` section. -/
def propDoc : String :=
  "<Project>\n  <ItemDefinitionGroup Condition=\x22Debug|x64\x22>\n    <ClCompile>\n      <AdditionalIncludeDirectories>old;%(AdditionalIncludeDirectories)</AdditionalIncludeDirectories>\n    </ClCompile>\n  </ItemDefinitionGroup>\n  <ItemDefinitionGroup Condition=\x22Release|x64\x22>\n    <ClCompile>\n      <PrecompiledHeader>Use</PrecompiledHeader>\n    </ClCompile>\n  </ItemDefinitionGroup>\n</Project>\n"

/-- The semicolon-separated value list of property `propTag` on a line. -/
def propValues (propTag line : String) : List String :=
  match findSubS line ("<" ++ propTag ++ ">"), findSubS line ("</" ++ propTag ++ ">") with
  | some a, some b => splitSep ';' (sliceS line (a + propTag.length + 2) b)
  | _, _ => []

/-- A project document registering `one.cpp` and `two.cpp`. -/
def twoCppContent : String :=
  "<Project>\n  <ItemGroup>\n    <ClCompile Include=\x22one.cpp\x22 />\n    <ClCompile Include=\x22two.cpp\x22 />\n  </ItemGroup>\n</Project>\n"

/-- An empty filter document: the standard header, one empty item group,
nothing declared and nothing assigned. -/
def emptyFilterSkeleton : String :=
  "<?xml version=\x221.0\x22 encoding=\x22utf-8\x22?>\n<Project ToolsVersion=\x224.0\x22>\n  <ItemGroup>\n  </ItemGroup>\n</Project>\n"

/-- The result of adding `src/a.cpp` and `src/util/b.cpp` (identical
project-relative and hierarchy-relative projections) to the empty filter
document, with two opaque fresh identifiers. -/
def addTwoResult : String :=
  addSourceFilesWithHierarchy ["src/a.cpp", "src/util/b.cpp"] ["src/a.cpp", "src/util/b.cpp"]
    ["AAAA", "BBBB"] emptyFilterSkeleton

/-- A filter document with entries `src\x.cpp` (assigned to
`Header Files`), `notes\Header FilesBackup\y.cpp` (assigned to `Other`,
include path containing the text `Header Files`) and `src\z.cpp`
(assigned to `Other`). -/
def bareNameDoc : List String := [
  "<Project>",
  "  <ItemGroup>",
  "    <ClCompile Include=\x22src\\x.cpp\x22>",
  "      <Filter>Header Files</Filter>",
  "    </ClCompile>",
  "    <ClCompile Include=\x22notes\\Header FilesBackup\\y.cpp\x22>",
  "      <Filter>Other</Filter>",
  "    </ClCompile>",
  "    <ClCompile Include=\x22src\\z.cpp\x22>",
  "      <Filter>Other</Filter>",
  "    </ClCompile>",
  "  </ItemGroup>",
  "</Project>"]

/-- The entries of `bareNameDoc` in structured form. -/
def bareEntries : List (String × String) :=
  [("src\\x.cpp", "Header Files"), ("notes\\Header FilesBackup\\y.cpp", "Other"),
   ("src\\z.cpp", "Other")]

/-! ## Structured filter documents (for the general bare-name theorem) -/

/-- The opening line of a rendered compile entry. -/
def entryOpenLine (p : String) : String :=
  "    <ClCompile Include=\x22" ++ p ++ "\x22>"

/-- The assignment line of a rendered compile entry. -/
def entryFilterLine (f : String) : String :=
  "      <Filter>" ++ f ++ "</Filter>"

/-- One rendered compile entry: open line, assignment line, closing tag. -/
def entryBlock (e : String × String) : List String :=
  [entryOpenLine e.1, entryFilterLine e.2, "    </ClCompile>"]

/-- A filter document holding exactly the entries `es` (path, assigned
filter) inside the usual skeleton, with no filter declarations. -/
def filtersDocOf (es : List (String × String)) : List String :=
  ["<?xml version=\x221.0\x22?>", "<Project>", "  <ItemGroup>"] ++
    (es.map entryBlock).flatten ++ ["  </ItemGroup>", "</Project>"]

/-- Well-formedness of a structured entry: the include path carries no
quote (so the attribute parses back) and path and filter name stay on one
line and use no markup characters. -/
def goodEntry (e : String × String) : Prop :=
  ¬ '\x22' ∈ e.1.data ∧ ¬ '\n' ∈ e.1.data ∧
    ¬ '<' ∈ e.2.data ∧ ¬ '>' ∈ e.2.data ∧ ¬ '\n' ∈ e.2.data

instance goodEntryDecidable (e : String × String) : Decidable (goodEntry e) := by
  unfold goodEntry
  infer_instance

/-- The opening line of a rendered filter declaration. -/
def declOpenLine (n : String) : String :=
  "    <Filter Include=\x22" ++ n ++ "\x22>"

/-- The unique-identifier line of a rendered filter declaration. -/
def uidLine (u : String) : String :=
  "      <UniqueIdentifier>" ++ u ++ "</UniqueIdentifier>"

/-- One rendered filter declaration block: open line, identifier line,
closing tag. -/
def declBlock (d : String × String) : List String :=
  [declOpenLine d.1, uidLine d.2, "    </Filter>"]

/-- The standard header lines of a filter document. -/
def hdrLines : List String :=
  ["<?xml version=\x221.0\x22?>", "<Project>", "  <ItemGroup>"]

/-- The lines separating the declaration item group from the entry item
group. -/
def midLines : List String :=
  ["  </ItemGroup>", "  <ItemGroup>"]

/-- The closing lines of a filter document. -/
def ftrLines : List String :=
  ["  </ItemGroup>", "</Project>"]

/-- A filter document holding the declarations `ds` (name, identifier) and
the compile entries `es` (path, assigned filter) in the usual two item
groups. -/
def fullDocOf (ds es : List (String × String)) : List String :=
  hdrLines ++ (ds.map declBlock).flatten ++ midLines ++ (es.map entryBlock).flatten ++ ftrLines

/-- Well-formedness of a structured declaration: its name carries no quote
(so the attribute parses back). -/
def goodDecl (d : String × String) : Prop :=
  ¬ '\x22' ∈ d.1.data

instance goodDeclDecidable (d : String × String) : Decidable (goodDecl d) := by
  unfold goodDecl
  infer_instance

/-- The criterion on which the third pass removes a declaration: its name
was collected from a deleted entry's body (or is the bare target), or no
surviving entry's assignment line contains `>name<`. -/
def declDeleted (ftd : List String) (isFD : Bool) (target : String) (es : List (String × String)) (d : String × String) : Bool :=
  ftd.contains d.1 || (isFD && d.1 == target) ||
    !(es.any fun e => containsS (entryFilterLine e.2) (">" ++ d.1 ++ "<"))

/-- Whether the bare-name pass one removes a rendered entry: its opening
line contains the target as a substring. -/
def lineMatches (target : String) (e : String × String) : Bool :=
  containsS (entryOpenLine e.1) target

/-- Whether the bare-name pass two removes a rendered entry: its
assignment line contains `>target<`. -/
def assignMatches (target : String) (e : String × String) : Bool :=
  containsS (entryFilterLine e.2) (">" ++ target ++ "<")

/-- The entries a bare node-name delete keeps. -/
def keptEntries (target : String) (es : List (String × String)) : List (String × String) :=
  (es.filter (fun e => !lineMatches target e)).filter (fun e => !assignMatches target e)

/-- The `filters_to_delete` set a bare node-name delete accumulates: the
assignments of the entries removed by pass one, plus the target itself. -/
def bareFtd (target : String) (es : List (String × String)) : List String :=
  (es.filter (lineMatches target)).map Prod.snd ++ [target]

/-- Declarations of the `Header Files` cascade scenario: `Source Files`
holds a file, `Header Files` holds exactly one file, `Empty` holds none. -/
def cascadeDecls : List (String × String) :=
  [("Source Files", "AAA"), ("Header Files", "BBB"), ("Empty", "CCC")]

/-- Entries of the `Header Files` cascade scenario. -/
def cascadeEntries : List (String × String) :=
  [("src\\main.cpp", "Source Files"), ("inc\\util.cpp", "Header Files")]

/-- The declaration as `rename_filter` rewrites it: a declaration of
`fromN` is renamed to `toN`, every other declaration is untouched. -/
def renamedDecl (fromN toN : String) (d : String × String) : String × String :=
  if d.1 == fromN then (toN, d.2) else d

/-- The entry as the rename and merge passes rewrite it: an assignment to
`fromN` is moved to `toN`, every other assignment is untouched. -/
def renamedEntry (fromN toN : String) (e : String × String) : String × String :=
  if e.2 == fromN then (e.1, toN) else e

/-- Removal of the first declaration named `fromN` from a structured
declaration list, the effect of the second pass of `merge_filters`. -/
def dropFirstDecl (fromN : String) : List (String × String) → List (String × String)
  | [] => []
  | d :: ds => if d.1 == fromN then ds else d :: dropFirstDecl fromN ds

/-- Declarations of the rename-conflict scenario: both `Old` and `New`
are declared. -/
def conflictDecls : List (String × String) :=
  [("Old", "AAA"), ("New", "BBB")]

/-- Entries of the rename-conflict scenario. -/
def conflictEntries : List (String × String) :=
  [("a.cpp", "Old"), ("b.cpp", "New")]

/-! ## Structured property documents (for the general injection theorem) -/

/-- The opening line of a configuration block. -/
def idgOpenLine (cond : String) : String :=
  "  <ItemDefinitionGroup Condition=\x22" ++ cond ++ "\x22>"

/-- The closing line of a configuration block. -/
def idgCloseLine : String :=
  "  </ItemDefinitionGroup>"

/-- The opening line of a section (`<ClCompile>` or `<Link>`). -/
def secOpenLine (sec : String) : String :=
  "    <" ++ sec ++ ">"

/-- The closing line of a section. -/
def secCloseLine (sec : String) : String :=
  "    </" ++ sec ++ ">"

/-- A rendered property line holding the value list `vals`, with or
without the trailing inheritance token. -/
def propValsLine (tag vals : String) (tok : Bool) : String :=
  "      <" ++ tag ++ ">" ++ vals ++
    (if tok then ";%(" ++ tag ++ ")" else "") ++ "</" ++ tag ++ ">"

/-- The loop's test for a configuration block start. -/
def isIDGStart (l : String) : Bool :=
  startsWithS (trimStartS l) "<ItemDefinitionGroup Condition="

/-- The scanners' test for the configuration block closer. -/
def isIDGClose (l : String) : Bool :=
  startsWithS (trimS l) "</ItemDefinitionGroup>"

/-- The scanners' test for a section start. -/
def isSecOpen (sec : String) (l : String) : Bool :=
  startsWithS (trimStartS l) ("<" ++ sec ++ ">")

/-- The inner scanner's test for the section closer. -/
def isSecClose (sec : String) (l : String) : Bool :=
  startsWithS (trimS l) ("</" ++ sec ++ ">")

/-- The inner scanner's test for the property line. -/
def isPropOpen (tag : String) (l : String) : Bool :=
  startsWithS (trimStartS l) ("<" ++ tag ++ ">")

/-- One configuration block of a structured property document: either it
has no section of the relevant kind, or a section without the property,
or a section with one property line carrying values. -/
inductive PropBlock where
  | bare (cond : String) (body : List String)
  | secOnly (cond : String) (pre mid post : List String)
  | withValues (cond : String) (pre mid : List String) (vals : String) (tok : Bool)
      (mid2 post : List String)

/-- The configuration identifier of a block. -/
def blockCond : PropBlock → String
  | .bare c _ => c
  | .secOnly c _ _ _ => c
  | .withValues c _ _ _ _ _ _ => c

/-- The lines of a block after its opening line. -/
def renderRest (sec tag : String) : PropBlock → List String
  | .bare _ body => body ++ [idgCloseLine]
  | .secOnly _ pre mid post =>
      pre ++ secOpenLine sec :: mid ++ secCloseLine sec :: post ++ [idgCloseLine]
  | .withValues _ pre mid vals tok mid2 post =>
      pre ++ secOpenLine sec :: mid ++ propValsLine tag vals tok ::
        mid2 ++ secCloseLine sec :: post ++ [idgCloseLine]

/-- A rendered configuration block. -/
def renderBlock (sec tag : String) (b : PropBlock) : List String :=
  idgOpenLine (blockCond b) :: renderRest sec tag b

/-- The lines of a block after its opening line once the value has been
injected: a missing section or property is created holding `value;token`,
and an existing value list becomes `vals;value` with the token, when
present, still last. -/
def procRest (sec tag val : String) : PropBlock → List String
  | .bare _ body =>
      secOpenLine sec :: newPropLine tag val :: secCloseLine sec ::
        body ++ [idgCloseLine]
  | .secOnly _ pre mid post =>
      pre ++ secOpenLine sec :: newPropLine tag val ::
        mid ++ secCloseLine sec :: post ++ [idgCloseLine]
  | .withValues _ pre mid vals tok mid2 post =>
      pre ++ secOpenLine sec :: mid ++ propValsLine tag (vals ++ ";" ++ val) tok ::
        mid2 ++ secCloseLine sec :: post ++ [idgCloseLine]

/-- A processed configuration block. -/
def processedBlock (sec tag val : String) (b : PropBlock) : List String :=
  idgOpenLine (blockCond b) :: procRest sec tag val b

/-- Well-formedness of the section and property tags: neither starts with
the characters that would make a rendered tag line shadow the block
markers, and the property tag is free of the token and closer
metacharacters. -/
def goodTags (sec tag : String) : Prop :=
  sec.data.head? ≠ some 'I' ∧ sec.data.head? ≠ some '/' ∧
    tag.data.head? ≠ some 'I' ∧ tag.data.head? ≠ some '/' ∧
    ¬ '%' ∈ tag.data ∧ ¬ '<' ∈ tag.data

instance goodTagsDecidable (sec tag : String) : Decidable (goodTags sec tag) := by
  unfold goodTags
  infer_instance

/-- Well-formedness of one structured block: the condition parses back,
inert lines never look like the markers the scanners test for, and
existing values are free of the token and closer metacharacters. -/
def goodBlock (sec tag : String) : PropBlock → Prop
  | .bare c body => ¬ '\x22' ∈ c.data ∧
      ∀ l ∈ body, isIDGStart l = false ∧ isSecOpen sec l = false
  | .secOnly c pre mid post => ¬ '\x22' ∈ c.data ∧
      (∀ l ∈ pre, isIDGStart l = false ∧ isSecOpen sec l = false ∧
        isIDGClose l = false) ∧
      (∀ l ∈ mid, isIDGStart l = false ∧ isSecClose sec l = false ∧
        isPropOpen tag l = false) ∧
      (∀ l ∈ post, isIDGStart l = false)
  | .withValues c pre mid vals _ mid2 post => ¬ '\x22' ∈ c.data ∧
      (∀ l ∈ pre, isIDGStart l = false ∧ isSecOpen sec l = false ∧
        isIDGClose l = false) ∧
      (∀ l ∈ mid, isIDGStart l = false ∧ isSecClose sec l = false ∧
        isPropOpen tag l = false) ∧
      ¬ '%' ∈ vals.data ∧ ¬ '<' ∈ vals.data ∧
      (∀ l ∈ mid2, isIDGStart l = false) ∧
      (∀ l ∈ post, isIDGStart l = false)

instance goodBlockDecidable (sec tag : String) (b : PropBlock) : Decidable (goodBlock sec tag b) := by
  cases b <;> (unfold goodBlock; infer_instance)

/-- The blocks of the concrete injection scenario: a `Debug` block whose
section already holds `old` with the inheritance token, a `Release` block
whose section lacks the property, and a bare block with no section. -/
def propBlocks : List PropBlock :=
  [PropBlock.withValues "Debug|x64" [] [] "old" true [] [],
   PropBlock.secOnly "Release|x64" [] ["      <PrecompiledHeader>Use</PrecompiledHeader>"] [],
   PropBlock.bare "Other|Win32" []]

/-! ## Theorems -/

set_option maxRecDepth 100000

/-- Claim C1, counterexample: in `headerFilesDoc` the node `Empty` has no
file assigned before the mutation, yet the committed delete of
`Header Files` removes its declaration — the clause "every node that
already had no files prior to the mutation is left untouched" fails. -/
theorem C1_counterexample :
    filterHasFiles headerFilesDoc "Empty" = false ∧
      "Empty" ∈ (deleteFiltersLines "Header Files" none headerFilesDoc).2.1 := by
  decide

/-- Claim C2, counterexample: with both `Old` and `New` declared,
`rename_filter` does not reject the rename — it succeeds, reports that the
target exists, and leaves its document with two declarations of `New`. -/
theorem C2_counterexample :
    ((renameFilter "Old" "New" renameDoc).toOption.map fun r => (r.1, declCount r.2.2 "New")) =
      some (true, 2) := by
  decide

/-- Claim C3, counterexample: for the hierarchy `a\b\c` holding one file,
rendering with `max_depth = 3` shows the three nodes but not the file, and
rendering with `max_depth = 0` does not show only node `a`. -/
theorem C3_counterexample :
    displayTree abcStructure false (some 3) =
        ["📁 p.vcxproj", "└── 📁 a", "    └── 📁 b", "        └── 📁 c"] ∧
      displayTree abcStructure false (some 0) ≠ ["📁 p.vcxproj", "└── 📁 a"] := by
  refine ⟨by decide, by decide⟩

/-- Claim C3, amended: for the hierarchy `a\b\c` holding one file,
`max_depth = 1` shows only node `a`; `max_depth = 2` shows `a` and `a\b`;
`max_depth = 3` shows all three nodes but not the file (a file renders
only when its folder's depth + 1 is within the bound, so the file first
appears at `max_depth = 4`); `max_depth = 0` shows all three folder nodes
and no file. -/
theorem C3_depth_rendering :
    displayTree abcStructure false (some 1) = ["📁 p.vcxproj", "└── 📁 a"] ∧
      displayTree abcStructure false (some 2) =
        ["📁 p.vcxproj", "└── 📁 a", "    └── 📁 b"] ∧
      displayTree abcStructure false (some 3) =
        ["📁 p.vcxproj", "└── 📁 a", "    └── 📁 b", "        └── 📁 c"] ∧
      displayTree abcStructure false (some 4) =
        ["📁 p.vcxproj", "└── 📁 a", "    └── 📁 b", "        └── 📁 c",
         "            └── 📄 a\\b\\c\\f.cpp"] ∧
      displayTree abcStructure false (some 0) =
        ["📁 p.vcxproj", "└── 📁 a", "    └── 📁 b", "        └── 📁 c"] := by
  refine ⟨by decide, by decide, by decide, by decide, by decide⟩

/-- Claim C4, counterexample: `orphanStructure` declares the folder node
`a\b` (depth 2) whose parent `a` does not exist; rendering with
`max_depth = 0` emits only the project header — the declared folder node
is not rendered, so `max_depth = 0` does not render every folder node. -/
theorem C4_counterexample :
    orphanStructure.filters.map Prod.fst = ["a\\b"] ∧
      displayTree orphanStructure false (some 0) = ["📁 p.vcxproj"] := by
  refine ⟨by decide, by decide⟩

/-- Claim C5, counterexample: in `emptyPairStructure` the node `a` holds
no file and, `a\b` being elided, has no rendered descendant; yet the
`files_only = true` output still contains `a`. -/
theorem C5_counterexample :
    emptyPairStructure.files = [] ∧
      displayTree emptyPairStructure true none = ["📁 p.vcxproj", "└── 📁 a"] := by
  refine ⟨by decide, by decide⟩

/-- Claim C5, amended: at every node the depth cut lets through, the
renderer's output is empty exactly when `files_only` is set and the node
has no directly assigned file and no child folder node — the test never
looks at rendered descendants or at files hidden by the depth bound, so
elision does not cascade upward, a node whose only files are depth-hidden
is still rendered, and with `files_only = false` no node is elided; when
not elided, the first output line is the node's own folder line.  For
`emptyPairStructure`, the leaf `a\b` is elided but its empty parent `a`
is rendered, while `files_only = false` renders both. -/
theorem C5_files_only (tree : String → List String) (fmap : String → List PFile)
    (filesOnly : Bool) (maxLevel : Option Nat) (fuel : Nat) (name pfx : String)
    (isLast : Bool) (depth : Nat)
    (hcut : (match maxLevel with
      | some m => if m = 0 then false else decide (depth > m)
      | none => false) = false) :
    (displayFilterRec tree fmap filesOnly maxLevel (fuel + 1) name pfx isLast depth = []
        ↔ filesOnly = true ∧ fmap name = [] ∧ tree name = []) ∧
      (displayFilterRec tree fmap filesOnly maxLevel (fuel + 1) name pfx isLast depth = [] ∨
        (displayFilterRec tree fmap filesOnly maxLevel (fuel + 1) name pfx isLast depth).head? =
          some (pfx ++ (if isLast then "└── " else "├── ") ++ "📁 " ++ lastSeg name)) ∧
      displayTree emptyPairStructure true none = ["📁 p.vcxproj", "└── 📁 a"] ∧
      displayTree emptyPairStructure false none =
        ["📁 p.vcxproj", "└── 📁 a", "    └── 📁 b"] := by
  cases hsk : filesOnly && (fmap name).isEmpty && (tree name).isEmpty with
  | true =>
    have h1 : displayFilterRec tree fmap filesOnly maxLevel (fuel + 1) name pfx isLast depth =
        [] := by
      simp only [displayFilterRec]
      rw [hcut]
      simp only [Bool.false_eq_true, if_false, hsk, if_true]
    refine ⟨⟨fun _ => ?_, fun _ => h1⟩, Or.inl h1, by decide, by decide⟩
    simp only [Bool.and_eq_true, List.isEmpty_iff] at hsk
    exact ⟨hsk.1.1, hsk.1.2, hsk.2⟩
  | false =>
    have h1 : (displayFilterRec tree fmap filesOnly maxLevel
        (fuel + 1) name pfx isLast depth).head? =
        some (pfx ++ (if isLast then "└── " else "├── ") ++ "📁 " ++ lastSeg name) := by
      simp only [displayFilterRec]
      rw [hcut]
      simp only [Bool.false_eq_true, if_false, hsk, List.head?_cons]
    have h2 : displayFilterRec tree fmap filesOnly maxLevel (fuel + 1) name pfx isLast depth ≠
        [] := by
      intro h0
      rw [h0] at h1
      simp at h1
    refine ⟨⟨fun h0 => absurd h0 h2, fun hp => ?_⟩, Or.inr h1, by decide, by decide⟩
    exfalso
    obtain ⟨hp1, hp2, hp3⟩ := hp
    rw [hp1, hp2, hp3] at hsk
    simp at hsk

/-- Witness for `C5_files_only`: with a child map giving node `a` the
single child `a\b` and no files anywhere, the childless empty leaf `a\b`
is elided while its equally empty parent `a` is rendered; and a node at
depth `2` under bound `2`, whose only file the bound hides, is still
rendered. -/
theorem C5_files_only_witness :
    ((match (none : Option Nat) with
        | some m => if m = 0 then false else decide (2 > m)
        | none => false) = false) ∧
      displayFilterRec (fun n => if n == "a" then ["a\\b"] else [])
          (fun _ => ([] : List PFile)) true none 3 "a\\b" "    " true 2 = [] ∧
      displayFilterRec (fun n => if n == "a" then ["a\\b"] else [])
          (fun _ => ([] : List PFile)) true none 3 "a" "" true 1 ≠ [] ∧
      displayFilterRec (fun _ => ([] : List String))
          (fun n => if n == "c" then [⟨"f.cpp", some "c"⟩] else [])
          true (some 2) 3 "c" "" true 2 ≠ [] := by
  refine ⟨by decide, ?_, ?_, ?_⟩
  · exact (C5_files_only (fun n => if n == "a" then ["a\\b"] else []) (fun _ => [])
      true none 2 "a\\b" "    " true 2 (by decide)).1.mpr ⟨rfl, rfl, by decide⟩
  · intro h0
    have h1 := (C5_files_only (fun n => if n == "a" then ["a\\b"] else [])
      (fun _ => []) true none 2 "a" "" true 1 (by decide)).1.mp h0
    exact absurd h1.2.2 (by decide)
  · intro h0
    have h1 := (C5_files_only (fun _ => ([] : List String))
      (fun n => if n == "c" then [⟨"f.cpp", some "c"⟩] else [])
      true (some 2) 2 "c" "" true 2 (by decide)).1.mp h0
    exact absurd h1.2.1 (by decide)

/-- Claim C6, counterexample: injecting `new` into the Debug block of
`propDoc`, whose include-directory list already holds `old`, yields the
value list `old;new;%(AdditionalIncludeDirectories)` — the new value sits
behind the previously present value, not ahead of it. -/
theorem C6_counterexample :
    (rustLines (addIncludeDirectory "new" propDoc).2).get? 3 =
        some "      <AdditionalIncludeDirectories>old;new;%(AdditionalIncludeDirectories)</AdditionalIncludeDirectories>" ∧
      propValues "AdditionalIncludeDirectories"
          "      <AdditionalIncludeDirectories>old;new;%(AdditionalIncludeDirectories)</AdditionalIncludeDirectories>" =
        ["old", "new", "%(AdditionalIncludeDirectories)"] := by
  refine ⟨by decide, by decide⟩

/-- Claim C7: on `twoCppContent`, deleting by extension `cpp` with a
pattern that keeps only `one.cpp` reports `one.cpp` in the preview, but
the commit pass — which reruns `delete_files` without the pattern —
removes both `one.cpp` and `two.cpp`: the reported set differs from the
removed set. -/
theorem C7_preview_commit_divergence :
    ((deleteFromProject twoCppContent "" (some "cpp") (some fun s => s == "one.cpp") false).map
        fun r => (r.1, r.2.1)) = some (["one.cpp"], ["one.cpp", "two.cpp"]) ∧
      (["one.cpp"] : List String) ≠ ["one.cpp", "two.cpp"] := by
  refine ⟨by decide, by decide⟩

/-- Claim C8: adding `src/a.cpp` and `src/util/b.cpp` (identical
project-relative and hierarchy-relative projections) to the empty filter
document declares exactly the two nodes `src` and `src\util`, assigns
`src\a.cpp` to `src` and `src\util\b.cpp` to `src\util`, and the
node-to-files query lists each file under its node. -/
theorem C8_add_two_files :
    getAllFilters (rustLines addTwoResult) =
        [("src", ["src\\a.cpp"]), ("src\\util", ["src\\util\\b.cpp"])] ∧
      getFileFilters (rustLines addTwoResult) =
        [("src\\a.cpp", "src"), ("src\\util\\b.cpp", "src\\util")] := by
  refine ⟨by decide, by decide⟩

/-- Claim C9, counterexample: a delete that matches nothing still changes
the document content — the lines are rejoined with `\n`, so the final
trailing newline is dropped. -/
theorem C9_counterexample :
    deleteFilesContent "foo" none "<Project>\n</Project>\n" = ([], "<Project>\n</Project>") ∧
      ("<Project>\n</Project>" : String) ≠ "<Project>\n</Project>\n" := by
  refine ⟨by decide, by decide⟩

/-! ### Frame lemmas: the delete loops only remove lines -/

theorem dropEntryTail_sublist (ls : List String) : List.Sublist (dropEntryTail ls) ls := by
  induction ls with
  | nil => simp [dropEntryTail]
  | cons l rest ih =>
    rw [dropEntryTail]
    split
    · exact List.sublist_cons_self l rest
    · exact ih.trans (List.sublist_cons_self l rest)

theorem dropFilterTail_sublist (ls : List String) : List.Sublist (dropFilterTail ls) ls := by
  induction ls with
  | nil => simp [dropFilterTail]
  | cons l rest ih =>
    rw [dropFilterTail]
    split
    · exact List.sublist_cons_self l rest
    · exact ih.trans (List.sublist_cons_self l rest)

theorem vcxDeleteLoop_sublist (t : String) (e : Option String) :
    ∀ fuel ls, List.Sublist (vcxDeleteLoop t e fuel ls).2 ls := by
  intro fuel
  induction fuel with
  | zero => intro ls; simp [vcxDeleteLoop]
  | succ n ih =>
    intro ls
    match ls with
    | [] => simp [vcxDeleteLoop]
    | l :: rest =>
      simp only [vcxDeleteLoop]
      split
      · split
        · refine ((ih _).trans ?_).cons l
          split
          · exact List.Sublist.refl rest
          · exact dropEntryTail_sublist rest
        · exact (ih rest).cons₂ l
      · exact (ih rest).cons₂ l

theorem vcxDeleteLoop_nomatch (t : String) (e : Option String) :
    ∀ fuel ls, (∀ l ∈ ls, (isEntryStart l && shouldDeleteLine t e l) = false) →
      vcxDeleteLoop t e fuel ls = ([], ls) := by
  intro fuel
  induction fuel with
  | zero => intro ls _; simp [vcxDeleteLoop]
  | succ n ih =>
    intro ls h
    match ls with
    | [] => simp [vcxDeleteLoop]
    | l :: rest =>
      have hl := h l (List.mem_cons_self l rest)
      have hrest : ∀ x ∈ rest, (isEntryStart x && shouldDeleteLine t e x) = false :=
        fun x hx => h x (List.mem_cons_of_mem l hx)
      simp only [vcxDeleteLoop]
      split
      · split
        · rename_i h1 h2
          rw [h1, h2] at hl
          simp at hl
        · simp [ih rest hrest]
      · simp [ih rest hrest]

theorem fltrPassOne_sublist (t : String) (e : Option String) :
    ∀ fuel ls, List.Sublist (fltrPassOne t e fuel ls).2.2 ls := by
  intro fuel
  induction fuel with
  | zero => intro ls; simp [fltrPassOne]
  | succ n ih =>
    intro ls
    match ls with
    | [] => simp [fltrPassOne]
    | l :: rest =>
      simp only [fltrPassOne]
      split
      · split
        · exact ((ih _).trans (dropEntryTail_sublist rest)).cons l
        · exact (ih rest).cons₂ l
      · exact (ih rest).cons₂ l

theorem fltrPassTwo_sublist (t : String) :
    ∀ fuel ls, List.Sublist (fltrPassTwo t fuel ls).2 ls := by
  intro fuel
  induction fuel with
  | zero => intro ls; simp [fltrPassTwo]
  | succ n ih =>
    intro ls
    match ls with
    | [] => simp [fltrPassTwo]
    | l :: rest =>
      simp only [fltrPassTwo]
      split
      · split
        · exact ((ih _).trans (dropEntryTail_sublist rest)).cons l
        · exact (ih rest).cons₂ l
      · exact (ih rest).cons₂ l

theorem fltrPassThree_sublist (ftd : List String) (b : Bool) (t : String) :
    ∀ fuel done ls, List.Sublist (fltrPassThree ftd b t fuel done ls).2 ls := by
  intro fuel
  induction fuel with
  | zero => intro done ls; simp [fltrPassThree]
  | succ n ih =>
    intro done ls
    match ls with
    | [] => simp [fltrPassThree]
    | l :: rest =>
      simp only [fltrPassThree]
      split
      · split
        · exact (ih _ rest).cons₂ l
        · split
          · refine ((ih _ _).trans ?_).cons l
            split
            · exact List.Sublist.refl rest
            · exact dropFilterTail_sublist rest
          · exact (ih _ rest).cons₂ l
      · exact (ih _ rest).cons₂ l

/-- Claim C9, amended: every committed delete only removes whole lines — on
both documents the surviving lines are a subsequence of the original
lines, each kept line byte-identical and in order — and a compile-document
delete that matches no entry line keeps every line and reports nothing.
(The raw content is then `joinNL` of the surviving lines, which is what
drops a final trailing newline, as the counterexample shows.) -/
theorem C9_frame (target : String) (ext : Option String) (ls : List String) :
    List.Sublist (deleteFilesLines target ext ls).2 ls ∧
      List.Sublist (deleteFiltersLines target ext ls).2.2 ls ∧
      ((∀ l ∈ ls, (isEntryStart l && shouldDeleteLine target ext l) = false) →
        deleteFilesLines target ext ls = ([], ls)) := by
  refine ⟨vcxDeleteLoop_sublist target ext ls.length ls, ?_, ?_⟩
  · show List.Sublist (fltrPassThree _ _ _ _ [] _).2 ls
    refine (fltrPassThree_sublist _ _ _ _ [] _).trans ?_
    refine List.Sublist.trans ?_ (fltrPassOne_sublist target ext ls.length ls)
    split
    · exact fltrPassTwo_sublist target _ _
    · exact List.Sublist.refl _
  · intro h
    exact vcxDeleteLoop_nomatch target ext ls.length ls h

/-- Witness for `C9_frame`: the no-match hypothesis discharged on a
concrete two-line document. -/
theorem C9_frame_witness :
    List.Sublist (deleteFilesLines "foo" none ["<Project>", "</Project>"]).2 ["<Project>", "</Project>"] ∧
      deleteFilesLines "foo" none ["<Project>", "</Project>"] = ([], ["<Project>", "</Project>"]) := by
  refine ⟨(C9_frame "foo" none ["<Project>", "</Project>"]).1,
    (C9_frame "foo" none ["<Project>", "</Project>"]).2.2 ?_⟩
  decide

/-! ### String facts about rendered entry lines -/

theorem containsC_of_infix (pat a b : List Char) : containsC pat (a ++ pat ++ b) = true := by
  induction a with
  | nil =>
    cases pat with
    | nil => cases b <;> simp [containsC, List.isPrefixOf]
    | cons c t =>
      have h : (c :: t).isPrefixOf ((c :: t) ++ b) = true := by
        rw [List.isPrefixOf_iff_prefix]
        exact List.prefix_append _ _
      rw [List.nil_append, List.cons_append, containsC]
      rw [List.cons_append] at h
      rw [h, Bool.true_or]
  | cons x xs ih =>
    rw [List.cons_append, List.cons_append, containsC, ih, Bool.or_true]

theorem memC_containsC (c : Char) : ∀ l, c ∈ l → containsC [c] l = true := by
  intro l h
  induction l with
  | nil => cases h
  | cons x xs ih =>
    rcases List.mem_cons.mp h with h1 | h2
    · subst h1; simp [containsC, List.isPrefixOf]
    · simp [containsC, ih h2]

theorem endsWith_single_false (t : String) (c : Char) (h : ¬ c ∈ t.data) :
    endsWithS t ⟨[c]⟩ = false := by
  cases hr : t.data.reverse with
  | nil => simp [endsWithS, hr, List.isPrefixOf]
  | cons x xs =>
    have hx : x ∈ t.data := by
      have : x ∈ t.data.reverse := by rw [hr]; exact List.mem_cons_self _ _
      simpa using this
    have hcx : ¬ (c = x) := fun hc => h (hc ▸ hx)
    simp [endsWithS, hr, List.isPrefixOf, hcx]

/-- In bare node-name mode the matching rule of the delete passes is plain
substring containment of the target on the line. -/
theorem shouldDelete_bare (t : String) (hb : isFilterDeletion t none = true) (l : String) :
    shouldDeleteLine t none l = containsS l t := by
  have hb' := hb
  simp only [isFilterDeletion, Bool.and_eq_true, Bool.not_eq_true'] at hb'
  have hslash : ¬ '/' ∈ t.data := by
    intro hm
    have : containsS t "/" = true := memC_containsC '/' t.data hm
    rw [hb'.1.1.2] at this
    cases this
  have hback : ¬ '\\' ∈ t.data := by
    intro hm
    have : containsS t "\\" = true := memC_containsC '\\' t.data hm
    rw [hb'.1.2] at this
    cases this
  have h1 : endsWithS t "/" = false := endsWith_single_false t '/' hslash
  have h2 : endsWithS t "\\" = false := endsWith_single_false t '\\' hback
  simp [shouldDeleteLine, h1, h2]

theorem entryOpen_isEntryStart (p : String) : isEntryStart (entryOpenLine p) = true := by
  simp [isEntryStart, entryOpenLine, startsWithS, trimStartS, String.data_append,
    List.dropWhile_cons, List.isPrefixOf]

theorem entryOpen_notDecl (p : String) : isDeclStart (entryOpenLine p) = false := by
  simp [isDeclStart, entryOpenLine, startsWithS, trimStartS, String.data_append,
    List.dropWhile_cons, List.isPrefixOf]

theorem entryFilter_notEntry (f : String) : isEntryStart (entryFilterLine f) = false := by
  simp [isEntryStart, entryFilterLine, startsWithS, trimStartS, String.data_append,
    List.dropWhile_cons, List.isPrefixOf]

theorem entryFilter_notDecl (f : String) : isDeclStart (entryFilterLine f) = false := by
  simp [isDeclStart, entryFilterLine, startsWithS, trimStartS, String.data_append,
    List.dropWhile_cons, List.isPrefixOf]

theorem entryFilter_trim_notCloseStart (f : String) :
    startsWithS (trimS (entryFilterLine f)) "</ClCompile>" = false := by
  simp [startsWithS, trimS, trimEndS, trimStartS, entryFilterLine, String.data_append,
    List.dropWhile_cons, List.isPrefixOf, List.dropWhile_append]

theorem entryFilter_trim_notCloseEnd (f : String) :
    endsWithS (trimS (entryFilterLine f)) "</ClCompile>" = false := by
  simp [endsWithS, trimS, trimEndS, trimStartS, entryFilterLine, String.data_append,
    List.dropWhile_cons, List.isPrefixOf, List.dropWhile_append]

theorem entryFilter_trimStart_filter (f : String) :
    startsWithS (trimStartS (entryFilterLine f)) "<Filter>" = true := by
  simp [startsWithS, trimStartS, entryFilterLine, String.data_append,
    List.dropWhile_cons, List.isPrefixOf]

theorem findSubC_single (c : Char) (t : List Char) :
    ∀ l, ¬ c ∈ l → findSubC [c] (l ++ c :: t) = some l.length := by
  intro l
  induction l with
  | nil => intro _; simp [findSubC, List.isPrefixOf]
  | cons x xs ih =>
    intro h
    have hx : ¬ (c = x) := fun hc => h (by simp [hc])
    have hxs : ¬ c ∈ xs := fun hc => h (by simp [hc])
    simp [findSubC, List.isPrefixOf, ih hxs, hx]

theorem extractInclude_open (p : String) (hp : ¬ '\x22' ∈ p.data) :
    extractInclude (entryOpenLine p) = some p := by
  have h1 : findSubC ("\x22".data) (p.data ++ '\x22' :: '>' :: []) = some p.data.length := by
    have := findSubC_single '\x22' ['>'] p.data hp
    simpa using this
  simp [extractInclude, entryOpenLine, findSubS, String.data_append, findSubC,
    List.isPrefixOf, dropS, sliceS, h1]

theorem dropEntryTail_block (f : String) (rest : List String) :
    dropEntryTail (entryFilterLine f :: "    </ClCompile>" :: rest) = rest := by
  have hc : endsWithS (trimS "    </ClCompile>") "</ClCompile>" = true := by decide
  rw [dropEntryTail, entryFilter_trim_notCloseEnd]
  simp only [Bool.false_eq_true, if_false]
  rw [dropEntryTail, hc]
  simp

theorem bodyHasFilter_block (t f : String) (rest : List String) :
    bodyHasFilter t (entryFilterLine f :: "    </ClCompile>" :: rest) =
      containsS (entryFilterLine f) (">" ++ t ++ "<") := by
  have hstop : startsWithS (trimS "    </ClCompile>") "</ClCompile>" = true := by decide
  have h2 : bodyHasFilter t ("    </ClCompile>" :: rest) = false := by
    rw [bodyHasFilter, hstop]
    simp
  rw [bodyHasFilter, entryFilter_trim_notCloseStart]
  cases hc : containsS (entryFilterLine f) (">" ++ t ++ "<") <;>
    simp [entryFilter_trimStart_filter, hc, h2]

/-- An assignment to `target` always passes the `>target<` containment test
of the bare node-name passes. -/
theorem assignMatches_self (target : String) (e : String × String) (he : e.2 = target) :
    assignMatches target e = true := by
  rw [assignMatches, he]
  show containsC ((">" ++ target ++ "<").data) ((entryFilterLine target).data) = true
  have h2 : (entryFilterLine target).data =
      "      <Filter".data ++ ((">" ++ target ++ "<").data ++ "/Filter>".data) := by
    simp only [entryFilterLine, String.data_append]
    simp
  rw [h2, ← List.append_assoc]
  exact containsC_of_infix _ _ _

/-! ### Pass characterization on structured filter documents -/

theorem fltrPassThree_nodecl (ftd : List String) (b : Bool) (t : String) :
    ∀ fuel done ls, (∀ l ∈ ls, isDeclStart l = false) →
      fltrPassThree ftd b t fuel done ls = ([], ls) := by
  intro fuel
  induction fuel with
  | zero => intro done ls _; simp [fltrPassThree]
  | succ n ih =>
    intro done ls h
    match ls with
    | [] => simp [fltrPassThree]
    | l :: rest =>
      have hl := h l (List.mem_cons_self l rest)
      have hrest : ∀ x ∈ rest, isDeclStart x = false :=
        fun x hx => h x (List.mem_cons_of_mem l hx)
      simp [fltrPassThree, hl, ih (done ++ [l]) rest hrest]

theorem fltrPassOne_nil (t : String) (e : Option String) :
    ∀ fuel, fltrPassOne t e fuel [] = ([], [], []) := by
  intro fuel
  cases fuel <;> simp [fltrPassOne]

theorem fltrPassTwo_nil (t : String) :
    ∀ fuel, fltrPassTwo t fuel [] = ([], []) := by
  intro fuel
  cases fuel <;> simp [fltrPassTwo]

theorem fltrPassOne_header (t : String) (e : Option String) (n : Nat) (rest : List String) :
    fltrPassOne t e (n + 3) ("<?xml version=\x221.0\x22?>" :: "<Project>" :: "  <ItemGroup>" :: rest) =
      ((fltrPassOne t e n rest).1, (fltrPassOne t e n rest).2.1,
        "<?xml version=\x221.0\x22?>" :: "<Project>" :: "  <ItemGroup>" :: (fltrPassOne t e n rest).2.2) := by
  have h1 : isEntryStart "<?xml version=\x221.0\x22?>" = false := by decide
  have h2 : isEntryStart "<Project>" = false := by decide
  have h3 : isEntryStart "  <ItemGroup>" = false := by decide
  show fltrPassOne t e (n + 1 + 1 + 1) _ = _
  simp [fltrPassOne, h1, h2, h3]

theorem fltrPassTwo_header (t : String) (n : Nat) (rest : List String) :
    fltrPassTwo t (n + 3) ("<?xml version=\x221.0\x22?>" :: "<Project>" :: "  <ItemGroup>" :: rest) =
      ((fltrPassTwo t n rest).1,
        "<?xml version=\x221.0\x22?>" :: "<Project>" :: "  <ItemGroup>" :: (fltrPassTwo t n rest).2) := by
  have h1 : isEntryStart "<?xml version=\x221.0\x22?>" = false := by decide
  have h2 : isEntryStart "<Project>" = false := by decide
  have h3 : isEntryStart "  <ItemGroup>" = false := by decide
  show fltrPassTwo t (n + 1 + 1 + 1) _ = _
  simp [fltrPassTwo, h1, h2, h3]

theorem fltrPassOne_entries (t : String) (hb : isFilterDeletion t none = true) :
    ∀ (es : List (String × String)) (fuel : Nat), 3 * es.length + 2 ≤ fuel →
      (∀ e ∈ es, goodEntry e) →
      (fltrPassOne t none fuel ((es.map entryBlock).flatten ++ ["  </ItemGroup>", "</Project>"])).1 =
          (es.filter (lineMatches t)).map Prod.fst ∧
        (fltrPassOne t none fuel ((es.map entryBlock).flatten ++ ["  </ItemGroup>", "</Project>"])).2.2 =
          ((es.filter fun e => !lineMatches t e).map entryBlock).flatten ++
            ["  </ItemGroup>", "</Project>"] := by
  intro es
  induction es with
  | nil =>
    intro fuel hf _
    obtain ⟨n, rfl⟩ : ∃ n, fuel = n + 2 := ⟨fuel - 2, by omega⟩
    have h1 : isEntryStart "  </ItemGroup>" = false := by decide
    have h2 : isEntryStart "</Project>" = false := by decide
    show (fltrPassOne t none (n + 1 + 1) _).1 = _ ∧ _
    simp [fltrPassOne, h1, h2, fltrPassOne_nil]
  | cons e es ih =>
    intro fuel hf hwf
    have hwfe := hwf e (List.mem_cons_self _ _)
    have hwfes : ∀ x ∈ es, goodEntry x := fun x hx => hwf x (List.mem_cons_of_mem _ hx)
    have hshape : (((e :: es).map entryBlock).flatten ++ ["  </ItemGroup>", "</Project>"]) =
        entryOpenLine e.1 :: entryFilterLine e.2 :: "    </ClCompile>" ::
          ((es.map entryBlock).flatten ++ ["  </ItemGroup>", "</Project>"]) := by
      simp [entryBlock]
    have hsd : shouldDeleteLine t none (entryOpenLine e.1) = lineMatches t e :=
      shouldDelete_bare t hb (entryOpenLine e.1)
    cases hm : lineMatches t e with
    | true =>
      obtain ⟨n, rfl⟩ : ∃ n, fuel = n + 1 := ⟨fuel - 1, by omega⟩
      have hrec := ih n (by simp at hf ⊢; omega) hwfes
      rw [hshape]
      simp [fltrPassOne, entryOpen_isEntryStart, hsd, hm, dropEntryTail_block,
        extractInclude_open e.1 hwfe.1, hrec.1, hrec.2]
    | false =>
      obtain ⟨n, rfl⟩ : ∃ n, fuel = n + 3 := ⟨fuel - 3, by simp at hf; omega⟩
      have hcl : isEntryStart "    </ClCompile>" = false := by decide
      have hrec := ih n (by simp at hf ⊢; omega) hwfes
      rw [hshape]
      show (fltrPassOne t none (n + 1 + 1 + 1) _).1 = _ ∧ _
      simp [fltrPassOne, entryOpen_isEntryStart, hsd, hm, entryFilter_notEntry, hcl,
        hrec.1, hrec.2, entryBlock]

theorem fltrPassTwo_entries (t : String) :
    ∀ (es : List (String × String)) (fuel : Nat), 3 * es.length + 2 ≤ fuel →
      (∀ e ∈ es, goodEntry e) →
      (fltrPassTwo t fuel ((es.map entryBlock).flatten ++ ["  </ItemGroup>", "</Project>"])).1 =
          (es.filter (assignMatches t)).map Prod.fst ∧
        (fltrPassTwo t fuel ((es.map entryBlock).flatten ++ ["  </ItemGroup>", "</Project>"])).2 =
          ((es.filter fun e => !assignMatches t e).map entryBlock).flatten ++
            ["  </ItemGroup>", "</Project>"] := by
  intro es
  induction es with
  | nil =>
    intro fuel hf _
    obtain ⟨n, rfl⟩ : ∃ n, fuel = n + 2 := ⟨fuel - 2, by omega⟩
    have h1 : isEntryStart "  </ItemGroup>" = false := by decide
    have h2 : isEntryStart "</Project>" = false := by decide
    show (fltrPassTwo t (n + 1 + 1) _).1 = _ ∧ _
    simp [fltrPassTwo, h1, h2, fltrPassTwo_nil]
  | cons e es ih =>
    intro fuel hf hwf
    have hwfe := hwf e (List.mem_cons_self _ _)
    have hwfes : ∀ x ∈ es, goodEntry x := fun x hx => hwf x (List.mem_cons_of_mem _ hx)
    have hshape : (((e :: es).map entryBlock).flatten ++ ["  </ItemGroup>", "</Project>"]) =
        entryOpenLine e.1 :: entryFilterLine e.2 :: "    </ClCompile>" ::
          ((es.map entryBlock).flatten ++ ["  </ItemGroup>", "</Project>"]) := by
      simp [entryBlock]
    have hbody : bodyHasFilter t (entryFilterLine e.2 :: "    </ClCompile>" ::
        ((es.map entryBlock).flatten ++ ["  </ItemGroup>", "</Project>"])) = assignMatches t e :=
      bodyHasFilter_block t e.2 _
    cases hm : assignMatches t e with
    | true =>
      obtain ⟨n, rfl⟩ : ∃ n, fuel = n + 1 := ⟨fuel - 1, by omega⟩
      have hrec := ih n (by simp at hf ⊢; omega) hwfes
      rw [hshape]
      simp [fltrPassTwo, entryOpen_isEntryStart, hbody, hm, dropEntryTail_block,
        extractInclude_open e.1 hwfe.1, hrec.1, hrec.2]
    | false =>
      obtain ⟨n, rfl⟩ : ∃ n, fuel = n + 3 := ⟨fuel - 3, by simp at hf; omega⟩
      have hcl : isEntryStart "    </ClCompile>" = false := by decide
      have hrec := ih n (by simp at hf ⊢; omega) hwfes
      rw [hshape]
      show (fltrPassTwo t (n + 1 + 1 + 1) _).1 = _ ∧ _
      simp [fltrPassTwo, entryOpen_isEntryStart, hbody, hm, entryFilter_notEntry, hcl,
        hrec.1, hrec.2, entryBlock]

theorem entryBlocks_length (es : List (String × String)) :
    ((es.map entryBlock).flatten).length = 3 * es.length := by
  induction es with
  | nil => simp
  | cons e es ih => simp [entryBlock, ih]; omega

theorem filtersDocOf_noDecl (es : List (String × String)) :
    ∀ l ∈ filtersDocOf es, isDeclStart l = false := by
  intro l hl
  simp only [filtersDocOf, List.mem_append, List.mem_cons, List.mem_flatten,
    List.mem_map] at hl
  rcases hl with (h | ⟨b, ⟨e, _, rfl⟩, hb⟩) | h
  · rcases h with h | h | h | h
    · subst h; decide
    · subst h; decide
    · subst h; decide
    · cases h
  · simp only [entryBlock, List.mem_cons] at hb
    rcases hb with rfl | rfl | rfl | hb
    · exact entryOpen_notDecl e.1
    · exact entryFilter_notDecl e.2
    · decide
    · cases hb
  · rcases h with h | h
    · subst h; decide
    · rcases h with h | h
      · subst h; decide
      · cases h

/-- Claim C10: on every structured filter document, bare node-name
deletion removes (pass one) every compile entry whose include-path line
contains the node name as a substring — regardless of which node the
entry is assigned to — and (pass two) every remaining entry assigned to
the node, reporting their include paths in that order; all other entries
and the skeleton survive unchanged, and an entry assigned to the target
always satisfies the assignment test. -/
theorem C10_bare_name_delete (es : List (String × String)) (target : String)
    (hb : isFilterDeletion target none = true) (hwf : ∀ e ∈ es, goodEntry e) :
    (deleteFiltersLines target none (filtersDocOf es)).1 =
        (es.filter (lineMatches target)).map Prod.fst ++
          ((es.filter (fun e => !lineMatches target e)).filter (assignMatches target)).map Prod.fst ∧
      (deleteFiltersLines target none (filtersDocOf es)).2.2 =
        filtersDocOf
          ((es.filter (fun e => !lineMatches target e)).filter (fun e => !assignMatches target e)) ∧
      (∀ e ∈ es, e.2 = target → assignMatches target e = true) := by
  suffices h : (deleteFiltersLines target none (filtersDocOf es)).1 =
        (es.filter (lineMatches target)).map Prod.fst ++
          ((es.filter (fun e => !lineMatches target e)).filter (assignMatches target)).map Prod.fst ∧
      (deleteFiltersLines target none (filtersDocOf es)).2.2 =
        filtersDocOf
          ((es.filter (fun e => !lineMatches target e)).filter (fun e => !assignMatches target e)) by
    exact ⟨h.1, h.2, fun e _ he => assignMatches_self target e he⟩
  have hwf₁ : ∀ e ∈ es.filter (fun e => !lineMatches target e), goodEntry e :=
    fun e he => hwf e (List.mem_of_mem_filter he)
  have hdoc : filtersDocOf es =
      "<?xml version=\x221.0\x22?>" :: "<Project>" :: "  <ItemGroup>" ::
        ((es.map entryBlock).flatten ++ ["  </ItemGroup>", "</Project>"]) := by
    simp [filtersDocOf]
  have hlen : (filtersDocOf es).length = 3 * es.length + 2 + 3 := by
    simp only [filtersDocOf, List.length_append, entryBlocks_length, List.length_cons,
      List.length_nil]
    omega
  have h1 := fltrPassOne_entries target hb es (3 * es.length + 2) (Nat.le_refl _) hwf
  have h2 := fltrPassTwo_entries target (es.filter (fun e => !lineMatches target e))
    (3 * (es.filter (fun e => !lineMatches target e)).length + 2) (Nat.le_refl _) hwf₁
  have hA : fltrPassOne target none ((filtersDocOf es).length) (filtersDocOf es) =
      ((fltrPassOne target none (3 * es.length + 2)
          ((es.map entryBlock).flatten ++ ["  </ItemGroup>", "</Project>"])).1,
        (fltrPassOne target none (3 * es.length + 2)
          ((es.map entryBlock).flatten ++ ["  </ItemGroup>", "</Project>"])).2.1,
        "<?xml version=\x221.0\x22?>" :: "<Project>" :: "  <ItemGroup>" ::
          (fltrPassOne target none (3 * es.length + 2)
            ((es.map entryBlock).flatten ++ ["  </ItemGroup>", "</Project>"])).2.2) := by
    rw [hlen, hdoc]
    exact fltrPassOne_header target none (3 * es.length + 2) _
  have hlen2 : ("<?xml version=\x221.0\x22?>" :: "<Project>" :: "  <ItemGroup>" ::
      (((es.filter (fun e => !lineMatches target e)).map entryBlock).flatten ++
        ["  </ItemGroup>", "</Project>"])).length =
      3 * (es.filter (fun e => !lineMatches target e)).length + 2 + 3 := by
    simp only [List.length_append, entryBlocks_length, List.length_cons, List.length_nil]
  have hB : fltrPassTwo target
      (("<?xml version=\x221.0\x22?>" :: "<Project>" :: "  <ItemGroup>" ::
        (((es.filter (fun e => !lineMatches target e)).map entryBlock).flatten ++
          ["  </ItemGroup>", "</Project>"])).length)
      ("<?xml version=\x221.0\x22?>" :: "<Project>" :: "  <ItemGroup>" ::
        (((es.filter (fun e => !lineMatches target e)).map entryBlock).flatten ++
          ["  </ItemGroup>", "</Project>"])) =
      ((fltrPassTwo target (3 * (es.filter (fun e => !lineMatches target e)).length + 2)
          (((es.filter (fun e => !lineMatches target e)).map entryBlock).flatten ++
            ["  </ItemGroup>", "</Project>"])).1,
        "<?xml version=\x221.0\x22?>" :: "<Project>" :: "  <ItemGroup>" ::
          (fltrPassTwo target (3 * (es.filter (fun e => !lineMatches target e)).length + 2)
            (((es.filter (fun e => !lineMatches target e)).map entryBlock).flatten ++
              ["  </ItemGroup>", "</Project>"])).2) := by
    rw [hlen2]
    exact fltrPassTwo_header target _ _
  have hC : ("<?xml version=\x221.0\x22?>" :: "<Project>" :: "  <ItemGroup>" ::
      ((((es.filter (fun e => !lineMatches target e)).filter
          (fun e => !assignMatches target e)).map entryBlock).flatten ++
        ["  </ItemGroup>", "</Project>"])) =
      filtersDocOf ((es.filter (fun e => !lineMatches target e)).filter
        (fun e => !assignMatches target e)) := by
    simp [filtersDocOf]
  simp only [deleteFiltersLines, hb, if_true]
  rw [hA]
  simp only []
  rw [h1.1, h1.2, hB]
  simp only []
  rw [h2.1, h2.2, hC]
  rw [fltrPassThree_nodecl _ true target _ [] _ (filtersDocOf_noDecl _)]
  exact ⟨rfl, rfl⟩

/-- Witness for `C10_bare_name_delete`: the hypotheses discharged on the
three-entry document `bareEntries` (an entry assigned to `Header Files`,
an entry whose include path contains `Header Files` but is assigned to
`Other`, and an unrelated entry assigned to `Other`). -/
theorem C10_bare_name_delete_witness :
    isFilterDeletion "Header Files" none = true ∧
      (∀ e ∈ bareEntries, goodEntry e) ∧
      (deleteFiltersLines "Header Files" none (filtersDocOf bareEntries)).1 =
        (bareEntries.filter (lineMatches "Header Files")).map Prod.fst ++
          ((bareEntries.filter (fun e => !lineMatches "Header Files" e)).filter
            (assignMatches "Header Files")).map Prod.fst := by
  refine ⟨by decide, by decide, ?_⟩
  exact (C10_bare_name_delete bareEntries "Header Files" (by decide) (by decide)).1

/-! ### Declaration sweep on structured documents (claim C1) -/

theorem declOpen_isDecl (n : String) : isDeclStart (declOpenLine n) = true := by
  simp [isDeclStart, declOpenLine, startsWithS, trimStartS, String.data_append,
    List.dropWhile_cons, List.isPrefixOf]

theorem declOpen_notEntry (n : String) : isEntryStart (declOpenLine n) = false := by
  simp [isEntryStart, declOpenLine, startsWithS, trimStartS, String.data_append,
    List.dropWhile_cons, List.isPrefixOf]

theorem uid_notEntry (u : String) : isEntryStart (uidLine u) = false := by
  simp [isEntryStart, uidLine, startsWithS, trimStartS, String.data_append,
    List.dropWhile_cons, List.isPrefixOf]

theorem uid_notDecl (u : String) : isDeclStart (uidLine u) = false := by
  simp [isDeclStart, uidLine, startsWithS, trimStartS, String.data_append,
    List.dropWhile_cons, List.isPrefixOf]

theorem declOpen_trim_noSelfClose (n : String) :
    endsWithS (trimS (declOpenLine n)) "/>" = false := by
  simp [endsWithS, trimS, trimEndS, trimStartS, declOpenLine, String.data_append,
    List.dropWhile_cons, List.isPrefixOf, List.dropWhile_append]

theorem uid_trim_notFilterEnd (u : String) :
    endsWithS (trimS (uidLine u)) "</Filter>" = false := by
  simp [endsWithS, trimS, trimEndS, trimStartS, uidLine, String.data_append,
    List.dropWhile_cons, List.isPrefixOf, List.dropWhile_append]

theorem dropFilterTail_declTail (u : String) (rest : List String) :
    dropFilterTail (uidLine u :: "    </Filter>" :: rest) = rest := by
  have hc : endsWithS (trimS "    </Filter>") "</Filter>" = true := by decide
  rw [dropFilterTail, uid_trim_notFilterEnd]
  simp only [Bool.false_eq_true, if_false]
  rw [dropFilterTail, hc]
  simp

theorem extractInclude_declOpen (n : String) (hn : ¬ '\x22' ∈ n.data) :
    extractInclude (declOpenLine n) = some n := by
  have h1 : findSubC ("\x22".data) (n.data ++ '\x22' :: '>' :: []) = some n.data.length := by
    have := findSubC_single '\x22' ['>'] n.data hn
    simpa using this
  simp [extractInclude, declOpenLine, findSubS, String.data_append, findSubC,
    List.isPrefixOf, dropS, sliceS, h1]

theorem findSubC_skip (pat : List Char) (c : Char) (hc : pat.head? = some c)
    (t : List Char) (k : Nat) (hk : findSubC pat t = some k) :
    ∀ f : List Char, ¬ c ∈ f → findSubC pat (f ++ t) = some (f.length + k) := by
  intro f
  induction f with
  | nil =>
    intro _
    simpa using hk
  | cons x xs ih =>
    intro hf
    have hxs : ¬ c ∈ xs := fun hcx => hf (List.mem_cons_of_mem _ hcx)
    have hpre : pat.isPrefixOf (x :: (xs ++ t)) = false := by
      cases pat with
      | nil => simp at hc
      | cons p ps =>
        have hp : p = c := by simpa using hc
        subst hp
        have hx : (p == x) = false :=
          beq_eq_false_iff_ne.mpr fun h => hf (by simp [h])
        simp [List.isPrefixOf, hx]
    rw [List.cons_append, findSubC, hpre]
    simp only [Bool.false_eq_true, if_false]
    rw [ih hxs]
    simp
    omega

theorem extractBodyFilter_line (f : String) (hf : ¬ '<' ∈ f.data) :
    extractBodyFilter (entryFilterLine f) = some f := by
  have hs : findSubC ("</Filter>".data) (f.data ++ "</Filter>".data) =
      some (f.data.length + 0) :=
    findSubC_skip ("</Filter>".data) '<' (by decide) ("</Filter>".data) 0 (by decide) f.data hf
  simp [extractBodyFilter, entryFilterLine, findSubS, String.data_append, findSubC,
    List.isPrefixOf, sliceS, hs]

theorem scanEntryFilters_block (f : String) (hf : ¬ '<' ∈ f.data) (rest : List String) :
    scanEntryFilters (entryFilterLine f :: "    </ClCompile>" :: rest) = [f] := by
  have h1 : startsWithS (trimS "    </ClCompile>") "</ClCompile>" = true := by decide
  rw [scanEntryFilters, entryFilter_trim_notCloseStart]
  simp only [Bool.false_eq_true, if_false, entryFilter_trimStart_filter, if_true]
  rw [extractBodyFilter_line f hf, scanEntryFilters, h1]
  simp

theorem fltrPassOne_entries_fts (t : String) (hb : isFilterDeletion t none = true) :
    ∀ (es : List (String × String)) (fuel : Nat), 3 * es.length + 2 ≤ fuel →
      (∀ e ∈ es, goodEntry e) →
      (fltrPassOne t none fuel ((es.map entryBlock).flatten ++ ["  </ItemGroup>", "</Project>"])).2.1 =
        (es.filter (lineMatches t)).map Prod.snd := by
  intro es
  induction es with
  | nil =>
    intro fuel hf _
    obtain ⟨n, rfl⟩ : ∃ n, fuel = n + 2 := ⟨fuel - 2, by omega⟩
    have h1 : isEntryStart "  </ItemGroup>" = false := by decide
    have h2 : isEntryStart "</Project>" = false := by decide
    show (fltrPassOne t none (n + 1 + 1) _).2.1 = _
    simp [fltrPassOne, h1, h2, fltrPassOne_nil]
  | cons e es ih =>
    intro fuel hf hwf
    have hwfe := hwf e (List.mem_cons_self _ _)
    have hwfes : ∀ x ∈ es, goodEntry x := fun x hx => hwf x (List.mem_cons_of_mem _ hx)
    have hshape : (((e :: es).map entryBlock).flatten ++ ["  </ItemGroup>", "</Project>"]) =
        entryOpenLine e.1 :: entryFilterLine e.2 :: "    </ClCompile>" ::
          ((es.map entryBlock).flatten ++ ["  </ItemGroup>", "</Project>"]) := by
      simp [entryBlock]
    have hsd : shouldDeleteLine t none (entryOpenLine e.1) = lineMatches t e :=
      shouldDelete_bare t hb (entryOpenLine e.1)
    cases hm : lineMatches t e with
    | true =>
      obtain ⟨n, rfl⟩ : ∃ n, fuel = n + 1 := ⟨fuel - 1, by omega⟩
      have hrec := ih n (by simp at hf ⊢; omega) hwfes
      rw [hshape]
      simp [fltrPassOne, entryOpen_isEntryStart, hsd, hm, dropEntryTail_block,
        scanEntryFilters_block e.2 hwfe.2.2.1, hrec]
    | false =>
      obtain ⟨n, rfl⟩ : ∃ n, fuel = n + 3 := ⟨fuel - 3, by simp at hf; omega⟩
      have hcl : isEntryStart "    </ClCompile>" = false := by decide
      have hrec := ih n (by simp at hf ⊢; omega) hwfes
      rw [hshape]
      show (fltrPassOne t none (n + 1 + 1 + 1) _).2.1 = _
      simp [fltrPassOne, entryOpen_isEntryStart, hsd, hm, entryFilter_notEntry, hcl,
        hrec, entryBlock]

theorem fltrPassOne_skip (t : String) (e : Option String) :
    ∀ (pre : List String), (∀ l ∈ pre, isEntryStart l = false) →
      ∀ (m : Nat) (rest : List String),
      fltrPassOne t e (pre.length + m) (pre ++ rest) =
        ((fltrPassOne t e m rest).1, (fltrPassOne t e m rest).2.1,
          pre ++ (fltrPassOne t e m rest).2.2) := by
  intro pre
  induction pre with
  | nil =>
    intro _ m rest
    simp
  | cons l ls ih =>
    intro h m rest
    have hl := h l (List.mem_cons_self _ _)
    have hls : ∀ x ∈ ls, isEntryStart x = false := fun x hx => h x (List.mem_cons_of_mem _ hx)
    have hk : (l :: ls).length + m = (ls.length + m) + 1 := by simp; omega
    rw [hk, List.cons_append]
    simp [fltrPassOne, hl, ih hls m rest]

theorem fltrPassTwo_skip (t : String) :
    ∀ (pre : List String), (∀ l ∈ pre, isEntryStart l = false) →
      ∀ (m : Nat) (rest : List String),
      fltrPassTwo t (pre.length + m) (pre ++ rest) =
        ((fltrPassTwo t m rest).1, pre ++ (fltrPassTwo t m rest).2) := by
  intro pre
  induction pre with
  | nil =>
    intro _ m rest
    simp
  | cons l ls ih =>
    intro h m rest
    have hl := h l (List.mem_cons_self _ _)
    have hls : ∀ x ∈ ls, isEntryStart x = false := fun x hx => h x (List.mem_cons_of_mem _ hx)
    have hk : (l :: ls).length + m = (ls.length + m) + 1 := by simp; omega
    rw [hk, List.cons_append]
    simp [fltrPassTwo, hl, ih hls m rest]

theorem fltrPassThree_skip (ftd : List String) (b : Bool) (t : String) :
    ∀ (pre : List String), (∀ l ∈ pre, isDeclStart l = false) →
      ∀ (m : Nat) (done rest : List String),
      fltrPassThree ftd b t (pre.length + m) done (pre ++ rest) =
        ((fltrPassThree ftd b t m (done ++ pre) rest).1,
          pre ++ (fltrPassThree ftd b t m (done ++ pre) rest).2) := by
  intro pre
  induction pre with
  | nil =>
    intro _ m done rest
    simp
  | cons l ls ih =>
    intro h m done rest
    have hl := h l (List.mem_cons_self _ _)
    have hls : ∀ x ∈ ls, isDeclStart x = false := fun x hx => h x (List.mem_cons_of_mem _ hx)
    have hk : (l :: ls).length + m = (ls.length + m) + 1 := by simp; omega
    rw [hk, List.cons_append]
    have hdone : (done ++ [l]) ++ ls = done ++ l :: ls := by simp
    simp [fltrPassThree, hl, ih hls m (done ++ [l]) rest, hdone]

theorem ne_of_entryStart (l x : String) (hl : isEntryStart l = false)
    (hx : isEntryStart x = true) : (l == x) = false := by
  refine beq_eq_false_iff_ne.mpr fun h => ?_
  subst h
  rw [hl] at hx
  exact Bool.noConfusion hx

theorem entryOpen_inj (p q : String) (h : entryOpenLine p = entryOpenLine q) : p = q := by
  have hd : (entryOpenLine p).data = (entryOpenLine q).data := by rw [h]
  simp only [entryOpenLine, String.data_append, List.append_assoc] at hd
  have h2 := (List.append_right_inj _).mp hd
  have h3 := (List.append_left_inj _).mp h2
  cases p
  cases q
  exact congrArg String.mk (by simpa using h3)

theorem findIdx_first (x : String) (post : List String) :
    ∀ (pre : List String) (i : Nat), (∀ l ∈ pre, (l == x) = false) →
      List.findIdx? (· == x) (pre ++ x :: post) i = some (pre.length + i) := by
  intro pre
  induction pre with
  | nil =>
    intro i _
    simp [List.findIdx?_cons]
  | cons l ls ih =>
    intro i h
    have hl := h l (List.mem_cons_self _ _)
    have hls : ∀ y ∈ ls, (y == x) = false := fun y hy => h y (List.mem_cons_of_mem _ hy)
    rw [List.cons_append, List.findIdx?_cons, hl]
    simp only [Bool.false_eq_true, if_false]
    rw [ih (i + 1) hls]
    simp
    omega

theorem drop_after (pre : List String) (x : String) (post : List String) :
    (pre ++ x :: post).drop (pre.length + 1) = post := by
  have h1 : pre ++ x :: post = (pre ++ [x]) ++ post := by simp
  have h2 : pre.length + 1 = (pre ++ [x]).length := by simp
  rw [h1, h2, List.drop_left]

/-- Every line of the skeleton-and-declarations prefix of a structured
document fails the compile-entry test. -/
theorem preEntry_noEntry (ds : List (String × String)) :
    ∀ l ∈ hdrLines ++ (ds.map declBlock).flatten ++ midLines, isEntryStart l = false := by
  intro l hl
  simp only [hdrLines, midLines, List.mem_append, List.mem_cons, List.mem_flatten,
    List.mem_map, List.not_mem_nil] at hl
  rcases hl with (h | ⟨b, ⟨d, _, rfl⟩, hb⟩) | h
  · rcases h with h | h | h | h
    · subst h; decide
    · subst h; decide
    · subst h; decide
    · cases h
  · simp only [declBlock, List.mem_cons, List.not_mem_nil] at hb
    rcases hb with rfl | rfl | rfl | hb
    · exact declOpen_notEntry d.1
    · exact uid_notEntry d.2
    · decide
    · cases hb
  · rcases h with h | h | h
    · subst h; decide
    · subst h; decide
    · cases h

/-- Every line after the declaration zone of a structured document fails
the declaration test. -/
theorem midTail_noDecl (es : List (String × String)) :
    ∀ l ∈ midLines ++ (es.map entryBlock).flatten ++ ftrLines, isDeclStart l = false := by
  intro l hl
  simp only [midLines, ftrLines, List.mem_append, List.mem_cons, List.mem_flatten,
    List.mem_map, List.not_mem_nil] at hl
  rcases hl with (h | ⟨b, ⟨e, _, rfl⟩, hb⟩) | h
  · rcases h with h | h | h
    · subst h; decide
    · subst h; decide
    · cases h
  · simp only [entryBlock, List.mem_cons, List.not_mem_nil] at hb
    rcases hb with rfl | rfl | rfl | hb
    · exact entryOpen_notDecl e.1
    · exact entryFilter_notDecl e.2
    · decide
    · cases hb
  · rcases h with h | h | h
    · subst h; decide
    · subst h; decide
    · cases h

theorem any_entryGuard_append (P S : List String) (g : String → Bool)
    (hP : ∀ l ∈ P, isEntryStart l = false) :
    (P ++ S).any (fun l => isEntryStart l && g l) =
      S.any (fun l => isEntryStart l && g l) := by
  rw [List.any_append]
  have h : P.any (fun l => isEntryStart l && g l) = false := by
    rw [List.any_eq_false]
    intro l hl
    rw [hP l hl, Bool.false_and]
    simp
  rw [h, Bool.false_or]

theorem filterHasFiles_suffix (L : List String) (n : String) :
    ∀ (es : List (String × String)) (pre : List String),
      L = pre ++ ((es.map entryBlock).flatten ++ ftrLines) →
      (∀ e ∈ es, goodEntry e) → es.Pairwise (fun a b => a.1 ≠ b.1) →
      (∀ l ∈ pre, ∀ e ∈ es, (l == entryOpenLine e.1) = false) →
      (((es.map entryBlock).flatten ++ ftrLines).any fun l =>
          isEntryStart l && bodyHasFilter n (L.drop (((L.findIdx? (· == l)).getD 0) + 1))) =
        es.any (fun e => containsS (entryFilterLine e.2) (">" ++ n ++ "<")) := by
  intro es
  induction es with
  | nil =>
    intro pre _ _ _ _
    have h1 : isEntryStart "  </ItemGroup>" = false := by decide
    have h2 : isEntryStart "</Project>" = false := by decide
    simp [ftrLines, h1, h2]
  | cons e es ih =>
    intro pre hL hwf hpw hpre
    have hwfes : ∀ x ∈ es, goodEntry x := fun x hx => hwf x (List.mem_cons_of_mem _ hx)
    obtain ⟨hph, hpt⟩ := List.pairwise_cons.mp hpw
    have hshape : (((e :: es).map entryBlock).flatten ++ ftrLines) =
        entryOpenLine e.1 :: entryFilterLine e.2 :: "    </ClCompile>" ::
          ((es.map entryBlock).flatten ++ ftrLines) := by
      simp [entryBlock]
    rw [hshape] at hL
    have h1 : (isEntryStart (entryOpenLine e.1) && bodyHasFilter n
        (L.drop (((L.findIdx? (· == entryOpenLine e.1)).getD 0) + 1))) =
        containsS (entryFilterLine e.2) (">" ++ n ++ "<") := by
      rw [entryOpen_isEntryStart, Bool.true_and]
      have hpre0 : ∀ l ∈ pre, (l == entryOpenLine e.1) = false :=
        fun l hl => hpre l hl e (List.mem_cons_self _ _)
      have hidx : L.findIdx? (· == entryOpenLine e.1) = some pre.length := by
        rw [hL]
        have := findIdx_first (entryOpenLine e.1)
          (entryFilterLine e.2 :: "    </ClCompile>" ::
            ((es.map entryBlock).flatten ++ ftrLines)) pre 0 hpre0
        simpa using this
      rw [hidx]
      simp only [Option.getD_some]
      have hdrop : L.drop (pre.length + 1) =
          entryFilterLine e.2 :: "    </ClCompile>" ::
            ((es.map entryBlock).flatten ++ ftrLines) := by
        rw [hL]
        exact drop_after pre (entryOpenLine e.1) _
      rw [hdrop]
      exact bodyHasFilter_block n e.2 _
    have h2 : (isEntryStart (entryFilterLine e.2) && bodyHasFilter n
        (L.drop (((L.findIdx? (· == entryFilterLine e.2)).getD 0) + 1))) = false := by
      rw [entryFilter_notEntry, Bool.false_and]
    have h3 : (isEntryStart "    </ClCompile>" && bodyHasFilter n
        (L.drop (((L.findIdx? (· == "    </ClCompile>")).getD 0) + 1))) = false := by
      have hc : isEntryStart "    </ClCompile>" = false := by decide
      rw [hc, Bool.false_and]
    have hL2 : L = (pre ++ [entryOpenLine e.1, entryFilterLine e.2, "    </ClCompile>"]) ++
        ((es.map entryBlock).flatten ++ ftrLines) := by
      rw [hL]
      simp
    have hpre2 : ∀ l ∈ pre ++ [entryOpenLine e.1, entryFilterLine e.2, "    </ClCompile>"],
        ∀ x ∈ es, (l == entryOpenLine x.1) = false := by
      intro l hl x hx
      rcases List.mem_append.mp hl with hpl | hml
      · exact hpre l hpl x (List.mem_cons_of_mem _ hx)
      · simp only [List.mem_cons, List.not_mem_nil, or_false] at hml
        rcases hml with rfl | rfl | rfl
        · refine beq_eq_false_iff_ne.mpr fun hcontra => ?_
          exact (hph x hx) (entryOpen_inj _ _ hcontra)
        · exact ne_of_entryStart _ _ (entryFilter_notEntry e.2) (entryOpen_isEntryStart x.1)
        · exact ne_of_entryStart _ _ (by decide) (entryOpen_isEntryStart x.1)
    have hIH := ih (pre ++ [entryOpenLine e.1, entryFilterLine e.2, "    </ClCompile>"])
      hL2 hwfes hpt hpre2
    rw [hshape, List.any_cons, List.any_cons, List.any_cons, h1, h2, h3,
      Bool.false_or, Bool.false_or, hIH, List.any_cons]

theorem filterHasFiles_fullDoc (ds es : List (String × String)) (n : String)
    (hwf : ∀ e ∈ es, goodEntry e) (hpw : es.Pairwise (fun a b => a.1 ≠ b.1)) :
    filterHasFiles (fullDocOf ds es) n =
      es.any (fun e => containsS (entryFilterLine e.2) (">" ++ n ++ "<")) := by
  have hP := preEntry_noEntry ds
  have hsplit : fullDocOf ds es =
      (hdrLines ++ (ds.map declBlock).flatten ++ midLines) ++
        ((es.map entryBlock).flatten ++ ftrLines) := by
    simp [fullDocOf]
  have hq : filterHasFiles (fullDocOf ds es) n =
      filterHasFiles ((hdrLines ++ (ds.map declBlock).flatten ++ midLines) ++
        ((es.map entryBlock).flatten ++ ftrLines)) n := by
    rw [← hsplit]
  rw [hq]
  simp only [filterHasFiles]
  rw [any_entryGuard_append _ _ _ hP]
  exact filterHasFiles_suffix _ n es (hdrLines ++ (ds.map declBlock).flatten ++ midLines)
    rfl hwf hpw
    (fun l hl e _ => ne_of_entryStart _ _ (hP l hl) (entryOpen_isEntryStart e.1))

theorem fltrPassThree_decls (ftd : List String) (b : Bool) (t : String)
    (es : List (String × String)) (hwf : ∀ e ∈ es, goodEntry e)
    (hpw : es.Pairwise (fun a b => a.1 ≠ b.1)) :
    ∀ (ds dsDone : List (String × String)) (fuel : Nat), 3 * ds.length ≤ fuel →
      (∀ d ∈ ds, goodDecl d) →
      fltrPassThree ftd b t fuel (hdrLines ++ (dsDone.map declBlock).flatten)
          ((ds.map declBlock).flatten ++
            (midLines ++ (es.map entryBlock).flatten ++ ftrLines)) =
        ((ds.filter (declDeleted ftd b t es)).map Prod.fst,
          ((ds.filter fun d => !declDeleted ftd b t es d).map declBlock).flatten ++
            (midLines ++ (es.map entryBlock).flatten ++ ftrLines)) := by
  intro ds
  induction ds with
  | nil =>
    intro dsDone fuel _ _
    simp only [List.map_nil, List.flatten_nil, List.nil_append, List.filter_nil]
    exact fltrPassThree_nodecl ftd b t fuel _ _ (midTail_noDecl es)
  | cons d ds ih =>
    intro dsDone fuel hfuel hwfd
    have hgd : ¬ '\x22' ∈ d.1.data := hwfd d (List.mem_cons_self _ _)
    have hgds : ∀ x ∈ ds, goodDecl x := fun x hx => hwfd x (List.mem_cons_of_mem _ hx)
    have hshape : (((d :: ds).map declBlock).flatten ++
        (midLines ++ (es.map entryBlock).flatten ++ ftrLines)) =
        declOpenLine d.1 :: uidLine d.2 :: "    </Filter>" ::
          ((ds.map declBlock).flatten ++
            (midLines ++ (es.map entryBlock).flatten ++ ftrLines)) := by
      simp [declBlock]
    have hcond : (ftd.contains d.1 || (b && (d.1 == t)) ||
        !filterHasFiles ((hdrLines ++ (dsDone.map declBlock).flatten) ++
          declOpenLine d.1 :: uidLine d.2 :: "    </Filter>" ::
            ((ds.map declBlock).flatten ++
              (midLines ++ (es.map entryBlock).flatten ++ ftrLines))) d.1) =
        declDeleted ftd b t es d := by
      have hdoc : (hdrLines ++ (dsDone.map declBlock).flatten) ++
          declOpenLine d.1 :: uidLine d.2 :: "    </Filter>" ::
            ((ds.map declBlock).flatten ++
              (midLines ++ (es.map entryBlock).flatten ++ ftrLines)) =
          fullDocOf (dsDone ++ d :: ds) es := by
        simp [fullDocOf, declBlock]
      rw [hdoc, filterHasFiles_fullDoc _ es d.1 hwf hpw, declDeleted]
    rw [hshape]
    cases hdel : declDeleted ftd b t es d with
    | true =>
      obtain ⟨n, rfl⟩ : ∃ n, fuel = n + 1 := ⟨fuel - 1, by simp at hfuel; omega⟩
      have hc : (ftd.contains d.1 || (b && (d.1 == t)) ||
          !filterHasFiles ((hdrLines ++ (dsDone.map declBlock).flatten) ++
            declOpenLine d.1 :: uidLine d.2 :: "    </Filter>" ::
              ((ds.map declBlock).flatten ++
                (midLines ++ (es.map entryBlock).flatten ++ ftrLines))) d.1) = true := by
        rw [hcond]; exact hdel
      have hih := ih dsDone n (by simp at hfuel; omega) hgds
      simp only [fltrPassThree, declOpen_isDecl, if_true,
        extractInclude_declOpen d.1 hgd, hc, declOpen_trim_noSelfClose,
        Bool.false_eq_true, if_false, dropFilterTail_declTail, hih,
        List.filter_cons, hdel, Bool.not_true, List.map_cons]
    | false =>
      obtain ⟨n, rfl⟩ : ∃ n, fuel = n + 3 := ⟨fuel - 3, by simp at hfuel; omega⟩
      have hc : (ftd.contains d.1 || (b && (d.1 == t)) ||
          !filterHasFiles ((hdrLines ++ (dsDone.map declBlock).flatten) ++
            declOpenLine d.1 :: uidLine d.2 :: "    </Filter>" ::
              ((ds.map declBlock).flatten ++
                (midLines ++ (es.map entryBlock).flatten ++ ftrLines))) d.1) = false := by
        rw [hcond]; exact hdel
      have hu : isDeclStart (uidLine d.2) = false := uid_notDecl d.2
      have hcl : isDeclStart "    </Filter>" = false := by decide
      have hih := ih (dsDone ++ [d]) n (by simp at hfuel; omega) hgds
      have hdone : (((hdrLines ++ (dsDone.map declBlock).flatten) ++
          [declOpenLine d.1]) ++ [uidLine d.2]) ++ ["    </Filter>"] =
          hdrLines ++ (((dsDone ++ [d]).map declBlock).flatten) := by
        simp [declBlock]
      show fltrPassThree ftd b t (n + 1 + 1 + 1) _ _ = _
      simp only [fltrPassThree, declOpen_isDecl, if_true,
        extractInclude_declOpen d.1 hgd, hc, Bool.false_eq_true, if_false,
        hu, hcl]
      rw [hdone, hih]
      simp [List.filter_cons, hdel, declBlock]

theorem declBlocks_length (ds : List (String × String)) :
    ((ds.map declBlock).flatten).length = 3 * ds.length := by
  induction ds with
  | nil => simp
  | cons d ds ih => simp [declBlock, ih]; omega

theorem entryBlocks_sum (es : List (String × String)) :
    (List.map (List.length ∘ entryBlock) es).sum = 3 * es.length := by
  induction es with
  | nil => simp
  | cons e es ih => simp [entryBlock, ih]; omega

theorem declBlocks_sum (ds : List (String × String)) :
    (List.map (List.length ∘ declBlock) ds).sum = 3 * ds.length := by
  induction ds with
  | nil => simp
  | cons d ds ih => simp [declBlock, ih]; omega

/-- Claim C1, amended: on every structured filter document, a committed
bare node-name delete removes — besides the matching entries — exactly the
declared nodes whose name was collected from a deleted entry's body,
equals the target, or has zero direct file assignments among the surviving
entries.  In particular every declared node left without a direct file
assignment is swept, including nodes that already had no files before the
mutation, while nodes still holding a file survive. -/
theorem C1_delete_cascade (ds es : List (String × String)) (target : String)
    (hb : isFilterDeletion target none = true)
    (hwfE : ∀ e ∈ es, goodEntry e) (hwfD : ∀ d ∈ ds, goodDecl d)
    (hpw : es.Pairwise (fun a b => a.1 ≠ b.1)) :
    deleteFiltersLines target none (fullDocOf ds es) =
      ((es.filter (lineMatches target)).map Prod.fst ++
          ((es.filter (fun e => !lineMatches target e)).filter
            (assignMatches target)).map Prod.fst,
        (ds.filter (declDeleted (bareFtd target es) true target
          (keptEntries target es))).map Prod.fst,
        fullDocOf
          (ds.filter fun d => !declDeleted (bareFtd target es) true target
            (keptEntries target es) d)
          (keptEntries target es)) ∧
      ∀ d ∈ ds,
        (keptEntries target es).any
            (fun e => containsS (entryFilterLine e.2) (">" ++ d.1 ++ "<")) = false →
          d.1 ∈ (deleteFiltersLines target none (fullDocOf ds es)).2.1 := by
  have hke : keptEntries target es =
      (es.filter (fun e => !lineMatches target e)).filter
        (fun e => !assignMatches target e) := rfl
  have hbf : bareFtd target es =
      (es.filter (lineMatches target)).map Prod.snd ++ [target] := rfl
  have hwf₁ : ∀ e ∈ es.filter (fun e => !lineMatches target e), goodEntry e :=
    fun e he => hwfE e (List.mem_of_mem_filter he)
  have hwf₂ : ∀ e ∈ (es.filter (fun e => !lineMatches target e)).filter
      (fun e => !assignMatches target e), goodEntry e :=
    fun e he => hwf₁ e (List.mem_of_mem_filter he)
  have hpw₂ : ((es.filter (fun e => !lineMatches target e)).filter
      (fun e => !assignMatches target e)).Pairwise (fun a b => a.1 ≠ b.1) :=
    hpw.sublist (List.Sublist.trans (List.filter_sublist _) (List.filter_sublist _))
  have hPno := preEntry_noEntry ds
  have hhdr : ∀ l ∈ hdrLines, isDeclStart l = false := by
    intro l hl
    simp only [hdrLines, List.mem_cons, List.not_mem_nil, or_false] at hl
    rcases hl with rfl | rfl | rfl
    · decide
    · decide
    · decide
  have hsplit : fullDocOf ds es =
      (hdrLines ++ (ds.map declBlock).flatten ++ midLines) ++
        ((es.map entryBlock).flatten ++ ["  </ItemGroup>", "</Project>"]) := by
    simp [fullDocOf, ftrLines]
  have hlen1 : (fullDocOf ds es).length =
      (hdrLines ++ (ds.map declBlock).flatten ++ midLines).length +
        (3 * es.length + 2) := by
    rw [hsplit]
    simp [entryBlocks_sum, declBlocks_sum]
    omega
  have h1 := fltrPassOne_entries target hb es (3 * es.length + 2) (Nat.le_refl _) hwfE
  have h1f := fltrPassOne_entries_fts target hb es (3 * es.length + 2) (Nat.le_refl _) hwfE
  have hA : fltrPassOne target none ((fullDocOf ds es).length) (fullDocOf ds es) =
      ((fltrPassOne target none (3 * es.length + 2)
          ((es.map entryBlock).flatten ++ ["  </ItemGroup>", "</Project>"])).1,
        (fltrPassOne target none (3 * es.length + 2)
          ((es.map entryBlock).flatten ++ ["  </ItemGroup>", "</Project>"])).2.1,
        (hdrLines ++ (ds.map declBlock).flatten ++ midLines) ++
          (fltrPassOne target none (3 * es.length + 2)
            ((es.map entryBlock).flatten ++ ["  </ItemGroup>", "</Project>"])).2.2) := by
    rw [hlen1, hsplit]
    exact fltrPassOne_skip target none _ hPno (3 * es.length + 2) _
  have h2 := fltrPassTwo_entries target (es.filter (fun e => !lineMatches target e))
    (3 * (es.filter (fun e => !lineMatches target e)).length + 2) (Nat.le_refl _) hwf₁
  have hlen2 : ((hdrLines ++ (ds.map declBlock).flatten ++ midLines) ++
      (((es.filter (fun e => !lineMatches target e)).map entryBlock).flatten ++
        ["  </ItemGroup>", "</Project>"])).length =
      (hdrLines ++ (ds.map declBlock).flatten ++ midLines).length +
        (3 * (es.filter (fun e => !lineMatches target e)).length + 2) := by
    simp [entryBlocks_sum, declBlocks_sum]
    omega
  have hB : fltrPassTwo target
      (((hdrLines ++ (ds.map declBlock).flatten ++ midLines) ++
        (((es.filter (fun e => !lineMatches target e)).map entryBlock).flatten ++
          ["  </ItemGroup>", "</Project>"])).length)
      ((hdrLines ++ (ds.map declBlock).flatten ++ midLines) ++
        (((es.filter (fun e => !lineMatches target e)).map entryBlock).flatten ++
          ["  </ItemGroup>", "</Project>"])) =
      ((fltrPassTwo target
          (3 * (es.filter (fun e => !lineMatches target e)).length + 2)
          (((es.filter (fun e => !lineMatches target e)).map entryBlock).flatten ++
            ["  </ItemGroup>", "</Project>"])).1,
        (hdrLines ++ (ds.map declBlock).flatten ++ midLines) ++
          (fltrPassTwo target
            (3 * (es.filter (fun e => !lineMatches target e)).length + 2)
            (((es.filter (fun e => !lineMatches target e)).map entryBlock).flatten ++
              ["  </ItemGroup>", "</Project>"])).2) := by
    rw [hlen2]
    exact fltrPassTwo_skip target _ hPno _ _
  have hre : (hdrLines ++ (ds.map declBlock).flatten ++ midLines) ++
      ((((es.filter (fun e => !lineMatches target e)).filter
          (fun e => !assignMatches target e)).map entryBlock).flatten ++
        ["  </ItemGroup>", "</Project>"]) =
      hdrLines ++ ((ds.map declBlock).flatten ++
        (midLines ++ (((es.filter (fun e => !lineMatches target e)).filter
            (fun e => !assignMatches target e)).map entryBlock).flatten ++ ftrLines)) := by
    simp [ftrLines]
  have hlen3 : ((hdrLines ++ (ds.map declBlock).flatten ++ midLines) ++
      ((((es.filter (fun e => !lineMatches target e)).filter
          (fun e => !assignMatches target e)).map entryBlock).flatten ++
        ["  </ItemGroup>", "</Project>"])).length =
      hdrLines.length + (3 * ds.length +
        3 * ((es.filter (fun e => !lineMatches target e)).filter
          (fun e => !assignMatches target e)).length + 4) := by
    simp [entryBlocks_sum, declBlocks_sum, hdrLines, midLines]
    omega
  have hdecls := fltrPassThree_decls
    ((es.filter (lineMatches target)).map Prod.snd ++ [target]) true target
    ((es.filter (fun e => !lineMatches target e)).filter (fun e => !assignMatches target e))
    hwf₂ hpw₂ ds []
    (3 * ds.length + 3 * ((es.filter (fun e => !lineMatches target e)).filter
      (fun e => !assignMatches target e)).length + 4)
    (by omega) hwfD
  have hC : fltrPassThree
      ((es.filter (lineMatches target)).map Prod.snd ++ [target]) true target
      (((hdrLines ++ (ds.map declBlock).flatten ++ midLines) ++
        ((((es.filter (fun e => !lineMatches target e)).filter
            (fun e => !assignMatches target e)).map entryBlock).flatten ++
          ["  </ItemGroup>", "</Project>"])).length) []
      ((hdrLines ++ (ds.map declBlock).flatten ++ midLines) ++
        ((((es.filter (fun e => !lineMatches target e)).filter
            (fun e => !assignMatches target e)).map entryBlock).flatten ++
          ["  </ItemGroup>", "</Project>"])) =
      ((ds.filter (declDeleted
          ((es.filter (lineMatches target)).map Prod.snd ++ [target]) true target
          ((es.filter (fun e => !lineMatches target e)).filter
            (fun e => !assignMatches target e)))).map Prod.fst,
        hdrLines ++ (((ds.filter fun d => !declDeleted
            ((es.filter (lineMatches target)).map Prod.snd ++ [target]) true target
            ((es.filter (fun e => !lineMatches target e)).filter
              (fun e => !assignMatches target e)) d).map declBlock).flatten ++
          (midLines ++ (((es.filter (fun e => !lineMatches target e)).filter
              (fun e => !assignMatches target e)).map entryBlock).flatten ++ ftrLines))) := by
    rw [hlen3, hre]
    rw [fltrPassThree_skip _ true target hdrLines hhdr _ [] _]
    rw [show ([] : List String) ++ hdrLines =
        hdrLines ++ (([] : List (String × String)).map declBlock).flatten from by simp]
    rw [hdecls]
  have hmain : deleteFiltersLines target none (fullDocOf ds es) =
      ((es.filter (lineMatches target)).map Prod.fst ++
          ((es.filter (fun e => !lineMatches target e)).filter
            (assignMatches target)).map Prod.fst,
        (ds.filter (declDeleted (bareFtd target es) true target
          (keptEntries target es))).map Prod.fst,
        fullDocOf
          (ds.filter fun d => !declDeleted (bareFtd target es) true target
            (keptEntries target es) d)
          (keptEntries target es)) := by
    simp only [hke, hbf]
    simp only [deleteFiltersLines, hb, if_true]
    rw [hA]
    simp only []
    rw [h1.1, h1.2, h1f, hB]
    simp only []
    rw [h2.1, h2.2, hC]
    simp [fullDocOf, ftrLines]
  refine ⟨hmain, ?_⟩
  intro d hd hany
  rw [hmain]
  refine List.mem_map.mpr ⟨d, List.mem_filter.mpr ⟨hd, ?_⟩, rfl⟩
  simp [declDeleted, hany]

/-- Witness for `C1_delete_cascade`: the `Header Files` scenario.  Deleting
the node `Header Files` — which holds exactly `inc\util.cpp` — removes that
entry and the `Header Files` declaration, sweeps the pre-existing empty
node `Empty`, and keeps `Source Files` with its file. -/
theorem C1_delete_cascade_witness :
    isFilterDeletion "Header Files" none = true ∧
      (∀ e ∈ cascadeEntries, goodEntry e) ∧
      (∀ d ∈ cascadeDecls, goodDecl d) ∧
      cascadeEntries.Pairwise (fun a b => a.1 ≠ b.1) ∧
      deleteFiltersLines "Header Files" none (fullDocOf cascadeDecls cascadeEntries) =
        (["inc\\util.cpp"], ["Header Files", "Empty"],
          fullDocOf [("Source Files", "AAA")] [("src\\main.cpp", "Source Files")]) := by
  refine ⟨by decide, by decide, by decide, by decide, ?_⟩
  rw [(C1_delete_cascade cascadeDecls cascadeEntries "Header Files" (by decide) (by decide)
    (by decide) (by decide)).1]
  decide

/-! ### Property injection on structured documents (claim C6) -/

theorem isPrefixOf_rfl (l : List Char) : l.isPrefixOf l = true := by
  induction l with
  | nil => rfl
  | cons c cs ih => simp [List.isPrefixOf, ih]

theorem isPrefixOf_append_single (x : Char) (a r : List Char) :
    (a ++ [x]).isPrefixOf (a ++ x :: r) = true := by
  induction a with
  | nil => simp [List.isPrefixOf]
  | cons c cs ih => simp [List.isPrefixOf, ih]

theorem idgOpen_isIDG (c : String) : isIDGStart (idgOpenLine c) = true := by
  simp [isIDGStart, idgOpenLine, startsWithS, trimStartS, String.data_append,
    List.dropWhile_cons, List.isPrefixOf]

theorem extractCondition_open (c : String) (hq : ¬ '\x22' ∈ c.data) :
    extractCondition (idgOpenLine c) = some c := by
  have h1 : findSubC ("\x22".data) (c.data ++ '\x22' :: '>' :: []) = some c.data.length := by
    have := findSubC_single '\x22' ['>'] c.data hq
    simpa using this
  simp [extractCondition, idgOpenLine, findSubS, String.data_append, findSubC,
    List.isPrefixOf, dropS, sliceS, h1]

theorem idgClose_notIDG : isIDGStart idgCloseLine = false := by decide

theorem secOpen_notIDG (sec : String) (h : sec.data.head? ≠ some 'I') :
    isIDGStart (secOpenLine sec) = false := by
  obtain ⟨sd⟩ := sec
  cases sd with
  | nil => decide
  | cons c cs =>
    have hc : (('I' : Char) == c) = false :=
      beq_eq_false_iff_ne.mpr fun hx => h (by simp [hx.symm])
    simp [isIDGStart, secOpenLine, startsWithS, trimStartS, String.data_append,
      List.dropWhile_cons, List.isPrefixOf, hc]

theorem secClose_notIDG (sec : String) : isIDGStart (secCloseLine sec) = false := by
  simp [isIDGStart, secCloseLine, startsWithS, trimStartS, String.data_append,
    List.dropWhile_cons, List.isPrefixOf]

theorem newProp_notIDG (tag val : String) (h : tag.data.head? ≠ some 'I') :
    isIDGStart (newPropLine tag val) = false := by
  obtain ⟨td⟩ := tag
  cases td with
  | nil =>
    simp [isIDGStart, newPropLine, startsWithS, trimStartS, String.data_append,
      List.dropWhile_cons, List.isPrefixOf]
  | cons c cs =>
    have hc : (('I' : Char) == c) = false :=
      beq_eq_false_iff_ne.mpr fun hx => h (by simp [hx.symm])
    simp [isIDGStart, newPropLine, startsWithS, trimStartS, String.data_append,
      List.dropWhile_cons, List.isPrefixOf, hc]

theorem propVals_notIDG (tag vals : String) (tok : Bool) (h : tag.data.head? ≠ some 'I') :
    isIDGStart (propValsLine tag vals tok) = false := by
  obtain ⟨td⟩ := tag
  cases td with
  | nil =>
    cases tok <;>
      simp [isIDGStart, propValsLine, startsWithS, trimStartS, String.data_append,
        List.dropWhile_cons, List.isPrefixOf]
  | cons c cs =>
    have hc : (('I' : Char) == c) = false :=
      beq_eq_false_iff_ne.mpr fun hx => h (by simp [hx.symm])
    cases tok <;>
      simp [isIDGStart, propValsLine, startsWithS, trimStartS, String.data_append,
        List.dropWhile_cons, List.isPrefixOf, hc]

theorem secOpen_notIDGClose (sec : String) (h : sec.data.head? ≠ some '/') :
    isIDGClose (secOpenLine sec) = false := by
  obtain ⟨sd⟩ := sec
  cases sd with
  | nil => decide
  | cons c cs =>
    have hc : (('/' : Char) == c) = false :=
      beq_eq_false_iff_ne.mpr fun hx => h (by simp [hx.symm])
    simp [isIDGClose, secOpenLine, startsWithS, trimS, trimEndS, trimStartS,
      String.data_append, List.dropWhile_cons, List.isPrefixOf, hc,
      List.dropWhile_append]

theorem secOpen_isSecOpen (sec : String) : isSecOpen sec (secOpenLine sec) = true := by
  simp [isSecOpen, secOpenLine, startsWithS, trimStartS, String.data_append,
    List.dropWhile_cons, List.isPrefixOf, isPrefixOf_rfl]

theorem secClose_isSecClose (sec : String) : isSecClose sec (secCloseLine sec) = true := by
  simp [isSecClose, secCloseLine, startsWithS, trimS, trimEndS, trimStartS,
    String.data_append, List.dropWhile_cons, List.isPrefixOf, isPrefixOf_rfl,
    List.dropWhile_append]

theorem propVals_notSecClose (sec tag vals : String) (tok : Bool)
    (h : tag.data.head? ≠ some '/') :
    isSecClose sec (propValsLine tag vals tok) = false := by
  obtain ⟨td⟩ := tag
  cases td with
  | nil =>
    cases tok <;>
      simp [isSecClose, propValsLine, startsWithS, trimS, trimEndS, trimStartS,
        String.data_append, List.dropWhile_cons, List.isPrefixOf,
        List.dropWhile_append]
  | cons c cs =>
    have hc : (('/' : Char) == c) = false :=
      beq_eq_false_iff_ne.mpr fun hx => h (by simp [hx.symm])
    cases tok <;>
      simp [isSecClose, propValsLine, startsWithS, trimS, trimEndS, trimStartS,
        String.data_append, List.dropWhile_cons, List.isPrefixOf, hc,
        List.dropWhile_append]

theorem propVals_isPropOpen (tag vals : String) (tok : Bool) :
    isPropOpen tag (propValsLine tag vals tok) = true := by
  cases tok <;>
    simp [isPropOpen, propValsLine, startsWithS, trimStartS, String.data_append,
      List.dropWhile_cons, List.isPrefixOf, isPrefixOf_append_single]

theorem isPrefixOf_self_append (l t : List Char) : l.isPrefixOf (l ++ t) = true := by
  induction l with
  | nil => simp [List.isPrefixOf]
  | cons c cs ih => simp [List.isPrefixOf, ih]

theorem containsC_head_free (c : Char) (ps : List Char) :
    ∀ l, ¬ c ∈ l → containsC (c :: ps) l = false := by
  intro l
  induction l with
  | nil => intro _; simp [containsC, List.isPrefixOf]
  | cons x xs ih =>
    intro h
    have hx : ((c : Char) == x) = false :=
      beq_eq_false_iff_ne.mpr fun hcx => h (by simp [hcx])
    rw [containsC]
    simp [List.isPrefixOf, hx, ih (fun hm => h (List.mem_cons_of_mem _ hm))]

theorem replaceFuel_nil (pat rep : List Char) : ∀ m, replaceFuel pat rep m [] = [] := by
  intro m
  cases m <;> simp [replaceFuel]

theorem replaceFuel_skip (c : Char) (pat rep : List Char) (hc : pat.head? = some c) :
    ∀ (a : List Char), ¬ c ∈ a → ∀ (m : Nat) (t : List Char),
      replaceFuel pat rep (a.length + m) (a ++ t) = a ++ replaceFuel pat rep m t := by
  intro a
  induction a with
  | nil =>
    intro _ m t
    simp
  | cons x xs ih =>
    intro h m t
    have hxs : ¬ c ∈ xs := fun hm => h (List.mem_cons_of_mem _ hm)
    have hpre : pat.isPrefixOf (x :: (xs ++ t)) = false := by
      cases pat with
      | nil => simp at hc
      | cons p ps =>
        have hp : p = c := by simpa using hc
        subst hp
        have hx : (p == x) = false :=
          beq_eq_false_iff_ne.mpr fun hq => h (by simp [hq])
        simp [List.isPrefixOf, hx]
    have hk : (x :: xs).length + m = (xs.length + m) + 1 := by simp; omega
    rw [hk, List.cons_append]
    simp [replaceFuel, hpre, ih hxs m t]

theorem replaceFuel_match (pat rep t : List Char) (hpat : pat ≠ []) (m : Nat) :
    replaceFuel pat rep (m + 1) (pat ++ t) = rep ++ replaceFuel pat rep m t := by
  cases pat with
  | nil => exact absurd rfl hpat
  | cons p ps =>
    have hpre : (p :: ps).isPrefixOf (p :: (ps ++ t)) = true := by
      simp [List.isPrefixOf, isPrefixOf_self_append]
    rw [List.cons_append, replaceFuel]
    simp [hpre, List.drop_left]

theorem replaceFuel_nomatch (c : Char) (pat rep : List Char) (hc : pat.head? = some c) :
    ∀ (b : List Char), ¬ c ∈ b → ∀ m, replaceFuel pat rep m b = b := by
  intro b
  induction b with
  | nil => intro _ m; exact replaceFuel_nil pat rep m
  | cons x xs ih =>
    intro h m
    have hxs : ¬ c ∈ xs := fun hm => h (List.mem_cons_of_mem _ hm)
    cases m with
    | zero => simp [replaceFuel]
    | succ n =>
      have hpre : pat.isPrefixOf (x :: xs) = false := by
        cases pat with
        | nil => simp at hc
        | cons p ps =>
          have hp : p = c := by simpa using hc
          subst hp
          have hx : (p == x) = false :=
            beq_eq_false_iff_ne.mpr fun hq => h (by simp [hq])
          simp [List.isPrefixOf, hx]
      simp [replaceFuel, hpre, ih hxs n]

theorem replaceFuel_step (pat rep : List Char) (x : Char) (t : List Char) (m : Nat)
    (h : pat.isPrefixOf (x :: t) = false) :
    replaceFuel pat rep (m + 1) (x :: t) = x :: replaceFuel pat rep m t := by
  simp [replaceFuel, h]

theorem replacePropLine_tok (tag val vals : String)
    (htag : ¬ '%' ∈ tag.data) (hvals : ¬ '%' ∈ vals.data) :
    replacePropLine tag val (propValsLine tag vals true) =
      propValsLine tag (vals ++ ";" ++ val) true := by
  have hshape : (propValsLine tag vals true).data =
      ([' ', ' ', ' ', ' ', ' ', ' ', '<'] ++ tag.data ++ '>' :: vals.data ++ [';']) ++
        (("%(" ++ tag ++ ")").data ++ ('<' :: '/' :: (tag.data ++ ['>']))) := by
    simp [propValsLine]
  have hcontains : containsS (propValsLine tag vals true) ("%(" ++ tag ++ ")") = true := by
    show containsC _ _ = true
    have h2 : (propValsLine tag vals true).data =
        ([' ', ' ', ' ', ' ', ' ', ' ', '<'] ++ tag.data ++ '>' :: vals.data ++ [';']) ++
          ("%(" ++ tag ++ ")").data ++ ('<' :: '/' :: (tag.data ++ ['>'])) := by
      rw [hshape]
      simp
    rw [h2]
    exact containsC_of_infix _ _ _
  have hhead : (("%(" ++ tag ++ ")").data).head? = some '%' := by simp
  have hAfree : ¬ '%' ∈
      ([' ', ' ', ' ', ' ', ' ', ' ', '<'] ++ tag.data ++ '>' :: vals.data ++ [';']) := by
    simp [htag, hvals]
  have hBfree : ¬ '%' ∈ ('<' :: '/' :: (tag.data ++ ['>'])) := by
    simp [htag]
  have hlen : (propValsLine tag vals true).data.length =
      ([' ', ' ', ' ', ' ', ' ', ' ', '<'] ++ tag.data ++ '>' :: vals.data ++ [';']).length +
        ((("%(" ++ tag ++ ")").data).length + (tag.data.length + 2) + 1) := by
    rw [hshape]
    simp
    omega
  have hstep : replaceFuel (("%(" ++ tag ++ ")").data) ((val ++ ";%(" ++ tag ++ ")").data)
      ((propValsLine tag vals true).data.length) ((propValsLine tag vals true).data) =
      ([' ', ' ', ' ', ' ', ' ', ' ', '<'] ++ tag.data ++ '>' :: vals.data ++ [';']) ++
        ((val ++ ";%(" ++ tag ++ ")").data ++ ('<' :: '/' :: (tag.data ++ ['>']))) := by
    rw [hlen]
    conv_lhs => rw [hshape]
    rw [replaceFuel_skip '%' _ _ hhead _ hAfree _ _]
    rw [replaceFuel_match _ _ _ (by simp) _]
    rw [replaceFuel_nomatch '%' _ _ hhead _ hBfree _]
  have hrhs : (propValsLine tag (vals ++ ";" ++ val) true).data =
      ([' ', ' ', ' ', ' ', ' ', ' ', '<'] ++ tag.data ++ '>' :: vals.data ++ [';']) ++
        ((val ++ ";%(" ++ tag ++ ")").data ++ ('<' :: '/' :: (tag.data ++ ['>']))) := by
    simp [propValsLine]
  rw [replacePropLine, if_pos hcontains]
  show (⟨_⟩ : String) = _
  rw [show propValsLine tag (vals ++ ";" ++ val) true =
      ⟨(propValsLine tag (vals ++ ";" ++ val) true).data⟩ from rfl]
  exact congrArg String.mk (hstep.trans hrhs.symm)

theorem replacePropLine_notok (tag val vals : String)
    (htagP : ¬ '%' ∈ tag.data) (hvalsP : ¬ '%' ∈ vals.data)
    (htagL : ¬ '<' ∈ tag.data) (hvalsL : ¬ '<' ∈ vals.data)
    (htagS : tag.data.head? ≠ some '/') :
    replacePropLine tag val (propValsLine tag vals false) =
      propValsLine tag (vals ++ ";" ++ val) false := by
  have hfree : ¬ '%' ∈ (propValsLine tag vals false).data := by
    simp [propValsLine, htagP, hvalsP]
  have hcontains : containsS (propValsLine tag vals false) ("%(" ++ tag ++ ")") = false := by
    show containsC _ _ = false
    have hpd : ("%(" ++ tag ++ ")").data = '%' :: ('(' :: (tag.data ++ [')'])) := by simp
    rw [hpd]
    exact containsC_head_free '%' _ _ hfree
  have hshape : (propValsLine tag vals false).data =
      [' ', ' ', ' ', ' ', ' ', ' '] ++
        ('<' :: ((tag.data ++ '>' :: vals.data) ++ ("</" ++ tag ++ ">").data)) := by
    simp [propValsLine]
  have hhead2 : (("</" ++ tag ++ ">").data).head? = some '<' := by simp
  have hA1 : ¬ '<' ∈ ([' ', ' ', ' ', ' ', ' ', ' '] : List Char) := by decide
  have hA2 : ¬ '<' ∈ (tag.data ++ '>' :: vals.data) := by simp [htagL, hvalsL]
  have hstep1 : (("</" ++ tag ++ ">").data).isPrefixOf
      ('<' :: ((tag.data ++ '>' :: vals.data) ++ ("</" ++ tag ++ ">").data)) = false := by
    have hpd2 : ("</" ++ tag ++ ">").data = '<' :: ('/' :: (tag.data ++ ['>'])) := by simp
    rw [hpd2]
    obtain ⟨td⟩ := tag
    cases td with
    | nil => simp [List.isPrefixOf]
    | cons c cs =>
      have hc : (('/' : Char) == c) = false :=
        beq_eq_false_iff_ne.mpr fun hq => htagS (by simp [hq.symm])
      simp [List.isPrefixOf, hc]
  have hlen : (propValsLine tag vals false).data.length =
      ([' ', ' ', ' ', ' ', ' ', ' '] : List Char).length +
        (((tag.data ++ '>' :: vals.data).length + (("</" ++ tag ++ ">").data).length) + 1) := by
    rw [hshape]
    simp
    omega
  have hplen : (("</" ++ tag ++ ">").data).length = (tag.data.length + 2) + 1 := by
    simp
  have hstep : replaceFuel (("</" ++ tag ++ ">").data)
      ((";" ++ val ++ "</" ++ tag ++ ">").data)
      ((propValsLine tag vals false).data.length) ((propValsLine tag vals false).data) =
      [' ', ' ', ' ', ' ', ' ', ' '] ++
        ('<' :: ((tag.data ++ '>' :: vals.data) ++ ((";" ++ val ++ "</" ++ tag ++ ">").data))) := by
    rw [hlen]
    conv_lhs => rw [hshape]
    rw [replaceFuel_skip '<' _ _ hhead2 _ hA1 _ _]
    rw [replaceFuel_step _ _ _ _ _ hstep1]
    rw [replaceFuel_skip '<' _ _ hhead2 _ hA2 _ _]
    rw [show (("</" ++ tag ++ ">").data).length = (tag.data.length + 2) + 1 from hplen]
    have hm := replaceFuel_match (("</" ++ tag ++ ">").data)
      ((";" ++ val ++ "</" ++ tag ++ ">").data) [] (by simp) (tag.data.length + 2)
    rw [List.append_nil] at hm
    rw [replaceFuel_nil] at hm
    rw [hm]
    simp
  have hrhs : (propValsLine tag (vals ++ ";" ++ val) false).data =
      [' ', ' ', ' ', ' ', ' ', ' '] ++
        ('<' :: ((tag.data ++ '>' :: vals.data) ++ ((";" ++ val ++ "</" ++ tag ++ ">").data))) := by
    simp [propValsLine]
  rw [replacePropLine, if_neg (by rw [hcontains]; exact Bool.false_ne_true)]
  show (⟨_⟩ : String) = _
  rw [show propValsLine tag (vals ++ ";" ++ val) false =
      ⟨(propValsLine tag (vals ++ ";" ++ val) false).data⟩ from rfl]
  exact congrArg String.mk (hstep.trans hrhs.symm)

theorem splitAtSection_none (sec : String) :
    ∀ (body : List String), (∀ l ∈ body, isSecOpen sec l = false) →
      ∀ R, splitAtSection sec (body ++ idgCloseLine :: R) = none := by
  intro body
  induction body with
  | nil =>
    intro _ R
    have hc : startsWithS (trimS idgCloseLine) "</ItemDefinitionGroup>" = true := by decide
    simp [splitAtSection, hc]
  | cons l body ih =>
    intro h R
    have hl : startsWithS (trimStartS l) ("<" ++ sec ++ ">") = false :=
      h l (List.mem_cons_self _ _)
    have hbody : ∀ x ∈ body, isSecOpen sec x = false :=
      fun x hx => h x (List.mem_cons_of_mem _ hx)
    cases hstop : startsWithS (trimS l) "</ItemDefinitionGroup>" with
    | true => simp [splitAtSection, hstop]
    | false => simp [splitAtSection, hstop, hl, ih hbody R]

theorem splitAtSection_find (sec : String) (hopen : isSecOpen sec (secOpenLine sec) = true)
    (hnc : isIDGClose (secOpenLine sec) = false) :
    ∀ (pre : List String),
      (∀ l ∈ pre, isSecOpen sec l = false ∧ isIDGClose l = false) →
      ∀ rest, splitAtSection sec (pre ++ secOpenLine sec :: rest) =
        some (pre, secOpenLine sec, rest) := by
  intro pre
  induction pre with
  | nil =>
    intro _ rest
    have h1 : startsWithS (trimS (secOpenLine sec)) "</ItemDefinitionGroup>" = false := hnc
    have h2 : startsWithS (trimStartS (secOpenLine sec)) ("<" ++ sec ++ ">") = true := hopen
    simp [splitAtSection, h1, h2]
  | cons l pre ih =>
    intro h rest
    have h1 : startsWithS (trimS l) "</ItemDefinitionGroup>" = false :=
      (h l (List.mem_cons_self _ _)).2
    have h2 : startsWithS (trimStartS l) ("<" ++ sec ++ ">") = false :=
      (h l (List.mem_cons_self _ _)).1
    have hpre : ∀ x ∈ pre, isSecOpen sec x = false ∧ isIDGClose x = false :=
      fun x hx => h x (List.mem_cons_of_mem _ hx)
    simp [splitAtSection, h1, h2, ih hpre rest]

theorem splitAtProp_none (tag sec : String)
    (hstop : isSecClose sec (secCloseLine sec) = true) :
    ∀ (mid : List String), (∀ l ∈ mid, isPropOpen tag l = false) →
      ∀ rest, splitAtProp tag sec (mid ++ secCloseLine sec :: rest) = none := by
  intro mid
  induction mid with
  | nil =>
    intro _ rest
    have h1 : startsWithS (trimS (secCloseLine sec)) ("</" ++ sec ++ ">") = true := hstop
    simp [splitAtProp, h1]
  | cons l mid ih =>
    intro h rest
    have hl : startsWithS (trimStartS l) ("<" ++ tag ++ ">") = false :=
      h l (List.mem_cons_self _ _)
    have hmid : ∀ x ∈ mid, isPropOpen tag x = false :=
      fun x hx => h x (List.mem_cons_of_mem _ hx)
    cases hstop2 : startsWithS (trimS l) ("</" ++ sec ++ ">") with
    | true => simp [splitAtProp, hstop2]
    | false => simp [splitAtProp, hstop2, hl, ih hmid rest]

theorem splitAtProp_find (tag sec vals : String) (tok : Bool)
    (h1 : isSecClose sec (propValsLine tag vals tok) = false)
    (h2 : isPropOpen tag (propValsLine tag vals tok) = true) :
    ∀ (mid : List String),
      (∀ l ∈ mid, isSecClose sec l = false ∧ isPropOpen tag l = false) →
      ∀ rest, splitAtProp tag sec (mid ++ propValsLine tag vals tok :: rest) =
        some (mid, propValsLine tag vals tok, rest) := by
  intro mid
  induction mid with
  | nil =>
    intro _ rest
    have h1' : startsWithS (trimS (propValsLine tag vals tok)) ("</" ++ sec ++ ">") = false := h1
    have h2' : startsWithS (trimStartS (propValsLine tag vals tok)) ("<" ++ tag ++ ">") = true := h2
    simp [splitAtProp, h1', h2']
  | cons l mid ih =>
    intro h rest
    have ha : startsWithS (trimS l) ("</" ++ sec ++ ">") = false :=
      (h l (List.mem_cons_self _ _)).1
    have hb : startsWithS (trimStartS l) ("<" ++ tag ++ ">") = false :=
      (h l (List.mem_cons_self _ _)).2
    have hmid : ∀ x ∈ mid, isSecClose sec x = false ∧ isPropOpen tag x = false :=
      fun x hx => h x (List.mem_cons_of_mem _ hx)
    simp [splitAtProp, ha, hb, ih hmid rest]

theorem processIDG_block (sec tag val : String) (hgt : goodTags sec tag) (b : PropBlock)
    (hb : goodBlock sec tag b) (R : List String) :
    processIDG sec tag val (renderRest sec tag b ++ R) = procRest sec tag val b ++ R := by
  obtain ⟨hsI, hsS, htI, htS, htP, htL⟩ := hgt
  cases b with
  | bare c body =>
    obtain ⟨-, hbody⟩ := hb
    have hshape : renderRest sec tag (PropBlock.bare c body) ++ R =
        body ++ idgCloseLine :: R := by
      simp [renderRest]
    rw [hshape]
    simp only [processIDG]
    rw [splitAtSection_none sec body (fun l hl => (hbody l hl).2) R]
    simp [procRest, secOpenLine, secCloseLine]
  | secOnly c pre mid post =>
    obtain ⟨-, hpre, hmid, -⟩ := hb
    have hshape : renderRest sec tag (PropBlock.secOnly c pre mid post) ++ R =
        pre ++ secOpenLine sec :: (mid ++ secCloseLine sec :: (post ++ idgCloseLine :: R)) := by
      simp [renderRest]
    rw [hshape]
    simp only [processIDG]
    rw [splitAtSection_find sec (secOpen_isSecOpen sec) (secOpen_notIDGClose sec hsS) pre
      (fun l hl => ⟨(hpre l hl).2.1, (hpre l hl).2.2⟩) _]
    simp only []
    rw [splitAtProp_none tag sec (secClose_isSecClose sec) mid
      (fun l hl => (hmid l hl).2.2) _]
    simp [procRest]
  | withValues c pre mid vals tok mid2 post =>
    obtain ⟨-, hpre, hmid, hvP, hvL, -, -⟩ := hb
    have hshape : renderRest sec tag (PropBlock.withValues c pre mid vals tok mid2 post) ++ R =
        pre ++ secOpenLine sec ::
          (mid ++ propValsLine tag vals tok ::
            (mid2 ++ secCloseLine sec :: (post ++ idgCloseLine :: R))) := by
      simp [renderRest]
    rw [hshape]
    simp only [processIDG]
    rw [splitAtSection_find sec (secOpen_isSecOpen sec) (secOpen_notIDGClose sec hsS) pre
      (fun l hl => ⟨(hpre l hl).2.1, (hpre l hl).2.2⟩) _]
    simp only []
    rw [splitAtProp_find tag sec vals tok (propVals_notSecClose sec tag vals tok htS)
      (propVals_isPropOpen tag vals tok) mid
      (fun l hl => ⟨(hmid l hl).2.1, (hmid l hl).2.2⟩) _]
    simp only []
    cases tok with
    | true =>
      rw [replacePropLine_tok tag val vals htP hvP]
      simp [procRest]
    | false =>
      rw [replacePropLine_notok tag val vals htP hvP htL hvL htS]
      simp [procRest]

theorem addPropLoop_nomatch (sec tag val : String) :
    ∀ (fuel : Nat) (ls : List String), (∀ l ∈ ls, isIDGStart l = false) →
      addPropLoop sec tag val fuel ls = ([], ls) := by
  intro fuel
  induction fuel with
  | zero => intro ls _; simp [addPropLoop]
  | succ n ih =>
    intro ls h
    match ls with
    | [] => simp [addPropLoop]
    | l :: rest =>
      have hl : startsWithS (trimStartS l) "<ItemDefinitionGroup Condition=" = false :=
        h l (List.mem_cons_self _ _)
      have hrest : ∀ x ∈ rest, isIDGStart x = false :=
        fun x hx => h x (List.mem_cons_of_mem _ hx)
      simp [addPropLoop, hl, ih rest hrest]

theorem addPropLoop_skip (sec tag val : String) :
    ∀ (pre : List String), (∀ l ∈ pre, isIDGStart l = false) →
      ∀ (m : Nat) (rest : List String),
      addPropLoop sec tag val (pre.length + m) (pre ++ rest) =
        ((addPropLoop sec tag val m rest).1, pre ++ (addPropLoop sec tag val m rest).2) := by
  intro pre
  induction pre with
  | nil =>
    intro _ m rest
    simp
  | cons l ls ih =>
    intro h m rest
    have hl : startsWithS (trimStartS l) "<ItemDefinitionGroup Condition=" = false :=
      h l (List.mem_cons_self _ _)
    have hls : ∀ x ∈ ls, isIDGStart x = false := fun x hx => h x (List.mem_cons_of_mem _ hx)
    have hk : (l :: ls).length + m = (ls.length + m) + 1 := by simp; omega
    rw [hk, List.cons_append]
    simp [addPropLoop, hl, ih hls m rest]

theorem procRest_noIDG (sec tag val : String) (hsI : sec.data.head? ≠ some 'I')
    (htI : tag.data.head? ≠ some 'I') (b : PropBlock) (hb : goodBlock sec tag b) :
    ∀ l ∈ procRest sec tag val b, isIDGStart l = false := by
  cases b with
  | bare c body =>
    obtain ⟨-, hbody⟩ := hb
    intro l hl
    simp only [procRest, List.append_assoc, List.cons_append] at hl
    obtain rfl | hl := List.mem_cons.mp hl
    · exact secOpen_notIDG sec hsI
    obtain rfl | hl := List.mem_cons.mp hl
    · exact newProp_notIDG tag val htI
    obtain rfl | hl := List.mem_cons.mp hl
    · exact secClose_notIDG sec
    obtain hl | hl := List.mem_append.mp hl
    · exact (hbody l hl).1
    obtain rfl | hl := List.mem_cons.mp hl
    · exact idgClose_notIDG
    cases hl
  | secOnly c pre mid post =>
    obtain ⟨-, hpre, hmid, hpost⟩ := hb
    intro l hl
    simp only [procRest, List.append_assoc, List.cons_append] at hl
    obtain hl | hl := List.mem_append.mp hl
    · exact (hpre l hl).1
    obtain rfl | hl := List.mem_cons.mp hl
    · exact secOpen_notIDG sec hsI
    obtain rfl | hl := List.mem_cons.mp hl
    · exact newProp_notIDG tag val htI
    obtain hl | hl := List.mem_append.mp hl
    · exact (hmid l hl).1
    obtain rfl | hl := List.mem_cons.mp hl
    · exact secClose_notIDG sec
    obtain hl | hl := List.mem_append.mp hl
    · exact hpost l hl
    obtain rfl | hl := List.mem_cons.mp hl
    · exact idgClose_notIDG
    cases hl
  | withValues c pre mid vals tok mid2 post =>
    obtain ⟨-, hpre, hmid, -, -, hmid2, hpost⟩ := hb
    intro l hl
    simp only [procRest, List.append_assoc, List.cons_append] at hl
    obtain hl | hl := List.mem_append.mp hl
    · exact (hpre l hl).1
    obtain rfl | hl := List.mem_cons.mp hl
    · exact secOpen_notIDG sec hsI
    obtain hl | hl := List.mem_append.mp hl
    · exact (hmid l hl).1
    obtain rfl | hl := List.mem_cons.mp hl
    · exact propVals_notIDG tag (vals ++ ";" ++ val) tok htI
    obtain hl | hl := List.mem_append.mp hl
    · exact hmid2 l hl
    obtain rfl | hl := List.mem_cons.mp hl
    · exact secClose_notIDG sec
    obtain hl | hl := List.mem_append.mp hl
    · exact hpost l hl
    obtain rfl | hl := List.mem_cons.mp hl
    · exact idgClose_notIDG
    cases hl

theorem addPropLoop_blocks (sec tag val : String) (hgt : goodTags sec tag) :
    ∀ (bs : List PropBlock) (m : Nat) (tail : List String),
      (∀ b ∈ bs, goodBlock sec tag b) → (∀ l ∈ tail, isIDGStart l = false) →
      addPropLoop sec tag val
          ((bs.map (fun b => (processedBlock sec tag val b).length)).sum + m)
          ((bs.map (renderBlock sec tag)).flatten ++ tail) =
        (bs.map blockCond, (bs.map (processedBlock sec tag val)).flatten ++ tail) := by
  obtain ⟨hsI, hsS, htI, htS, htP, htL⟩ := hgt
  intro bs
  induction bs with
  | nil =>
    intro m tail _ htail
    simp only [List.map_nil, List.sum_nil, List.flatten_nil, List.nil_append, Nat.zero_add]
    exact addPropLoop_nomatch sec tag val m tail htail
  | cons b bs ih =>
    intro m tail hbs htail
    have hb := hbs b (List.mem_cons_self _ _)
    have hbs' : ∀ x ∈ bs, goodBlock sec tag x := fun x hx => hbs x (List.mem_cons_of_mem _ hx)
    have hcond : ¬ '\x22' ∈ (blockCond b).data := by
      cases b with
      | bare c body => exact hb.1
      | secOnly c pre mid post => exact hb.1
      | withValues c pre mid vals tok mid2 post => exact hb.1
    have hshape : ((b :: bs).map (renderBlock sec tag)).flatten ++ tail =
        idgOpenLine (blockCond b) ::
          (renderRest sec tag b ++ (((bs.map (renderBlock sec tag)).flatten) ++ tail)) := by
      simp [renderBlock]
    have hk : (((b :: bs).map (fun x => (processedBlock sec tag val x).length)).sum + m) =
        ((procRest sec tag val b).length +
          ((bs.map (fun x => (processedBlock sec tag val x).length)).sum + m)) + 1 := by
      simp [processedBlock]
      omega
    rw [hshape, hk]
    have hidg : startsWithS (trimStartS (idgOpenLine (blockCond b)))
        "<ItemDefinitionGroup Condition=" = true := idgOpen_isIDG _
    simp only [addPropLoop, hidg, if_true, extractCondition_open (blockCond b) hcond]
    rw [processIDG_block sec tag val ⟨hsI, hsS, htI, htS, htP, htL⟩ b hb _]
    rw [addPropLoop_skip sec tag val (procRest sec tag val b)
      (procRest_noIDG sec tag val hsI htI b hb) _ _]
    rw [ih m tail hbs' htail]
    simp [processedBlock]

theorem procLen_le (sec tag val : String) (b : PropBlock) :
    (processedBlock sec tag val b).length ≤ 4 * (renderBlock sec tag b).length := by
  cases b <;> simp [processedBlock, procRest, renderBlock, renderRest] <;> omega

theorem procSum_le (sec tag val : String) (bs : List PropBlock) :
    (bs.map (fun b => (processedBlock sec tag val b).length)).sum ≤
      4 * ((bs.map (renderBlock sec tag)).flatten).length := by
  induction bs with
  | nil => simp
  | cons b bs ih =>
    have h := procLen_le sec tag val b
    simp only [List.map_cons, List.sum_cons, List.flatten_cons, List.length_append]
    omega

/-- Claim C6, amended: on every structured property document — any run of
inert lines, any list of configuration blocks, each carrying either no
section, a section without the property, or a section whose property line
holds existing values with or without the inheritance token — the
injection loop reports every block's configuration identifier in order
and rewrites every block: an existing value list `vals` becomes
`vals;value` with the token, when present, staying last (so the new value
lands after all previously present values, never ahead of them), while a
missing property or section is created holding `value;token`. -/
theorem C6_property_injection (sec tag val : String) (lead : List String)
    (bs : List PropBlock) (tail : List String) (hgt : goodTags sec tag)
    (hlead : ∀ l ∈ lead, isIDGStart l = false)
    (hbs : ∀ b ∈ bs, goodBlock sec tag b)
    (htail : ∀ l ∈ tail, isIDGStart l = false) :
    addPropLoop sec tag val
        (4 * (lead ++ (bs.map (renderBlock sec tag)).flatten ++ tail).length + 4)
        (lead ++ (bs.map (renderBlock sec tag)).flatten ++ tail) =
      (bs.map blockCond,
        lead ++ (bs.map (processedBlock sec tag val)).flatten ++ tail) := by
  have hsum := procSum_le sec tag val bs
  obtain ⟨m, hm⟩ : ∃ m,
      4 * (lead ++ (bs.map (renderBlock sec tag)).flatten ++ tail).length + 4 =
        lead.length + ((bs.map (fun b => (processedBlock sec tag val b).length)).sum + m) := by
    refine ⟨4 * (lead ++ (bs.map (renderBlock sec tag)).flatten ++ tail).length + 4 -
      (lead.length + (bs.map (fun b => (processedBlock sec tag val b).length)).sum), ?_⟩
    simp only [List.length_append] at hsum ⊢
    omega
  rw [hm]
  rw [show lead ++ (bs.map (renderBlock sec tag)).flatten ++ tail =
      lead ++ ((bs.map (renderBlock sec tag)).flatten ++ tail) from by simp]
  rw [addPropLoop_skip sec tag val lead hlead _ _]
  rw [addPropLoop_blocks sec tag val hgt bs m tail hbs htail]
  simp

/-- Witness for `C6_property_injection`: the three-block scenario — a
`Debug` block already holding `old` with the token, a `Release` block
whose section lacks the property, and a bare block — plus the concrete
end-to-end runs of `add_include_directory` and `add_library_dependency`
on `propDoc`. -/
theorem C6_property_injection_witness :
    goodTags "ClCompile" "AdditionalIncludeDirectories" ∧
      (∀ l ∈ ["<Project>"], isIDGStart l = false) ∧
      (∀ b ∈ propBlocks, goodBlock "ClCompile" "AdditionalIncludeDirectories" b) ∧
      (∀ l ∈ ["</Project>"], isIDGStart l = false) ∧
      addPropLoop "ClCompile" "AdditionalIncludeDirectories" "new"
          (4 * (["<Project>"] ++
            (propBlocks.map (renderBlock "ClCompile" "AdditionalIncludeDirectories")).flatten ++
            ["</Project>"]).length + 4)
          (["<Project>"] ++
            (propBlocks.map (renderBlock "ClCompile" "AdditionalIncludeDirectories")).flatten ++
            ["</Project>"]) =
        (["Debug|x64", "Release|x64", "Other|Win32"],
         ["<Project>",
          "  <ItemDefinitionGroup Condition=\x22Debug|x64\x22>",
          "    <ClCompile>",
          "      <AdditionalIncludeDirectories>old;new;%(AdditionalIncludeDirectories)</AdditionalIncludeDirectories>",
          "    </ClCompile>",
          "  </ItemDefinitionGroup>",
          "  <ItemDefinitionGroup Condition=\x22Release|x64\x22>",
          "    <ClCompile>",
          "      <AdditionalIncludeDirectories>new;%(AdditionalIncludeDirectories)</AdditionalIncludeDirectories>",
          "      <PrecompiledHeader>Use</PrecompiledHeader>",
          "    </ClCompile>",
          "  </ItemDefinitionGroup>",
          "  <ItemDefinitionGroup Condition=\x22Other|Win32\x22>",
          "    <ClCompile>",
          "      <AdditionalIncludeDirectories>new;%(AdditionalIncludeDirectories)</AdditionalIncludeDirectories>",
          "    </ClCompile>",
          "  </ItemDefinitionGroup>",
          "</Project>"]) ∧
      (addIncludeDirectory "new" propDoc).1 = ["Debug|x64", "Release|x64"] ∧
      rustLines (addLibraryDependency "mylib.lib" propDoc).2 =
        ["<Project>",
         "  <ItemDefinitionGroup Condition=\x22Debug|x64\x22>",
         "    <Link>",
         "      <AdditionalDependencies>mylib.lib;%(AdditionalDependencies)</AdditionalDependencies>",
         "    </Link>",
         "    <ClCompile>",
         "      <AdditionalIncludeDirectories>old;%(AdditionalIncludeDirectories)</AdditionalIncludeDirectories>",
         "    </ClCompile>",
         "  </ItemDefinitionGroup>",
         "  <ItemDefinitionGroup Condition=\x22Release|x64\x22>",
         "    <Link>",
         "      <AdditionalDependencies>mylib.lib;%(AdditionalDependencies)</AdditionalDependencies>",
         "    </Link>",
         "    <ClCompile>",
         "      <PrecompiledHeader>Use</PrecompiledHeader>",
         "    </ClCompile>",
         "  </ItemDefinitionGroup>",
         "</Project>"] := by
  refine ⟨by decide, by decide, by decide, by decide, ?_, by decide, by decide⟩
  rw [C6_property_injection "ClCompile" "AdditionalIncludeDirectories" "new"
    ["<Project>"] propBlocks ["</Project>"] (by decide) (by decide) (by decide) (by decide)]
  decide

/-! ### Rename and merge on structured documents (claim C2) -/

theorem entryOpen_notFilterElem (p : String) :
    startsWithS (trimStartS (entryOpenLine p)) "<Filter>" = false := by
  simp [entryOpenLine, startsWithS, trimStartS, String.data_append,
    List.dropWhile_cons, List.isPrefixOf]

theorem uid_notFilterElem (u : String) :
    startsWithS (trimStartS (uidLine u)) "<Filter>" = false := by
  simp [uidLine, startsWithS, trimStartS, String.data_append,
    List.dropWhile_cons, List.isPrefixOf]

theorem declOpen_notFilterElem (n : String) :
    startsWithS (trimStartS (declOpenLine n)) "<Filter>" = false := by
  simp [declOpenLine, startsWithS, trimStartS, String.data_append,
    List.dropWhile_cons, List.isPrefixOf]

theorem entryFilter_trimStart_endsFilter (f : String) :
    endsWithS (trimStartS (entryFilterLine f)) "</Filter>" = true := by
  simp [entryFilterLine, endsWithS, trimStartS, String.data_append,
    List.dropWhile_cons, List.isPrefixOf, isPrefixOf_self_append]

theorem replaceFuel_id (pat rep : List Char) :
    ∀ s, containsC pat s = false → ∀ m, replaceFuel pat rep m s = s := by
  intro s
  induction s with
  | nil =>
    intro _ m
    exact replaceFuel_nil _ _ m
  | cons x xs ih =>
    intro h m
    rw [containsC] at h
    simp only [Bool.or_eq_false_iff] at h
    cases m with
    | zero => simp [replaceFuel]
    | succ k => simp [replaceFuel, h.1, ih h.2 k]

theorem contains_gt_filterTail (f : String) :
    containsC ((">" ++ f ++ "<").data) ("/Filter>".data) = false := by
  have hnil : ((f.data ++ ['<']).isPrefixOf ([] : List Char)) = false := by
    cases hf : f.data <;> simp [List.isPrefixOf]
  have hpd : ((">" ++ f ++ "<").data) = '>' :: (f.data ++ ['<']) := by simp
  rw [hpd]
  simp [containsC, List.isPrefixOf, hnil]

theorem replaceS_declOpen (fromN toN : String) :
    replaceS (declOpenLine fromN) ("Include=\x22" ++ fromN ++ "\x22")
        ("Include=\x22" ++ toN ++ "\x22") = declOpenLine toN := by
  have hshape : (declOpenLine fromN).data =
      "    <Filter ".data ++ (("Include=\x22" ++ fromN ++ "\x22").data ++ ['>']) := by
    simp [declOpenLine]
  have hhead : (("Include=\x22" ++ fromN ++ "\x22").data).head? = some 'I' := by simp
  have hA : ¬ 'I' ∈ ("    <Filter ".data) := by decide
  have hB : ¬ 'I' ∈ (['>'] : List Char) := by decide
  have hlen : (declOpenLine fromN).data.length =
      ("    <Filter ".data).length + ((("Include=\x22" ++ fromN ++ "\x22").data).length + 1) := by
    rw [hshape]
    simp
    omega
  have hstep : replaceFuel (("Include=\x22" ++ fromN ++ "\x22").data)
      (("Include=\x22" ++ toN ++ "\x22").data)
      ((declOpenLine fromN).data.length) ((declOpenLine fromN).data) =
      "    <Filter ".data ++ (("Include=\x22" ++ toN ++ "\x22").data ++ ['>']) := by
    rw [hlen]
    conv_lhs => rw [hshape]
    rw [replaceFuel_skip 'I' _ _ hhead _ hA _ _]
    rw [replaceFuel_match _ _ ['>'] (by simp) _]
    rw [replaceFuel_nomatch 'I' _ _ hhead _ hB _]
  have hrhs : (declOpenLine toN).data =
      "    <Filter ".data ++ (("Include=\x22" ++ toN ++ "\x22").data ++ ['>']) := by
    simp [declOpenLine]
  show (⟨_⟩ : String) = _
  rw [show declOpenLine toN = ⟨(declOpenLine toN).data⟩ from rfl]
  exact congrArg String.mk (hstep.trans hrhs.symm)

theorem replaceS_fline (fromN toN : String) :
    replaceS (entryFilterLine fromN) (">" ++ fromN ++ "<") (">" ++ toN ++ "<") =
      entryFilterLine toN := by
  have hshape : (entryFilterLine fromN).data =
      "      <Filter".data ++ (((">" ++ fromN ++ "<").data) ++ "/Filter>".data) := by
    simp [entryFilterLine]
  have hhead : (((">" ++ fromN ++ "<").data)).head? = some '>' := by simp
  have hA : ¬ '>' ∈ ("      <Filter".data) := by decide
  have hlen : (entryFilterLine fromN).data.length =
      ("      <Filter".data).length + (((">" ++ fromN ++ "<").data).length + 8) := by
    rw [hshape]
    simp
    omega
  have hstep : replaceFuel ((">" ++ fromN ++ "<").data) ((">" ++ toN ++ "<").data)
      ((entryFilterLine fromN).data.length) ((entryFilterLine fromN).data) =
      "      <Filter".data ++ (((">" ++ toN ++ "<").data) ++ "/Filter>".data) := by
    rw [hlen]
    conv_lhs => rw [hshape]
    rw [replaceFuel_skip '>' _ _ hhead _ hA _ _]
    rw [show ((">" ++ fromN ++ "<").data).length + 8 =
        (((">" ++ fromN ++ "<").data).length + 7) + 1 from rfl]
    rw [replaceFuel_match _ _ ("/Filter>".data) (by simp) _]
    rw [replaceFuel_id _ _ _ (contains_gt_filterTail fromN) _]
  have hrhs : (entryFilterLine toN).data =
      "      <Filter".data ++ (((">" ++ toN ++ "<").data) ++ "/Filter>".data) := by
    simp [entryFilterLine]
  show (⟨_⟩ : String) = _
  rw [show entryFilterLine toN = ⟨(entryFilterLine toN).data⟩ from rfl]
  exact congrArg String.mk (hstep.trans hrhs.symm)

theorem anyDecl_false (P : List String) (n : String)
    (hP : ∀ l ∈ P, isDeclStart l = false) :
    P.any (fun l => isDeclStart l && (extractInclude l == some n)) = false := by
  rw [List.any_eq_false]
  intro l hl
  rw [hP l hl]
  simp

theorem hdrLines_noDecl : ∀ l ∈ hdrLines, isDeclStart l = false := by
  intro l hl
  simp only [hdrLines, List.mem_cons, List.not_mem_nil, or_false] at hl
  rcases hl with rfl | rfl | rfl
  · decide
  · decide
  · decide

theorem midLines_noDecl : ∀ l ∈ midLines, isDeclStart l = false := by
  intro l hl
  simp only [midLines, List.mem_cons, List.not_mem_nil, or_false] at hl
  rcases hl with rfl | rfl
  · decide
  · decide

theorem ftrLines_noDecl : ∀ l ∈ ftrLines, isDeclStart l = false := by
  intro l hl
  simp only [ftrLines, List.mem_cons, List.not_mem_nil, or_false] at hl
  rcases hl with rfl | rfl
  · decide
  · decide

theorem entryBlocks_noDecl (es : List (String × String)) :
    ∀ l ∈ (es.map entryBlock).flatten, isDeclStart l = false := by
  intro l hl
  simp only [List.mem_flatten, List.mem_map] at hl
  obtain ⟨b, ⟨e, -, rfl⟩, hb⟩ := hl
  simp only [entryBlock, List.mem_cons, List.not_mem_nil, or_false] at hb
  rcases hb with rfl | rfl | rfl
  · exact entryOpen_notDecl e.1
  · exact entryFilter_notDecl e.2
  · decide

theorem declBlocks_any (ds : List (String × String)) (n : String)
    (hds : ∀ d ∈ ds, goodDecl d) :
    ((ds.map declBlock).flatten).any
        (fun l => isDeclStart l && (extractInclude l == some n)) =
      ds.any (fun d => d.1 == n) := by
  induction ds with
  | nil => simp
  | cons d ds ih =>
    have hd : ¬ '\x22' ∈ d.1.data := hds d (List.mem_cons_self _ _)
    have hds' : ∀ x ∈ ds, goodDecl x := fun x hx => hds x (List.mem_cons_of_mem _ hx)
    have h1 : (isDeclStart (declOpenLine d.1) &&
        (extractInclude (declOpenLine d.1) == some n)) = (d.1 == n) := by
      rw [declOpen_isDecl, extractInclude_declOpen d.1 hd]
      simp
    have h2 : isDeclStart (uidLine d.2) = false := uid_notDecl d.2
    have h3 : isDeclStart "    </Filter>" = false := by decide
    simp [declBlock, h1, h2, h3, ih hds']

theorem declaredFilter_fullDoc (ds es : List (String × String)) (n : String)
    (hds : ∀ d ∈ ds, goodDecl d) :
    declaredFilter (fullDocOf ds es) n = ds.any (fun d => d.1 == n) := by
  simp only [declaredFilter, fullDocOf, List.any_append]
  rw [anyDecl_false hdrLines n hdrLines_noDecl,
    anyDecl_false midLines n midLines_noDecl,
    anyDecl_false ftrLines n ftrLines_noDecl,
    anyDecl_false _ n (entryBlocks_noDecl es),
    declBlocks_any ds n hds]
  simp

theorem countDecl_zero (P : List String) (n : String)
    (hP : ∀ l ∈ P, isDeclStart l = false) :
    P.countP (fun l => isDeclStart l && (extractInclude l == some n)) = 0 := by
  rw [List.countP_eq_zero]
  intro l hl
  rw [hP l hl]
  simp

theorem declBlocks_countP (ds : List (String × String)) (n : String)
    (hds : ∀ d ∈ ds, goodDecl d) :
    ((ds.map declBlock).flatten).countP
        (fun l => isDeclStart l && (extractInclude l == some n)) =
      (ds.filter (fun d => d.1 == n)).length := by
  induction ds with
  | nil => simp
  | cons d ds ih =>
    have hd : ¬ '\x22' ∈ d.1.data := hds d (List.mem_cons_self _ _)
    have hds' : ∀ x ∈ ds, goodDecl x := fun x hx => hds x (List.mem_cons_of_mem _ hx)
    have h1 : (isDeclStart (declOpenLine d.1) &&
        (extractInclude (declOpenLine d.1) == some n)) = (d.1 == n) := by
      rw [declOpen_isDecl, extractInclude_declOpen d.1 hd]
      simp
    have h2 : isDeclStart (uidLine d.2) = false := uid_notDecl d.2
    have h3 : isDeclStart "    </Filter>" = false := by decide
    cases hq : (d.1 == n) with
    | true => simp [declBlock, List.countP_cons, h1, h2, h3, hq, ih hds']
    | false => simp [declBlock, List.countP_cons, h1, h2, h3, hq, ih hds']

theorem declCount_fullDoc (ds es : List (String × String)) (n : String)
    (hds : ∀ d ∈ ds, goodDecl d) :
    declCount (fullDocOf ds es) n = (ds.filter (fun d => d.1 == n)).length := by
  simp only [declCount, fullDocOf, List.countP_append]
  rw [countDecl_zero hdrLines n hdrLines_noDecl,
    countDecl_zero midLines n midLines_noDecl,
    countDecl_zero ftrLines n ftrLines_noDecl,
    countDecl_zero _ n (entryBlocks_noDecl es),
    declBlocks_countP ds n hds]
  omega

theorem renameLine_id (fromN toN : String) (l : String)
    (h1 : isDeclStart l = false)
    (h2 : startsWithS (trimStartS l) "<Filter>" = false) :
    renameLine fromN toN l = l := by
  simp [renameLine, h1, h2]

theorem renameLine_declOpen (fromN toN : String) (d1 : String) (hd : ¬ '\x22' ∈ d1.data) :
    renameLine fromN toN (declOpenLine d1) =
      declOpenLine (if d1 == fromN then toN else d1) := by
  have h2 : startsWithS (trimStartS (declOpenLine d1)) "<Filter>" = false :=
    declOpen_notFilterElem d1
  cases hq : (d1 == fromN) with
  | true =>
    have he : d1 = fromN := by simpa using hq
    subst he
    simp [renameLine, declOpen_isDecl, extractInclude_declOpen d1 hd, h2, replaceS_declOpen]
  | false =>
    simp [renameLine, declOpen_isDecl, extractInclude_declOpen d1 hd, h2, hq]

theorem renameLine_fline (fromN toN : String) (f : String) (hf : ¬ '<' ∈ f.data) :
    renameLine fromN toN (entryFilterLine f) =
      entryFilterLine (if f == fromN then toN else f) := by
  have h1 : isDeclStart (entryFilterLine f) = false := entryFilter_notDecl f
  have hst : startsWithS (trimStartS (entryFilterLine f)) "<Filter>" = true :=
    entryFilter_trimStart_filter f
  have hen : endsWithS (trimStartS (entryFilterLine f)) "</Filter>" = true :=
    entryFilter_trimStart_endsFilter f
  have hex : extractBodyFilter (entryFilterLine f) = some f := extractBodyFilter_line f hf
  cases hq : (f == fromN) with
  | true =>
    have he : f = fromN := by simpa using hq
    subst he
    simp [renameLine, h1, hst, hen, hex, replaceS_fline]
  | false =>
    simp [renameLine, h1, hst, hen, hex, hq]

theorem renameLine_declBlock (fromN toN : String) (d : String × String)
    (hd : goodDecl d) :
    (declBlock d).map (renameLine fromN toN) = declBlock (renamedDecl fromN toN d) := by
  have hu : renameLine fromN toN (uidLine d.2) = uidLine d.2 :=
    renameLine_id fromN toN _ (uid_notDecl d.2) (uid_notFilterElem d.2)
  have hc : renameLine fromN toN "    </Filter>" = "    </Filter>" :=
    renameLine_id fromN toN _ (by decide) (by decide)
  cases hq : (d.1 == fromN) with
  | true =>
    simp [declBlock, renamedDecl, renameLine_declOpen fromN toN d.1 hd, hq, hu, hc]
  | false =>
    simp [declBlock, renamedDecl, renameLine_declOpen fromN toN d.1 hd, hq, hu, hc]

theorem renameLine_entryBlock (fromN toN : String) (e : String × String)
    (he : goodEntry e) :
    (entryBlock e).map (renameLine fromN toN) = entryBlock (renamedEntry fromN toN e) := by
  have ho : renameLine fromN toN (entryOpenLine e.1) = entryOpenLine e.1 :=
    renameLine_id fromN toN _ (entryOpen_notDecl e.1) (entryOpen_notFilterElem e.1)
  have hc : renameLine fromN toN "    </ClCompile>" = "    </ClCompile>" :=
    renameLine_id fromN toN _ (by decide) (by decide)
  cases hq : (e.2 == fromN) with
  | true =>
    simp [entryBlock, renamedEntry, renameLine_fline fromN toN e.2 he.2.2.1, hq, ho, hc]
  | false =>
    simp [entryBlock, renamedEntry, renameLine_fline fromN toN e.2 he.2.2.1, hq, ho, hc]

theorem renameMap_declBlocks (fromN toN : String) :
    ∀ (ds : List (String × String)), (∀ d ∈ ds, goodDecl d) →
      ((ds.map declBlock).flatten).map (renameLine fromN toN) =
        ((ds.map (renamedDecl fromN toN)).map declBlock).flatten := by
  intro ds
  induction ds with
  | nil => intro _; simp
  | cons d ds ih =>
    intro hds
    have hd := hds d (List.mem_cons_self _ _)
    have hds' : ∀ x ∈ ds, goodDecl x := fun x hx => hds x (List.mem_cons_of_mem _ hx)
    simp only [List.map_cons, List.flatten_cons, List.map_append]
    rw [renameLine_declBlock fromN toN d hd, ih hds']

theorem renameMap_entryBlocks (fromN toN : String) :
    ∀ (es : List (String × String)), (∀ e ∈ es, goodEntry e) →
      ((es.map entryBlock).flatten).map (renameLine fromN toN) =
        ((es.map (renamedEntry fromN toN)).map entryBlock).flatten := by
  intro es
  induction es with
  | nil => intro _; simp
  | cons e es ih =>
    intro hes
    have he := hes e (List.mem_cons_self _ _)
    have hes' : ∀ x ∈ es, goodEntry x := fun x hx => hes x (List.mem_cons_of_mem _ hx)
    simp only [List.map_cons, List.flatten_cons, List.map_append]
    rw [renameLine_entryBlock fromN toN e he, ih hes']

theorem renameMap_fullDoc (fromN toN : String) (ds es : List (String × String))
    (hds : ∀ d ∈ ds, goodDecl d) (hes : ∀ e ∈ es, goodEntry e) :
    (fullDocOf ds es).map (renameLine fromN toN) =
      fullDocOf (ds.map (renamedDecl fromN toN)) (es.map (renamedEntry fromN toN)) := by
  have hhdr : hdrLines.map (renameLine fromN toN) = hdrLines := by
    simp only [hdrLines, List.map_cons, List.map_nil]
    rw [renameLine_id fromN toN _ (by decide) (by decide),
      renameLine_id fromN toN _ (by decide) (by decide),
      renameLine_id fromN toN _ (by decide) (by decide)]
  have hmid : midLines.map (renameLine fromN toN) = midLines := by
    simp only [midLines, List.map_cons, List.map_nil]
    rw [renameLine_id fromN toN _ (by decide) (by decide),
      renameLine_id fromN toN _ (by decide) (by decide)]
  have hftr : ftrLines.map (renameLine fromN toN) = ftrLines := by
    simp only [ftrLines, List.map_cons, List.map_nil]
    rw [renameLine_id fromN toN _ (by decide) (by decide),
      renameLine_id fromN toN _ (by decide) (by decide)]
  simp only [fullDocOf, List.map_append]
  rw [hhdr, hmid, hftr, renameMap_declBlocks fromN toN ds hds,
    renameMap_entryBlocks fromN toN es hes]

theorem bodyContainsTo_block (t f : String) (rest : List String) :
    bodyContainsTo t (entryFilterLine f :: "    </ClCompile>" :: rest) =
      containsS (entryFilterLine f) (">" ++ t ++ "<") := by
  have hstop : startsWithS (trimS "    </ClCompile>") "</ClCompile>" = true := by decide
  rw [bodyContainsTo, entryFilter_trim_notCloseStart]
  cases hc : containsS (entryFilterLine f) (">" ++ t ++ "<") <;>
    simp [hc, bodyContainsTo, hstop]

theorem collectRenamed_skip (t : String) :
    ∀ (pre : List String), (∀ l ∈ pre, isEntryStart l = false) →
      ∀ rest, collectRenamed t (pre ++ rest) = collectRenamed t rest := by
  intro pre
  induction pre with
  | nil => intro _ rest; simp
  | cons l ls ih =>
    intro h rest
    have hl := h l (List.mem_cons_self _ _)
    have hls : ∀ x ∈ ls, isEntryStart x = false := fun x hx => h x (List.mem_cons_of_mem _ hx)
    rw [List.cons_append, collectRenamed]
    simp [hl, ih hls rest]

theorem collectRenamed_blocks (t : String) :
    ∀ (es : List (String × String)), (∀ e ∈ es, goodEntry e) →
      collectRenamed t ((es.map entryBlock).flatten ++ ftrLines) =
        (es.filter (fun e => containsS (entryFilterLine e.2) (">" ++ t ++ "<"))).map
          Prod.fst := by
  intro es
  induction es with
  | nil =>
    intro _
    have h1 : isEntryStart "  </ItemGroup>" = false := by decide
    have h2 : isEntryStart "</Project>" = false := by decide
    simp [ftrLines, collectRenamed, h1, h2]
  | cons e es ih =>
    intro hes
    have he := hes e (List.mem_cons_self _ _)
    have hes' : ∀ x ∈ es, goodEntry x := fun x hx => hes x (List.mem_cons_of_mem _ hx)
    have hshape : (((e :: es).map entryBlock).flatten ++ ftrLines) =
        entryOpenLine e.1 :: entryFilterLine e.2 :: "    </ClCompile>" ::
          ((es.map entryBlock).flatten ++ ftrLines) := by
      simp [entryBlock]
    have hbody := bodyContainsTo_block t e.2
      ((es.map entryBlock).flatten ++ ftrLines)
    have hskip : collectRenamed t (entryFilterLine e.2 :: "    </ClCompile>" ::
        ((es.map entryBlock).flatten ++ ftrLines)) =
        collectRenamed t ((es.map entryBlock).flatten ++ ftrLines) := by
      have := collectRenamed_skip t [entryFilterLine e.2, "    </ClCompile>"]
        (by
          intro l hl
          simp only [List.mem_cons, List.not_mem_nil, or_false] at hl
          rcases hl with rfl | rfl
          · exact entryFilter_notEntry e.2
          · decide)
        ((es.map entryBlock).flatten ++ ftrLines)
      simpa using this
    rw [hshape, collectRenamed]
    simp only [entryOpen_isEntryStart, if_true, extractInclude_open e.1 he.1]
    cases hc : containsS (entryFilterLine e.2) (">" ++ t ++ "<") with
    | true => simp [hbody, hc, hskip, ih hes', List.filter_cons]
    | false => simp [hbody, hc, hskip, ih hes', List.filter_cons]

theorem mergeBodyReplace_hit (fromN toN : String) (rest : List String) :
    mergeBodyReplace fromN toN (entryFilterLine fromN :: "    </ClCompile>" :: rest) =
      (true, entryFilterLine toN :: "    </ClCompile>" :: rest) := by
  have hc : containsS (entryFilterLine fromN) (">" ++ fromN ++ "<") = true :=
    assignMatches_self fromN ("", fromN) rfl
  rw [mergeBodyReplace, entryFilter_trim_notCloseStart]
  simp [hc, replaceS_fline]

theorem mergeBodyReplace_miss (fromN toN : String) (f : String) (rest : List String)
    (hc : containsS (entryFilterLine f) (">" ++ fromN ++ "<") = false) :
    mergeBodyReplace fromN toN (entryFilterLine f :: "    </ClCompile>" :: rest) =
      (false, entryFilterLine f :: "    </ClCompile>" :: rest) := by
  have hstop : startsWithS (trimS "    </ClCompile>") "</ClCompile>" = true := by decide
  rw [mergeBodyReplace, entryFilter_trim_notCloseStart]
  simp [hc, mergeBodyReplace, hstop]

theorem mergePassOne_skip (fromN toN : String) :
    ∀ (pre : List String), (∀ l ∈ pre, isEntryStart l = false) →
      ∀ (m : Nat) (rest : List String),
      mergePassOne fromN toN (pre.length + m) (pre ++ rest) =
        ((mergePassOne fromN toN m rest).1,
          pre ++ (mergePassOne fromN toN m rest).2) := by
  intro pre
  induction pre with
  | nil =>
    intro _ m rest
    simp
  | cons l ls ih =>
    intro h m rest
    have hl := h l (List.mem_cons_self _ _)
    have hls : ∀ x ∈ ls, isEntryStart x = false := fun x hx => h x (List.mem_cons_of_mem _ hx)
    have hk : (l :: ls).length + m = (ls.length + m) + 1 := by simp; omega
    rw [hk, List.cons_append]
    simp [mergePassOne, hl, ih hls m rest]

theorem mergePassOne_entries (fromN toN : String) :
    ∀ (es : List (String × String)) (fuel : Nat), 3 * es.length + 2 ≤ fuel →
      (∀ e ∈ es, goodEntry e) →
      (∀ e ∈ es, containsS (entryFilterLine e.2) (">" ++ fromN ++ "<") = true →
        e.2 = fromN) →
      mergePassOne fromN toN fuel
          ((es.map entryBlock).flatten ++ ["  </ItemGroup>", "</Project>"]) =
        ((es.filter (fun e => containsS (entryFilterLine e.2) (">" ++ fromN ++ "<"))).map
            Prod.fst,
          ((es.map (renamedEntry fromN toN)).map entryBlock).flatten ++
            ["  </ItemGroup>", "</Project>"]) := by
  intro es
  induction es with
  | nil =>
    intro fuel hf _ _
    obtain ⟨n, rfl⟩ : ∃ n, fuel = n + 2 := ⟨fuel - 2, by omega⟩
    have h1 : isEntryStart "  </ItemGroup>" = false := by decide
    have h2 : isEntryStart "</Project>" = false := by decide
    show mergePassOne fromN toN (n + 1 + 1) _ = _
    have hnil : ∀ m, mergePassOne fromN toN m [] = ([], []) := by
      intro m
      cases m <;> simp [mergePassOne]
    simp [mergePassOne, h1, h2, hnil]
  | cons e es ih =>
    intro fuel hf hes hcl
    have he := hes e (List.mem_cons_self _ _)
    have hes' : ∀ x ∈ es, goodEntry x := fun x hx => hes x (List.mem_cons_of_mem _ hx)
    have hcl' : ∀ x ∈ es, containsS (entryFilterLine x.2) (">" ++ fromN ++ "<") = true →
        x.2 = fromN := fun x hx => hcl x (List.mem_cons_of_mem _ hx)
    have hshape : (((e :: es).map entryBlock).flatten ++ ["  </ItemGroup>", "</Project>"]) =
        entryOpenLine e.1 :: entryFilterLine e.2 :: "    </ClCompile>" ::
          ((es.map entryBlock).flatten ++ ["  </ItemGroup>", "</Project>"]) := by
      simp [entryBlock]
    obtain ⟨n, rfl⟩ : ∃ n, fuel = n + 3 := ⟨fuel - 3, by simp at hf; omega⟩
    have hcl2 : isEntryStart "    </ClCompile>" = false := by decide
    have hrec := ih n (by simp at hf ⊢; omega) hes' hcl'
    rw [hshape]
    cases hc : containsS (entryFilterLine e.2) (">" ++ fromN ++ "<") with
    | true =>
      have he2 : e.2 = fromN := hcl e (List.mem_cons_self _ _) hc
      have hre : (e.2 == fromN) = true := by rw [he2]; simp
      have hhit := mergeBodyReplace_hit fromN toN
        ((es.map entryBlock).flatten ++ ["  </ItemGroup>", "</Project>"])
      show mergePassOne fromN toN (n + 1 + 1 + 1) _ = _
      simp only [mergePassOne, entryOpen_isEntryStart, if_true,
        extractInclude_open e.1 he.1, he2, hhit]
      have hfe : isEntryStart (entryFilterLine toN) = false := entryFilter_notEntry toN
      have hself : containsS (entryFilterLine fromN) (">" ++ fromN ++ "<") = true :=
        assignMatches_self fromN ("", fromN) rfl
      simp [mergePassOne, hfe, hcl2, hrec, List.filter_cons, hc, renamedEntry, hre,
        entryBlock, he2, hself]
    | false =>
      have hre : (e.2 == fromN) = false := by
        cases hq : (e.2 == fromN) with
        | true =>
          have he2 : e.2 = fromN := by simpa using hq
          have := assignMatches_self fromN e he2
          rw [assignMatches] at this
          rw [this] at hc
          cases hc
        | false => rfl
      have hmiss := mergeBodyReplace_miss fromN toN e.2
        ((es.map entryBlock).flatten ++ ["  </ItemGroup>", "</Project>"]) hc
      show mergePassOne fromN toN (n + 1 + 1 + 1) _ = _
      simp only [mergePassOne, entryOpen_isEntryStart, if_true,
        extractInclude_open e.1 he.1, hmiss]
      have hfe : isEntryStart (entryFilterLine e.2) = false := entryFilter_notEntry e.2
      simp [mergePassOne, hfe, hcl2, hrec, List.filter_cons, hc, renamedEntry, hre,
        entryBlock]

theorem removeFirstDecl_nodecl (n : String) :
    ∀ (ls : List String), (∀ l ∈ ls, isDeclStart l = false) →
      removeFirstDecl n ls = ls := by
  intro ls
  induction ls with
  | nil => intro _; simp [removeFirstDecl]
  | cons l rest ih =>
    intro h
    have hl := h l (List.mem_cons_self _ _)
    have hrest : ∀ x ∈ rest, isDeclStart x = false :=
      fun x hx => h x (List.mem_cons_of_mem _ hx)
    simp [removeFirstDecl, hl, ih hrest]

theorem removeFirstDecl_skip (n : String) :
    ∀ (pre : List String), (∀ l ∈ pre, isDeclStart l = false) →
      ∀ rest, removeFirstDecl n (pre ++ rest) = pre ++ removeFirstDecl n rest := by
  intro pre
  induction pre with
  | nil => intro _ rest; simp
  | cons l ls ih =>
    intro h rest
    have hl := h l (List.mem_cons_self _ _)
    have hls : ∀ x ∈ ls, isDeclStart x = false := fun x hx => h x (List.mem_cons_of_mem _ hx)
    rw [List.cons_append, removeFirstDecl]
    simp [hl, ih hls rest]

theorem removeFirstDecl_decls (fromN : String) :
    ∀ (ds : List (String × String)), (∀ d ∈ ds, goodDecl d) →
      ∀ (tailL : List String), (∀ l ∈ tailL, isDeclStart l = false) →
      removeFirstDecl fromN ((ds.map declBlock).flatten ++ tailL) =
        ((dropFirstDecl fromN ds).map declBlock).flatten ++ tailL := by
  intro ds
  induction ds with
  | nil =>
    intro _ tailL htail
    simp only [List.map_nil, List.flatten_nil, List.nil_append]
    exact removeFirstDecl_nodecl fromN tailL htail
  | cons d ds ih =>
    intro hds tailL htail
    have hd : ¬ '\x22' ∈ d.1.data := hds d (List.mem_cons_self _ _)
    have hds' : ∀ x ∈ ds, goodDecl x := fun x hx => hds x (List.mem_cons_of_mem _ hx)
    have hshape : (((d :: ds).map declBlock).flatten ++ tailL) =
        declOpenLine d.1 :: uidLine d.2 :: "    </Filter>" ::
          ((ds.map declBlock).flatten ++ tailL) := by
      simp [declBlock]
    rw [hshape, removeFirstDecl]
    cases hq : (d.1 == fromN) with
    | true =>
      simp [declOpen_isDecl, extractInclude_declOpen d.1 hd, hq,
        declOpen_trim_noSelfClose, dropFilterTail_declTail, dropFirstDecl]
    | false =>
      have h2 : isDeclStart (uidLine d.2) = false := uid_notDecl d.2
      have h3 : isDeclStart "    </Filter>" = false := by decide
      simp [declOpen_isDecl, extractInclude_declOpen d.1 hd, hq, removeFirstDecl,
        h2, h3, ih hds' tailL htail, dropFirstDecl, declBlock]

theorem goodDecl_renamed (fromN toN : String) (htoQ : ¬ '\x22' ∈ toN.data)
    (d : String × String) (hd : goodDecl d) : goodDecl (renamedDecl fromN toN d) := by
  cases hq : (d.1 == fromN) with
  | true => simpa [renamedDecl, goodDecl, hq] using htoQ
  | false => simpa [renamedDecl, goodDecl, hq] using hd

theorem goodEntry_renamed (fromN toN : String)
    (htoL : ¬ '<' ∈ toN.data) (htoG : ¬ '>' ∈ toN.data) (htoN : ¬ '\n' ∈ toN.data)
    (e : String × String) (he : goodEntry e) : goodEntry (renamedEntry fromN toN e) := by
  cases hq : (e.2 == fromN) with
  | true =>
    simp only [renamedEntry, hq, if_true]
    exact ⟨he.1, he.2.1, htoL, htoG, htoN⟩
  | false => simpa [renamedEntry, hq] using he

theorem mem_dropFirstDecl (fromN : String) :
    ∀ (ds : List (String × String)) (x : String × String),
      x ∈ dropFirstDecl fromN ds → x ∈ ds := by
  intro ds
  induction ds with
  | nil => intro x hx; simp [dropFirstDecl] at hx
  | cons d ds ih =>
    intro x hx
    rw [dropFirstDecl] at hx
    cases hq : (d.1 == fromN) with
    | true =>
      rw [hq] at hx
      simp only [if_true] at hx
      exact List.mem_cons_of_mem _ hx
    | false =>
      rw [hq] at hx
      simp only [Bool.false_eq_true, if_false, List.mem_cons] at hx
      rcases hx with rfl | hx
      · exact List.mem_cons_self _ _
      · exact List.mem_cons_of_mem _ (ih x hx)

theorem mapRenamed_filter_to (fromN toN : String) :
    ∀ (ds : List (String × String)),
      ((ds.map (renamedDecl fromN toN)).filter (fun d => d.1 == toN)).length =
        (ds.filter (fun d => d.1 == toN || d.1 == fromN)).length := by
  intro ds
  induction ds with
  | nil => simp
  | cons d ds ih =>
    cases hq : (d.1 == fromN) with
    | true => simp [renamedDecl, hq, List.filter_cons, ih]
    | false =>
      cases hq2 : (d.1 == toN) with
      | true => simp [renamedDecl, hq, hq2, List.filter_cons, ih]
      | false => simp [renamedDecl, hq, hq2, List.filter_cons, ih]

theorem dropFirst_count_self (fromN : String) :
    ∀ (ds : List (String × String)), ds.any (fun d => d.1 == fromN) = true →
      ((dropFirstDecl fromN ds).filter (fun d => d.1 == fromN)).length =
        (ds.filter (fun d => d.1 == fromN)).length - 1 := by
  intro ds
  induction ds with
  | nil => intro h; simp at h
  | cons d ds ih =>
    intro h
    cases hq : (d.1 == fromN) with
    | true => simp [dropFirstDecl, hq, List.filter_cons]
    | false =>
      have h' : ds.any (fun d => d.1 == fromN) = true := by
        simpa [List.any_cons, hq] using h
      simp [dropFirstDecl, hq, List.filter_cons, ih h']

theorem dropFirst_count_other (fromN toN : String) (hne : (fromN == toN) = false) :
    ∀ (ds : List (String × String)),
      ((dropFirstDecl fromN ds).filter (fun d => d.1 == toN)).length =
        (ds.filter (fun d => d.1 == toN)).length := by
  intro ds
  induction ds with
  | nil => simp [dropFirstDecl]
  | cons d ds ih =>
    cases hq : (d.1 == fromN) with
    | true =>
      have hq2 : (d.1 == toN) = false := by
        have h1 : d.1 = fromN := by simpa using hq
        rw [h1]
        exact hne
      simp [dropFirstDecl, hq, List.filter_cons, hq2]
    | false =>
      cases hq2 : (d.1 == toN) with
      | true => simp [dropFirstDecl, hq, hq2, List.filter_cons, ih]
      | false => simp [dropFirstDecl, hq, hq2, List.filter_cons, ih]

/-- Claim C2, amended: on every structured filter document in which both
`fromN` and `toN` are declared, `rename_filter` is not rejected: it renames
every `fromN` declaration and every `fromN` assignment, reports that the
target exists, and its document now declares `toN` once for each former
`toN` or `fromN` declaration — a duplicate.  `merge_filters` on the
original document instead moves every `fromN` assignment to `toN`, removes
only the first `fromN` declaration, and leaves exactly the original number
of `toN` declarations, so after the CLI's merge fallback `fromN` is gone
(when it was declared once), `toN` is declared as often as before, and
every file is under `toN`. -/
theorem C2_rename_conflict (ds es : List (String × String)) (fromN toN : String)
    (hds : ∀ d ∈ ds, goodDecl d) (hes : ∀ e ∈ es, goodEntry e)
    (htoQ : ¬ '\x22' ∈ toN.data) (htoL : ¬ '<' ∈ toN.data)
    (htoG : ¬ '>' ∈ toN.data) (htoNl : ¬ '\n' ∈ toN.data)
    (hfromAny : ds.any (fun d => d.1 == fromN) = true)
    (htoAny : ds.any (fun d => d.1 == toN) = true)
    (hne : (fromN == toN) = false)
    (hclean : ∀ e ∈ es, containsS (entryFilterLine e.2) (">" ++ fromN ++ "<") = true →
      e.2 = fromN) :
    renameFilter fromN toN (fullDocOf ds es) =
        Except.ok (true,
          ((es.map (renamedEntry fromN toN)).filter
            (fun e => containsS (entryFilterLine e.2) (">" ++ toN ++ "<"))).map Prod.fst,
          fullDocOf (ds.map (renamedDecl fromN toN)) (es.map (renamedEntry fromN toN))) ∧
      declCount (fullDocOf (ds.map (renamedDecl fromN toN))
          (es.map (renamedEntry fromN toN))) toN =
        (ds.filter (fun d => d.1 == toN || d.1 == fromN)).length ∧
      mergeFilters fromN toN (fullDocOf ds es) =
        ((es.filter (fun e => containsS (entryFilterLine e.2) (">" ++ fromN ++ "<"))).map
            Prod.fst,
          fullDocOf (dropFirstDecl fromN ds) (es.map (renamedEntry fromN toN))) ∧
      declCount (fullDocOf (dropFirstDecl fromN ds)
          (es.map (renamedEntry fromN toN))) fromN =
        (ds.filter (fun d => d.1 == fromN)).length - 1 ∧
      declCount (fullDocOf (dropFirstDecl fromN ds)
          (es.map (renamedEntry fromN toN))) toN =
        (ds.filter (fun d => d.1 == toN)).length := by
  have hdsR : ∀ d ∈ ds.map (renamedDecl fromN toN), goodDecl d := by
    intro d hd
    obtain ⟨d0, hd0, rfl⟩ := List.mem_map.mp hd
    exact goodDecl_renamed fromN toN htoQ d0 (hds d0 hd0)
  have hesR : ∀ e ∈ es.map (renamedEntry fromN toN), goodEntry e := by
    intro e he
    obtain ⟨e0, he0, rfl⟩ := List.mem_map.mp he
    exact goodEntry_renamed fromN toN htoL htoG htoNl e0 (hes e0 he0)
  have hdsD : ∀ d ∈ dropFirstDecl fromN ds, goodDecl d :=
    fun d hd => hds d (mem_dropFirstDecl fromN ds d hd)
  have hcoll : collectRenamed toN
      (fullDocOf (ds.map (renamedDecl fromN toN)) (es.map (renamedEntry fromN toN))) =
      ((es.map (renamedEntry fromN toN)).filter
        (fun e => containsS (entryFilterLine e.2) (">" ++ toN ++ "<"))).map Prod.fst := by
    have hre : fullDocOf (ds.map (renamedDecl fromN toN)) (es.map (renamedEntry fromN toN)) =
        (hdrLines ++ ((ds.map (renamedDecl fromN toN)).map declBlock).flatten ++ midLines) ++
          (((es.map (renamedEntry fromN toN)).map entryBlock).flatten ++ ftrLines) := by
      simp [fullDocOf]
    rw [hre, collectRenamed_skip toN _ (preEntry_noEntry (ds.map (renamedDecl fromN toN))) _,
      collectRenamed_blocks toN (es.map (renamedEntry fromN toN)) hesR]
  have h1 : renameFilter fromN toN (fullDocOf ds es) =
      Except.ok (true,
        ((es.map (renamedEntry fromN toN)).filter
          (fun e => containsS (entryFilterLine e.2) (">" ++ toN ++ "<"))).map Prod.fst,
        fullDocOf (ds.map (renamedDecl fromN toN)) (es.map (renamedEntry fromN toN))) := by
    simp only [renameFilter, declaredFilter_fullDoc ds es fromN hds,
      declaredFilter_fullDoc ds es toN hds, hfromAny, htoAny, Bool.not_true,
      Bool.false_eq_true, if_false]
    rw [renameMap_fullDoc fromN toN ds es hds hes, hcoll]
  have hsplit : fullDocOf ds es =
      (hdrLines ++ (ds.map declBlock).flatten ++ midLines) ++
        ((es.map entryBlock).flatten ++ ["  </ItemGroup>", "</Project>"]) := by
    simp [fullDocOf, ftrLines]
  have hlen1 : (fullDocOf ds es).length =
      (hdrLines ++ (ds.map declBlock).flatten ++ midLines).length +
        (3 * es.length + 2) := by
    rw [hsplit]
    simp [entryBlocks_sum, declBlocks_sum]
    omega
  have hEnt := mergePassOne_entries fromN toN es (3 * es.length + 2) (Nat.le_refl _) hes hclean
  have hA : mergePassOne fromN toN ((fullDocOf ds es).length) (fullDocOf ds es) =
      ((mergePassOne fromN toN (3 * es.length + 2)
          ((es.map entryBlock).flatten ++ ["  </ItemGroup>", "</Project>"])).1,
        (hdrLines ++ (ds.map declBlock).flatten ++ midLines) ++
          (mergePassOne fromN toN (3 * es.length + 2)
            ((es.map entryBlock).flatten ++ ["  </ItemGroup>", "</Project>"])).2) := by
    rw [hlen1, hsplit]
    exact mergePassOne_skip fromN toN _ (preEntry_noEntry ds) _ _
  have hrm : removeFirstDecl fromN
      ((hdrLines ++ (ds.map declBlock).flatten ++ midLines) ++
        (((es.map (renamedEntry fromN toN)).map entryBlock).flatten ++
          ["  </ItemGroup>", "</Project>"])) =
      fullDocOf (dropFirstDecl fromN ds) (es.map (renamedEntry fromN toN)) := by
    have hre2 : (hdrLines ++ (ds.map declBlock).flatten ++ midLines) ++
        (((es.map (renamedEntry fromN toN)).map entryBlock).flatten ++
          ["  </ItemGroup>", "</Project>"]) =
        hdrLines ++ ((ds.map declBlock).flatten ++
          (midLines ++ ((es.map (renamedEntry fromN toN)).map entryBlock).flatten ++
            ftrLines)) := by
      simp [ftrLines]
    rw [hre2, removeFirstDecl_skip fromN hdrLines hdrLines_noDecl _,
      removeFirstDecl_decls fromN ds hds _ (midTail_noDecl (es.map (renamedEntry fromN toN)))]
    simp [fullDocOf]
  have h3 : mergeFilters fromN toN (fullDocOf ds es) =
      ((es.filter (fun e => containsS (entryFilterLine e.2) (">" ++ fromN ++ "<"))).map
          Prod.fst,
        fullDocOf (dropFirstDecl fromN ds) (es.map (renamedEntry fromN toN))) := by
    simp only [mergeFilters]
    rw [hA]
    simp only []
    rw [hEnt]
    simp only []
    rw [hrm]
  refine ⟨h1, ?_, h3, ?_, ?_⟩
  · rw [declCount_fullDoc _ _ toN hdsR, mapRenamed_filter_to fromN toN ds]
  · rw [declCount_fullDoc _ _ fromN hdsD, dropFirst_count_self fromN ds hfromAny]
  · rw [declCount_fullDoc _ _ toN hdsD, dropFirst_count_other fromN toN hne ds]

/-- Witness for `C2_rename_conflict`: the `Old`/`New` conflict scenario on
the structured document, plus the concrete renameDoc runs: rename reports
the existing target and a duplicate declaration, while the merge fallback
leaves `New` declared once with both files under it. -/
theorem C2_rename_conflict_witness :
    (∀ d ∈ conflictDecls, goodDecl d) ∧
      (∀ e ∈ conflictEntries, goodEntry e) ∧
      conflictDecls.any (fun d => d.1 == "Old") = true ∧
      conflictDecls.any (fun d => d.1 == "New") = true ∧
      (∀ e ∈ conflictEntries,
        containsS (entryFilterLine e.2) (">" ++ "Old" ++ "<") = true → e.2 = "Old") ∧
      mergeFilters "Old" "New" (fullDocOf conflictDecls conflictEntries) =
        (["a.cpp"], fullDocOf [("New", "BBB")] [("a.cpp", "New"), ("b.cpp", "New")]) ∧
      ((renameFilter "Old" "New" renameDoc).toOption.map fun r =>
        (r.1, r.2.1, declCount r.2.2 "New")) = some (true, ["a.cpp", "b.cpp"], 2) ∧
      declCount (mergeFilters "Old" "New" renameDoc).2 "New" = 1 ∧
      declCount (mergeFilters "Old" "New" renameDoc).2 "Old" = 0 ∧
      getFileFilters (mergeFilters "Old" "New" renameDoc).2 =
        [("a.cpp", "New"), ("b.cpp", "New")] := by
  refine ⟨by decide, by decide, by decide, by decide, by decide, ?_,
    by decide, by decide, by decide, by decide⟩
  rw [(C2_rename_conflict conflictDecls conflictEntries "Old" "New" (by decide) (by decide)
    (by decide) (by decide) (by decide) (by decide) (by decide) (by decide) (by decide)
    (by decide)).2.2.1]
  decide

/-! ### Folders-only rendering: level 0 against unbounded depth -/

theorem hasMark_append (a b : String) : hasMark (a ++ b) = (hasMark a || hasMark b) := by
  simp [hasMark, String.data_append, List.any_append]

theorem beqShift (u i k : Nat) : ((u + i == u + k) : Bool) = (i == k) := by
  by_cases h : i = k
  · subst h; simp
  · have h2 : ¬ (u + i = u + k) := by omega
    simp [h, h2]

theorem displayFilterRec_levelZero (tree : String → List String) (fmap : String → List PFile)
    (htree : ∀ n c, c ∈ tree n → hasMark (lastSeg c) = false) :
    ∀ fuel name pfx isLast depth, hasMark (lastSeg name) = false → hasMark pfx = false →
      displayFilterRec tree fmap false (some 0) fuel name pfx isLast depth =
        (displayFilterRec tree fmap false none fuel name pfx isLast depth).filter
          (fun l => !hasMark l) := by
  intro fuel
  induction fuel with
  | zero => intros; simp [displayFilterRec]
  | succ n ih =>
    intro name pfx isLast depth hname hpfx
    have hfolder : hasMark "📁 " = false := by decide
    have hsym : hasMark (if isLast then "└── " else "├── ") = false := by
      cases isLast <;> decide
    have hthis : hasMark (pfx ++ (if isLast then "└── " else "├── ") ++ "📁 " ++ lastSeg name) = false := by
      simp [hasMark_append, hpfx, hname, hsym, hfolder]
    have hcp : hasMark (pfx ++ (if isLast then "    " else "│   ")) = false := by
      rw [hasMark_append, hpfx]
      cases isLast <;> decide
    simp only [displayFilterRec]
    simp only [Nat.lt_irrefl, decide_False, Bool.false_and, Bool.and_self, if_true, if_false,
      Bool.false_eq_true, reduceIte, List.append_nil]
    rw [List.filter_cons_of_pos (by simp [hthis])]
    congr 1
    rw [List.filter_append]
    have hfiles : List.filter (fun l => !hasMark l)
        ((insertionSort (fun a b => lexLe a.path b.path) (fmap name)).enum.map fun jf =>
          (pfx ++ if isLast then "    " else "│   ") ++
              (if (tree name).length + jf.1 == (tree name).length + (fmap name).length - 1 then
                "└── " else "├── ") ++ "📄 " ++ fileNameOf jf.2.path) = [] := by
      rw [List.filter_eq_nil_iff]
      intro a ha
      rcases List.mem_map.mp ha with ⟨jf, _, rfl⟩
      simp [hasMark_append, hasMark]
    rw [hfiles, List.append_nil, List.filter_flatten]
    congr 1
    rw [List.map_map]
    apply List.map_congr_left
    intro ic hic
    have hmem : ic.2 ∈ tree name := by
      rcases List.mem_enum hic with ⟨_, h2⟩
      exact h2 ▸ List.getElem_mem _
    simp only [Function.comp_apply]
    exact ih ic.2 (pfx ++ if isLast then "    " else "│   ") (ic.1 == (tree name).length + (fmap name).length - 1)
      (depth + 1) (htree name ic.2 hmem) hcp

theorem displayHier_levelZero (ps : PStructure)
    (hf : ∀ m ∈ allFiltersOf ps, hasMark (lastSeg m) = false) :
    displayHierarchicalTree ps false (some 0) =
      (displayHierarchicalTree ps false none).filter (fun l => !hasMark l) := by
  simp only [displayHierarchicalTree]
  simp only [Nat.lt_irrefl, decide_False, decide_True, if_false, if_true, Bool.false_eq_true,
    reduceIte, List.nil_append, Nat.zero_add]
  rw [List.filter_append]
  have hfl : List.filter (fun l => !hasMark l)
      ((ps.files.filter (fun f => f.fltr.isNone)).enum.map fun jf =>
        (if jf.1 == (ps.files.filter (fun f => f.fltr.isNone)).length +
            (List.filter (fun f => parentName f == "") (allFiltersOf ps)).length - 1 then
          "└── " else "├── ") ++ "📄 " ++ fileNameOf jf.2.path) = [] := by
    rw [List.filter_eq_nil_iff]
    intro a ha
    rcases List.mem_map.mp ha with ⟨jf, _, rfl⟩
    simp [hasMark_append, hasMark]
  rw [hfl, List.nil_append, List.filter_flatten, List.map_map]
  congr 1
  apply List.map_congr_left
  intro ic hic
  have hlt : ic.1 < (List.filter (fun f => parentName f == "") (allFiltersOf ps)).length :=
    (List.mem_enum hic).1
  have hmem : ic.2 ∈ allFiltersOf ps := by
    rcases List.mem_enum hic with ⟨_, h2⟩
    exact List.mem_of_mem_filter (h2 ▸ List.getElem_mem _)
  have htree : ∀ m c, c ∈ List.filter (fun f => parentName f == m) (allFiltersOf ps) →
      hasMark (lastSeg c) = false :=
    fun m c hc => hf c (List.mem_of_mem_filter hc)
  have hbool : ((ps.files.filter (fun f => f.fltr.isNone)).length + ic.1 ==
        (ps.files.filter (fun f => f.fltr.isNone)).length +
          (List.filter (fun f => parentName f == "") (allFiltersOf ps)).length - 1) =
      (ic.1 == (List.filter (fun f => parentName f == "") (allFiltersOf ps)).length - 1) := by
    have h : (ps.files.filter (fun f => f.fltr.isNone)).length +
          (List.filter (fun f => parentName f == "") (allFiltersOf ps)).length - 1 =
        (ps.files.filter (fun f => f.fltr.isNone)).length +
          ((List.filter (fun f => parentName f == "") (allFiltersOf ps)).length - 1) := by
      omega
    rw [h, beqShift]
  simp only [Function.comp_apply, hbool]
  exact displayFilterRec_levelZero _ _ htree (allFiltersOf ps).length.succ ic.2 "" _ 1
    (hf ic.2 hmem) (by decide)

/-- Claim C4, amended: with `max_depth = 0` the renderer emits exactly the
folder lines that unbounded rendering (`max_depth = none`) emits — depth
truncation is disabled — and no file lines at all: the level-0 output is
the unbounded output with every line containing the file marker removed.
The hypotheses only rule out the file-marker character inside the project
name and the rendered node names. -/
theorem C4_level_zero (ps : PStructure) (hn : hasMark ps.name = false)
    (hf : ∀ m ∈ allFiltersOf ps, hasMark (lastSeg m) = false) :
    displayTree ps false (some 0) = (displayTree ps false none).filter (fun l => !hasMark l) := by
  have h1 : hasMark ("📁 " ++ ps.name ++ ".vcxproj") = false := by
    simp only [hasMark_append, hn]
    refine Eq.trans ?_ (Bool.false_or false)
    refine congrArg₂ (· || ·) ?_ ?_ <;> decide
  simp only [displayTree]
  split
  · have h2 : hasMark "   (empty project)" = false := by decide
    simp [h1, h2]
  · rw [List.filter_cons_of_pos (by simp [h1])]
    rw [displayHier_levelZero ps hf]

/-- Witness for `C4_level_zero`: the hypotheses discharged on the
`a\b\c` structure. -/
theorem C4_level_zero_witness :
    hasMark abcStructure.name = false ∧
      (∀ m ∈ allFiltersOf abcStructure, hasMark (lastSeg m) = false) ∧
      displayTree abcStructure false (some 0) =
        (displayTree abcStructure false none).filter (fun l => !hasMark l) := by
  refine ⟨by decide, by decide, ?_⟩
  exact C4_level_zero abcStructure (by decide) (by decide)

end Vcprojm
